import Mathlib

/-!
# The e1000 driver and the UDP socket layer of the xv6 networking lab

A shallow embedding of `kernel/e1000.c` and `kernel/net.c`.  The kernel state
is one record that is passed through every operation.  Arrays of the C code
that have a fixed size of sixteen are functions on `Fin 16`; an access with an
index outside the array, a `panic` and a loop that does not come to an end are
the result `none`.  The locks are not part of the model: every operation runs
from its beginning to its end without another one in between; `printf` and
`wakeup` have no effect on the state and are left out.  A kernel address
(`char *`, `void *`) is a natural number, the null pointer is `0`.  An `int` is
an integer; a field of a descriptor holds a value of its C width, every store
of the model truncates to it.  The value a system call returns (`uint64` in C)
is given as the signed integer the caller sees.
-/

namespace Labnet

/-- The size of every ring and table: `TX_RING_SIZE` and `RX_RING_SIZE` of
e1000.c, `NSOCK` and `RX_RING_SIZE` of net.c are all 16. -/
abbrev RING : Nat := 16

/-- The constants whose definition is in a header that is not among the
sources; they are parameters of the model.  The first four are bit masks of
`e1000_dev.h`, `local_ip` is `MAKE_IP_ADDR(10, 0, 2, 15)` of `net.h`. -/
structure Consts where
  TXD_STAT_DD : Nat
  TXD_CMD_EOP : Nat
  TXD_CMD_RS : Nat
  RXD_STAT_DD : Nat
  local_ip : Nat

/-- The values of the constants in xv6 (the masks are those of the Intel
manual); used for concrete runs only. -/
def xv6Consts : Consts :=
  { TXD_STAT_DD := 1, TXD_CMD_EOP := 1, TXD_CMD_RS := 8, RXD_STAT_DD := 1
    local_ip := 0x0a00020f }

/-- A transmit descriptor: the fields `struct tx_desc` is used with
(`addr` is 64 bits wide, `length` 16, `cmd` and `status` 8). -/
structure TxDesc where
  addr : Nat
  length : Nat
  cmd : Nat
  status : Nat

/-- A receive descriptor: the fields `struct rx_desc` is used with. -/
structure RxDesc where
  addr : Nat
  length : Nat
  status : Nat

/-- One entry of `sockets[]` (`struct sock` without its lock). -/
structure Sock where
  port : Int
  valid : Int
  rxq : Fin RING → Nat
  r : Int
  w : Int

/-- The state of the kernel as far as the two files touch it.

* `tdt`, `rdt`, `icr`: the device registers `regs[E1000_TDT]`, `regs[E1000_RDT]`
  and `regs[E1000_ICR]`;
* `tx_ring`, `tx_bufs`, `rx_ring`, `rx_bufs`: the four static arrays of e1000.c;
* `sockets`, `seen_arp`, `seen_ip`: the static data of net.c;
* `mem`: the bytes of kernel memory, by address (a read takes the value mod 256);
* `umem`: the bytes of the memory of the calling process, by virtual address;
* `alloc_seq`, `nalloc`: the page allocator seen from outside, `alloc_seq n` is
  what the `n`-th call of `kalloc` returns (`0` when there is no page left);
* `killed`: the flag `myproc()->killed` of the calling process;
* `copy_ok`: whether `copyin` / `copyout` accept a range of user memory, given
  by its start and its length in bytes;
* `freed`: the arguments of the calls of `kfree`, oldest first;
* `rx_log`: the arguments of the calls of `net_rx`, oldest first. -/
structure Kernel where
  tdt : Nat
  rdt : Nat
  icr : Nat
  tx_ring : Fin RING → TxDesc
  tx_bufs : Fin RING → Nat
  rx_ring : Fin RING → RxDesc
  rx_bufs : Fin RING → Nat
  sockets : Fin RING → Sock
  seen_arp : Int
  seen_ip : Int
  mem : Nat → Nat
  umem : Nat → Nat
  alloc_seq : Nat → Nat
  nalloc : Nat
  killed : Int
  copy_ok : Nat → Nat → Bool
  freed : List Nat
  rx_log : List (Nat × Int)

/-- The call `kfree(p)`: the page allocator is outside the model, the call is
recorded. -/
def kfree (p : Nat) (s : Kernel) : Kernel :=
  { s with freed := s.freed ++ [p] }

/-- The call `kalloc()`: the next page of the allocation sequence. -/
def kalloc (s : Kernel) : Nat × Kernel :=
  (s.alloc_seq s.nalloc, { s with nalloc := s.nalloc + 1 })

/-- The test `status & E1000_TXD_STAT_DD` of a transmit descriptor. -/
def TxDesc.dd (c : Consts) (d : TxDesc) : Bool :=
  d.status &&& c.TXD_STAT_DD != 0

/-- The test `status & E1000_RXD_STAT_DD` of a receive descriptor. -/
def RxDesc.dd (c : Consts) (d : RxDesc) : Bool :=
  d.status &&& c.RXD_STAT_DD != 0

/-- The conversion of an `int` to the 16-bit `length` field. -/
def toU16 (len : Int) : Nat := (len % 65536).toNat

/-- The function `e1000_transmit(buf, len)` of e1000.c.  The result is the
returned `int` and the new state; `none` when the tail register does not index
the ring. -/
def e1000_transmit (c : Consts) (buf : Nat) (len : Int) (s : Kernel) :
    Option (Int × Kernel) :=
  if h : s.tdt < RING then
    let idx : Fin RING := ⟨s.tdt, h⟩
    if (s.tx_ring idx).dd c = false then
      some (-1, s)
    else
      let s1 : Kernel :=
        if s.tx_bufs idx ≠ 0 then
          { kfree (s.tx_bufs idx) s with tx_bufs := Function.update s.tx_bufs idx 0 }
        else s
      let d : TxDesc :=
        { s1.tx_ring idx with
          addr := buf
          length := toU16 len
          cmd := (c.TXD_CMD_EOP ||| c.TXD_CMD_RS) % 256 }
      some (0, { s1 with
        tx_ring := Function.update s1.tx_ring idx d
        tx_bufs := Function.update s1.tx_bufs idx buf
        tdt := (s.tdt + 1) % RING })
  else none

/-! ### Memory -/

/-- The read of one byte of memory. -/
def rd8 (m : Nat → Nat) (a : Nat) : Nat := m a % 256

/-- The read of a `uint16` in the byte order of the machine (RISC-V: the low
byte has the low address). -/
def rd16 (m : Nat → Nat) (a : Nat) : Nat := rd8 m a + 256 * rd8 m (a + 1)

/-- Modelled from the spec: `ntohs` of net.h (the header is not among the
sources) applied to the `uint16` stored at `a`; the wire formats are big-endian,
so this is the value of the two bytes with the high byte first. -/
def rd16be (m : Nat → Nat) (a : Nat) : Nat := 256 * rd8 m a + rd8 m (a + 1)

/-- Modelled from the spec: `ntohl` of net.h (the header is not among the
sources) applied to the `uint32` stored at `a`. -/
def rd32be (m : Nat → Nat) (a : Nat) : Nat :=
  16777216 * rd8 m a + 65536 * rd8 m (a + 1) + 256 * rd8 m (a + 2) + rd8 m (a + 3)

/-- The store of one byte. -/
def wr8 (m : Nat → Nat) (a v : Nat) : Nat → Nat := Function.update m a (v % 256)

/-- The store of a `uint16` in the byte order of the machine. -/
def wr16 (m : Nat → Nat) (a v : Nat) : Nat → Nat :=
  wr8 (wr8 m a v) (a + 1) (v / 256)

/-- Modelled from the spec: the store of `htons(v)` (net.h is not among the
sources): the 16 low bits of `v`, high byte first. -/
def wr16be (m : Nat → Nat) (a v : Nat) : Nat → Nat :=
  wr8 (wr8 m a (v / 256)) (a + 1) v

/-- Modelled from the spec: the store of `htonl(v)` (net.h is not among the
sources): the 32 low bits of `v`, high byte first. -/
def wr32be (m : Nat → Nat) (a v : Nat) : Nat → Nat :=
  wr8 (wr8 (wr8 (wr8 m a (v / 16777216)) (a + 1) (v / 65536)) (a + 2) (v / 256)) (a + 3) v

/-- The call `memmove(dst, src, n)` inside kernel memory. -/
def memmove (m : Nat → Nat) (dst src n : Nat) : Nat → Nat :=
  fun a => if dst ≤ a ∧ a < dst + n then m (src + (a - dst)) else m a

/-- The call `memset(dst, v, n)`. -/
def memset (m : Nat → Nat) (dst v n : Nat) : Nat → Nat :=
  fun a => if dst ≤ a ∧ a < dst + n then v % 256 else m a

/-- The call `memmove(dst, arr, n)` from a constant array of `n` bytes. -/
def wrBytes (m : Nat → Nat) (dst : Nat) (bs : List Nat) : Nat → Nat :=
  fun a => if dst ≤ a ∧ a < dst + bs.length then bs.getD (a - dst) 0 % 256 else m a

/-- The bytes a successful `copyin` / `copyout` of `n` bytes writes at `dst`;
`src k` is the `k`-th byte of the source. -/
def copyBytes (m : Nat → Nat) (dst : Nat) (src : Nat → Nat) (n : Nat) : Nat → Nat :=
  fun a => if dst ≤ a ∧ a < dst + n then src (a - dst) % 256 else m a

/-- The value of an `int` computed in 64 bits and stored in an `int`. -/
def wrap32 (x : Int) : Int := (x + 2147483648) % 4294967296 - 2147483648

/-- The conversion of an `int` to `uint64` (a length handed to `copyin`,
`copyout`, or compared with a `sizeof`). -/
def toU64 (x : Int) : Nat := (x % 18446744073709551616).toNat

/-- Modelled from the spec: `PGSIZE` of riscv.h (the header is not among the
sources); one page is 4096 bytes. -/
def PGSIZE : Nat := 4096

/-- The array `local_mac` of net.c. -/
def local_mac : List Nat := [0x52, 0x54, 0x00, 0x12, 0x34, 0x56]

/-- The array `host_mac` of net.c. -/
def host_mac : List Nat := [0x52, 0x55, 0x0a, 0x00, 0x02, 0x02]

/-! ### Wire formats

Modelled from the spec: the layout of the headers of net.h (the header is not
among the sources), as the wire formats give it.  Ethernet header, 14 bytes:
`dhost` 0, `shost` 6, `type` 12.  IP header, 20 bytes, at 14: `ip_vhl` 14,
`ip_tos` 15, `ip_len` 16, `ip_id` 18, `ip_off` 20, `ip_ttl` 22, `ip_p` 23,
`ip_sum` 24, `ip_src` 26, `ip_dst` 30.  UDP header, 8 bytes, at 34: `sport` 34,
`dport` 36, `ulen` 38, `sum` 40.  ARP body, 28 bytes, at 14: `hrd` 14, `pro` 16,
`hln` 18, `pln` 19, `op` 20, `sha` 22, `sip` 28, `tha` 32, `tip` 38.  The
constants are `ETHTYPE_IP = 0x0800`, `ETHTYPE_ARP = 0x0806`, `IPPROTO_UDP = 17`,
`ARP_HRD_ETHER = 1`, `ARP_OP_REPLY = 2`, `ETHADDR_LEN = 6`.  The functions below
use these offsets and values as numbers.
-/

/-! ### The checksum -/

/-- The loop `while (nleft > 1) { sum += *w++; nleft -= 2; }` of `in_cksum`;
`sum` is an `unsigned int`.  The result is `nleft`, `w` and `sum` after the
loop. -/
def cksum_words (m : Nat → Nat) : Nat → Nat → Nat → Nat × Nat × Nat
  | nleft + 2, w, sum => cksum_words m nleft (w + 2) ((sum + rd16 m w) % 4294967296)
  | nleft, w, sum => (nleft, w, sum)

/-- The two folding steps and the complement at the end of `in_cksum`
(`sum & 0xffff` is `sum % 65536`, `sum >> 16` is `sum / 65536`). -/
def cksum_fold (sum : Nat) : Nat :=
  let sum1 := (sum % 65536 + sum / 65536) % 4294967296
  let sum2 := (sum1 + sum1 / 65536) % 4294967296
  (4294967295 - sum2) % 65536

/-- The function `in_cksum(addr, len)` of net.c, on the memory `m`.  A negative
`len` runs neither the loop nor the odd-byte step, like `len = 0`. -/
def in_cksum (m : Nat → Nat) (addr : Nat) (len : Int) : Nat :=
  let st := cksum_words m len.toNat addr 0
  let sum := if st.1 = 1 then (st.2.2 + rd8 m st.2.1) % 4294967296 else st.2.2
  cksum_fold sum

/-! ### The socket table -/

/-- The test `sockets[i].valid && sockets[i].port == port`. -/
def Sock.bound (sk : Sock) (port : Int) : Bool := sk.valid != 0 && sk.port == port

/-- The loop `for (i = 0; i < NSOCK; i++) if (valid && port == p) ...` that
`sys_bind`, `sys_unbind`, `sys_recv` and `ip_rx` share: the first slot bound to
the port. -/
def find_sock (socks : Fin RING → Sock) (port : Int) : Option (Fin RING) :=
  (List.finRange RING).find? fun i => (socks i).bound port

/-- The second loop of `sys_bind`: the first slot that is not valid. -/
def find_free (socks : Fin RING → Sock) : Option (Fin RING) :=
  (List.finRange RING).find? fun i => (socks i).valid == 0

/-- An `int` used as an index of an array of sixteen elements. -/
def toIdx (x : Int) : Option (Fin RING) :=
  if h : 0 ≤ x ∧ x < 16 then some ⟨x.toNat, by unfold RING; omega⟩ else none

/-- The expression `(x + 1) % RX_RING_SIZE` on `int`s. -/
def next16 (x : Int) : Int := Int.tmod (x + 1) 16

/-- The system call `bind(port)`: `sys_bind` of net.c with its argument. -/
def sys_bind (port : Int) (s : Kernel) : Int × Kernel :=
  match find_sock s.sockets port with
  | some _ => (-1, s)
  | none =>
    match find_free s.sockets with
    | some i =>
      let sk : Sock := { s.sockets i with valid := 1, port := port, r := 0, w := 0 }
      (0, { s with sockets := Function.update s.sockets i sk })
    | none => (-1, s)

/-- The loop `while (sockets[i].r != sockets[i].w) { kfree(rxq[r]); r = (r + 1) % 16; }`
of `sys_unbind`. -/
def unbind_drain : Nat → Fin RING → Kernel → Option Kernel
  | 0, _, _ => none
  | fuel + 1, i, s =>
    if (s.sockets i).r = (s.sockets i).w then some s
    else
      match toIdx (s.sockets i).r with
      | none => none
      | some ri =>
        let s1 := kfree ((s.sockets i).rxq ri) s
        let sk : Sock := { s1.sockets i with r := next16 (s1.sockets i).r }
        unbind_drain fuel i { s1 with sockets := Function.update s1.sockets i sk }

/-- The system call `unbind(port)`: `sys_unbind` of net.c with its argument;
`fuel` bounds the number of tests of the drain loop. -/
def sys_unbind (fuel : Nat) (port : Int) (s : Kernel) : Option (Int × Kernel) :=
  match find_sock s.sockets port with
  | some i =>
    match unbind_drain fuel i s with
    | none => none
    | some s1 =>
      let sk : Sock := { s1.sockets i with valid := 0 }
      some (0, { s1 with sockets := Function.update s1.sockets i sk })
  | none => some (0, s)

/-- How a call of `sys_recv` ends: it returns a value, or it is in `sleep`,
waiting for a `wakeup` on its socket. -/
inductive RecvResult where
  | ret (v : Int)
  | sleeping
  deriving DecidableEq, Repr

/-- The `k`-th byte in memory of an unsigned variable with the value `v` (the
low byte first). -/
def bytes32 (v : Nat) (k : Nat) : Nat := v / 256 ^ k % 256

/-- The second half of `sys_recv`, from the parsing of the headers of the
dequeued buffer `buf` on: the three `copyout`s, the `kfree` and the value
returned. -/
def recv_deliver (buf : Nat) (src_addr sport_addr buf_addr : Nat) (maxlen : Int)
    (s1 : Kernel) : Int × Kernel :=
  let payload_len : Int := wrap32 ((rd16be s1.mem (buf + 38) : Int) - 8)
  let src_ip := rd32be s1.mem (buf + 26)
  let src_port := rd16be s1.mem (buf + 34)
  let copy_len : Int := if payload_len < maxlen then payload_len else maxlen
  if s1.copy_ok src_addr 4 = false then (-1, kfree buf s1)
  else
    let um1 := copyBytes s1.umem src_addr (bytes32 src_ip) 4
    if s1.copy_ok sport_addr 2 = false then (-1, kfree buf { s1 with umem := um1 })
    else
      let um2 := copyBytes um1 sport_addr (bytes32 src_port) 2
      if s1.copy_ok buf_addr (toU64 copy_len) = false then
        (-1, kfree buf { s1 with umem := um2 })
      else
        let um3 := copyBytes um2 buf_addr (fun k => s1.mem (buf + 42 + k)) (toU64 copy_len)
        (copy_len, kfree buf { s1 with umem := um3 })

/-- The system call `recv(dport, src, sport, buf, maxlen)`: `sys_recv` of net.c
with its arguments. -/
def sys_recv (dport : Int) (src_addr sport_addr buf_addr : Nat) (maxlen : Int)
    (s : Kernel) : Option (RecvResult × Kernel) :=
  match find_sock s.sockets dport with
  | none => some (.ret (-1), s)
  | some i =>
    if (s.sockets i).r = (s.sockets i).w then
      if s.killed ≠ 0 then some (.ret (-1), s) else some (.sleeping, s)
    else
      match toIdx (s.sockets i).r with
      | none => none
      | some ri =>
        let buf := (s.sockets i).rxq ri
        let sk : Sock := { s.sockets i with r := next16 (s.sockets i).r }
        let s1 : Kernel := { s with sockets := Function.update s.sockets i sk }
        let res := recv_deliver buf src_addr sport_addr buf_addr maxlen s1
        some (.ret res.1, res.2)

/-! ### Received frames -/

/-- The function `ip_rx(buf, len)` of net.c. -/
def ip_rx (buf : Nat) (_len : Int) (s0 : Kernel) : Option Kernel :=
  let s : Kernel := { s0 with seen_ip := 1 }
  if rd8 s.mem (buf + 23) ≠ 17 then some (kfree buf s)
  else
    let dport : Int := rd16be s.mem (buf + 36)
    match find_sock s.sockets dport with
    | some i =>
      if next16 (s.sockets i).w = (s.sockets i).r then some (kfree buf s)
      else
        match toIdx (s.sockets i).w with
        | none => none
        | some wi =>
          let sk : Sock :=
            { s.sockets i with
              rxq := Function.update (s.sockets i).rxq wi buf
              w := next16 (s.sockets i).w }
          some { s with sockets := Function.update s.sockets i sk }
    | none => some (kfree buf s)

/-- The function `arp_rx(inbuf)` of net.c; `none` is the `panic` when there is
no page for the reply. -/
def arp_rx (c : Consts) (inbuf : Nat) (s : Kernel) : Option Kernel :=
  if s.seen_arp ≠ 0 then some (kfree inbuf s)
  else
    let r := kalloc { s with seen_arp := 1 }
    let buf := r.1
    let s2 := r.2
    if buf = 0 then none
    else
      let m := memmove s2.mem buf (inbuf + 6) 6
      let m := wrBytes m (buf + 6) local_mac
      let m := wr16be m (buf + 12) 0x0806
      let m := wr16be m (buf + 14) 1
      let m := wr16be m (buf + 16) 0x0800
      let m := wr8 m (buf + 18) 6
      let m := wr8 m (buf + 19) 4
      let m := wr16be m (buf + 20) 2
      let m := wrBytes m (buf + 22) local_mac
      let m := wr32be m (buf + 28) c.local_ip
      let m := memmove m (buf + 32) (inbuf + 6) 6
      let m := memmove m (buf + 38) (inbuf + 28) 4
      match e1000_transmit c buf 42 { s2 with mem := m } with
      | none => none
      | some res => some (kfree inbuf res.2)

/-- The function `net_rx(buf, len)` of net.c; the comparison of `len` with a
`sizeof` is a comparison of unsigned 64-bit values. -/
def net_rx (c : Consts) (buf : Nat) (len : Int) (s0 : Kernel) : Option Kernel :=
  let s : Kernel := { s0 with rx_log := s0.rx_log ++ [(buf, len)] }
  if 42 ≤ toU64 len ∧ rd16be s.mem (buf + 12) = 0x0806 then arp_rx c buf s
  else if 34 ≤ toU64 len ∧ rd16be s.mem (buf + 12) = 0x0800 then ip_rx buf len s
  else some (kfree buf s)

/-! ### The receive ring -/

/-- The index after `idx` in a ring: `(idx + 1) % RX_RING_SIZE`. -/
def ringNext (idx : Fin RING) : Fin RING :=
  ⟨(idx.val + 1) % RING, Nat.mod_lt _ (by decide)⟩

/-- The loop of `e1000_recv`, from the test of the descriptor at `idx`; `fuel`
bounds the number of tests, `none` is also the `panic` when there is no page to
put in the place of the one handed to `net_rx`. -/
def recv_loop (c : Consts) : Nat → Fin RING → Kernel → Option Kernel
  | 0, _, _ => none
  | fuel + 1, idx, s =>
    if (s.rx_ring idx).dd c = true then
      match net_rx c (s.rx_bufs idx) ((s.rx_ring idx).length : Int) s with
      | none => none
      | some s1 =>
        let r := kalloc s1
        if r.1 = 0 then none
        else
          let s2 := r.2
          let d : RxDesc := { s2.rx_ring idx with addr := r.1, status := 0 }
          recv_loop c fuel (ringNext idx)
            { s2 with
              rx_bufs := Function.update s2.rx_bufs idx r.1
              rx_ring := Function.update s2.rx_ring idx d
              rdt := idx.val }
    else some s

/-- The function `e1000_recv()` of e1000.c; the register is 32 bits wide. -/
def e1000_recv (c : Consts) (fuel : Nat) (s : Kernel) : Option Kernel :=
  recv_loop c fuel ⟨(s.rdt + 1) % 4294967296 % RING, Nat.mod_lt _ (by decide)⟩ s

/-- The function `e1000_intr()` of e1000.c. -/
def e1000_intr (c : Consts) (fuel : Nat) (s : Kernel) : Option Kernel :=
  e1000_recv c fuel { s with icr := 0xffffffff }

/-! ### Initialisation of the device -/

/-- The loop of the transmit initialisation of `e1000_init`, over the indices
of the list: `status = E1000_TXD_STAT_DD` (an 8-bit field), `addr = 0` and
`tx_bufs[i] = 0`. -/
def init_tx (c : Consts) : List (Fin RING) → Kernel → Kernel
  | [], s => s
  | i :: is, s =>
    init_tx c is { s with
      tx_ring := Function.update s.tx_ring i
        { s.tx_ring i with status := c.TXD_STAT_DD % 256, addr := 0 }
      tx_bufs := Function.update s.tx_bufs i 0 }

/-- The loop of the receive initialisation of `e1000_init`, over the indices
of the list: a page from `kalloc` for every descriptor; `none` is the `panic`
when there is no page. -/
def init_rx : List (Fin RING) → Kernel → Option Kernel
  | [], s => some s
  | i :: is, s =>
    let r := kalloc s
    if r.1 = 0 then none
    else
      let s1 := r.2
      init_rx is { s1 with
        rx_bufs := Function.update s1.rx_bufs i r.1
        rx_ring := Function.update s1.rx_ring i { s1.rx_ring i with addr := r.1 } }

/-- The function `e1000_init(xregs)` of e1000.c, as far as it touches the
state of the model: the two rings, the two arrays of buffers and the tail
registers (the other registers of the device are not part of the state). -/
def e1000_init (c : Consts) (s : Kernel) : Option Kernel :=
  let s1 : Kernel :=
    { s with tx_ring := fun _ => { addr := 0, length := 0, cmd := 0, status := 0 } }
  let s2 := init_tx c (List.finRange RING) s1
  let s3 : Kernel := { s2 with tdt := 0 }
  let s4 : Kernel := { s3 with rx_ring := fun _ => { addr := 0, length := 0, status := 0 } }
  match init_rx (List.finRange RING) s4 with
  | none => none
  | some s5 => some { s5 with rdt := 15 }

/-! ### Sending -/

/-- The part of `sys_send` from `memset(buf, 0, PGSIZE)` to the store of
`udp->ulen`: the memory after the Ethernet, IP and UDP headers are written
into the page `buf`. -/
def send_headers (c : Consts) (m0 : Nat → Nat) (buf : Nat) (sport dst dport len : Int) :
    Nat → Nat :=
  let m := memset m0 buf 0 PGSIZE
  let m := wrBytes m buf host_mac
  let m := wrBytes m (buf + 6) local_mac
  let m := wr16be m (buf + 12) 0x0800
  let m := wr8 m (buf + 14) 0x45
  let m := wr8 m (buf + 15) 0
  let m := wr16be m (buf + 16) (toU64 (28 + len))
  let m := wr16 m (buf + 18) 0
  let m := wr16 m (buf + 20) 0
  let m := wr8 m (buf + 22) 100
  let m := wr8 m (buf + 23) 17
  let m := wr32be m (buf + 26) c.local_ip
  let m := wr32be m (buf + 30) (toU64 dst)
  let m := wr16 m (buf + 24) (in_cksum m (buf + 14) 20)
  let m := wr16be m (buf + 34) (toU64 sport)
  let m := wr16be m (buf + 36) (toU64 dport)
  wr16be m (buf + 38) (toU64 (len + 8))

/-- The system call `send(sport, dst, dport, buf, len)`: `sys_send` of net.c
with its arguments.  `none` when `e1000_transmit` has no result. -/
def sys_send (c : Consts) (sport dst dport : Int) (bufaddr : Nat) (len : Int)
    (s : Kernel) : Option (Int × Kernel) :=
  let total : Int := wrap32 (len + 42)
  if total > PGSIZE then some (-1, s)
  else
    let r := kalloc s
    let buf := r.1
    let s1 := r.2
    if buf = 0 then some (-1, s1)
    else
      let m := send_headers c s1.mem buf sport dst dport len
      if s1.copy_ok bufaddr (toU64 len) = false then
        some (-1, kfree buf { s1 with mem := m })
      else
        let m := copyBytes m (buf + 42) (fun k => s1.umem (bufaddr + k)) (toU64 len)
        match e1000_transmit c buf total { s1 with mem := m } with
        | none => none
        | some res => some (0, res.2)

/-! ### Notions used in the statements -/

/-- The read and write index of a socket are indices of its queue. -/
def Sock.inRange (sk : Sock) : Prop := 0 ≤ sk.r ∧ sk.r < 16 ∧ 0 ≤ sk.w ∧ sk.w < 16

instance (sk : Sock) : Decidable sk.inRange := by
  unfold Sock.inRange; exact inferInstance

/-- The number of buffers in the queue of a socket: the way from `r` to `w`
round the ring. -/
def Sock.count (sk : Sock) : Nat := ((sk.w - sk.r) % 16).toNat

/-- The slot of the queue `k` places after the read index. -/
def Sock.slot (sk : Sock) (k : Nat) : Fin RING :=
  ⟨((sk.r + (k : Int)) % 16).toNat, by unfold RING; omega⟩

/-- The buffers in the queue of a socket, the one `sys_recv` takes next first:
`rxq[r]`, `rxq[(r + 1) % 16]`, ... up to the slot before `w`. -/
def Sock.queued (sk : Sock) : List Nat :=
  (List.range sk.count).map fun k => sk.rxq (sk.slot k)

/-- The sum of the `n` 16-bit words of memory from the address `w` on, read in
the byte order of the machine, as a natural number (no wrap). -/
def wordSum (m : Nat → Nat) : Nat → Nat → Nat
  | _, 0 => 0
  | w, n + 1 => rd16 m w + wordSum m (w + 2) n

/-- The slot of a ring of sixteen with the number `n` modulo 16. -/
def ringSlot (n : Nat) : Fin RING := ⟨n % RING, Nat.mod_lt _ (by decide)⟩

/-- What `net_rx` needs to return: the transmit tail indexes the ring, the
indices of every socket are indices of its queue, and every call of `kalloc`
from now on gets a page. -/
def NetOK (s : Kernel) : Prop :=
  s.tdt < 16 ∧ (∀ i : Fin RING, (s.sockets i).inRange) ∧
    ∀ n, s.nalloc ≤ n → s.alloc_seq n ≠ 0

/-- The state `s'` has the receive ring, the receive tail, the allocation
sequence and the log of `net_rx` calls of `s`, and no allocation is undone. -/
def RxFrame (s s' : Kernel) : Prop :=
  s'.rx_ring = s.rx_ring ∧ s'.rx_bufs = s.rx_bufs ∧ s'.rdt = s.rdt ∧
    s'.alloc_seq = s.alloc_seq ∧ s.nalloc ≤ s'.nalloc ∧ s'.rx_log = s.rx_log

/-- The read of a `uint32` in the byte order of the machine. -/
def rd32 (m : Nat → Nat) (a : Nat) : Nat :=
  rd8 m a + 256 * rd8 m (a + 1) + 65536 * rd8 m (a + 2) + 16777216 * rd8 m (a + 3)

/-- The `n` bytes at `a` in the memory `m` are the `n` bytes at `a'` in the
memory `m'`. -/
def sameBytes (m : Nat → Nat) (a : Nat) (m' : Nat → Nat) (a' n : Nat) : Prop :=
  ∀ k, k < n → rd8 m (a + k) = rd8 m' (a' + k)

/-- A frame in the buffer `buf` is a UDP datagram for `port`: the protocol
field of its IP header is 17 and the destination port of its UDP header, in
host order, is `port`. -/
def udpFor (m : Nat → Nat) (buf : Nat) (port : Int) : Prop :=
  rd8 m (buf + 23) = 17 ∧ (rd16be m (buf + 36) : Int) = port

instance (m : Nat → Nat) (buf : Nat) (port : Int) : Decidable (udpFor m buf port) := by
  unfold udpFor; exact inferInstance

/-- One step of a run on a socket: a frame handed to `ip_rx`, or a call of
`sys_recv` with its four last arguments. -/
inductive SockOp where
  | deliver (buf : Nat) (len : Int)
  | recv (src_addr sport_addr buf_addr : Nat) (maxlen : Int)

/-- What a run on the socket of `port` shows from outside: the buffers `ip_rx`
kept (it did not free them), the buffers the calls of `sys_recv` took out of
the queue (each is freed by the call that took it), and the state at the end. -/
structure RunLog where
  accepted : List Nat
  dequeued : List Nat
  state : Kernel

/-- The run of a list of steps, one after the other, from the state and the
lists of `log`.  A buffer handed to `ip_rx` counts as accepted when the call
frees nothing; the buffers a call of `sys_recv` takes are those it frees. -/
def run (port : Int) : List SockOp → RunLog → Option RunLog
  | [], log => some log
  | SockOp.deliver buf len :: ops, log =>
    match ip_rx buf len log.state with
    | none => none
    | some s' =>
      run port ops
        { accepted := log.accepted ++ (if s'.freed = log.state.freed then [buf] else [])
          dequeued := log.dequeued
          state := s' }
  | SockOp.recv a1 a2 a3 maxlen :: ops, log =>
    match sys_recv port a1 a2 a3 maxlen log.state with
    | none => none
    | some res =>
      run port ops
        { accepted := log.accepted
          dequeued := log.dequeued ++ res.2.freed.drop log.state.freed.length
          state := res.2 }

/-- Where `net_rx` sends a frame: to `arp_rx`, to `ip_rx`, or to `kfree`. -/
inductive FrameClass where
  | arp
  | ip
  | drop
deriving DecidableEq

/-- The branch `net_rx(buf, len)` takes when the memory is `m`, by the two
tests of its `if`. -/
def classify (m : Nat → Nat) (buf : Nat) (len : Int) : FrameClass :=
  if 42 ≤ toU64 len ∧ rd16be m (buf + 12) = 0x0806 then FrameClass.arp
  else if 34 ≤ toU64 len ∧ rd16be m (buf + 12) = 0x0800 then FrameClass.ip
  else FrameClass.drop

/-- The memory after `arp_rx(inbuf)` has written its reply into the page
`buf`: the stores of `arp_rx` between its `kalloc` and its `e1000_transmit`,
in their order. -/
def arp_reply (c : Consts) (m0 : Nat → Nat) (buf inbuf : Nat) : Nat → Nat :=
  let m := memmove m0 buf (inbuf + 6) 6
  let m := wrBytes m (buf + 6) local_mac
  let m := wr16be m (buf + 12) 0x0806
  let m := wr16be m (buf + 14) 1
  let m := wr16be m (buf + 16) 0x0800
  let m := wr8 m (buf + 18) 6
  let m := wr8 m (buf + 19) 4
  let m := wr16be m (buf + 20) 2
  let m := wrBytes m (buf + 22) local_mac
  let m := wr32be m (buf + 28) c.local_ip
  let m := memmove m (buf + 32) (inbuf + 6) 6
  memmove m (buf + 38) (inbuf + 28) 4

/-- The frames of a list, each a buffer and a length, handed to `net_rx` one
after the other. -/
def deliver_all (c : Consts) : List (Nat × Int) → Kernel → Option Kernel
  | [], s => some s
  | f :: fs, s => (net_rx c f.1 f.2 s).bind (deliver_all c fs)

/-- The 42 bytes at `buf` in the memory `m` are the ARP reply to the request
at `inbuf` in the memory `req`: Ethernet destination the Ethernet source of the
request, Ethernet source the local MAC, type ARP, hardware type 1, protocol
type 0x0800, address lengths 6 and 4, operation 2 (reply), sender hardware and
IP address the local MAC and `local_ip`, target hardware address the Ethernet
source of the request, target IP address the sender IP address of the request. -/
def ArpReplyTo (c : Consts) (m : Nat → Nat) (buf : Nat) (req : Nat → Nat) (inbuf : Nat) :
    Prop :=
  (∀ k, k < 6 → rd8 m (buf + k) = rd8 req (inbuf + 6 + k)) ∧
  (∀ k, k < 6 → rd8 m (buf + 6 + k) = local_mac.getD k 0) ∧
  rd16be m (buf + 12) = 0x0806 ∧
  rd16be m (buf + 14) = 1 ∧
  rd16be m (buf + 16) = 0x0800 ∧
  rd8 m (buf + 18) = 6 ∧
  rd8 m (buf + 19) = 4 ∧
  rd16be m (buf + 20) = 2 ∧
  (∀ k, k < 6 → rd8 m (buf + 22 + k) = local_mac.getD k 0) ∧
  rd32be m (buf + 28) = c.local_ip % 4294967296 ∧
  (∀ k, k < 6 → rd8 m (buf + 32 + k) = rd8 req (inbuf + 6 + k)) ∧
  (∀ k, k < 4 → rd8 m (buf + 38 + k) = rd8 req (inbuf + 28 + k))

/-- How often `buf` has been freed between the state `s` and the later state
`s'`: its occurrences among the calls of `kfree` logged since `s`. -/
def freedSince (s s' : Kernel) (buf : Nat) : Nat :=
  (s'.freed.drop s.freed.length).count buf

/-- The frame in `buf` is one for a queue: `net_rx` classifies it IP, its
protocol field is 17 (UDP), a valid socket is bound to its destination port
(host order), and the queue of that socket is not full. -/
def Enqueues (s : Kernel) (buf : Nat) (len : Int) : Prop :=
  classify s.mem buf len = FrameClass.ip ∧ rd8 s.mem (buf + 23) = 17 ∧
    ∃ i, find_sock s.sockets (rd16be s.mem (buf + 36)) = some i ∧
      ((s.sockets i).w + 1) % 16 ≠ (s.sockets i).r

/-- Between `s` and `s'` the buffer has been freed once, and it is in no
queue in `s'`. -/
def FreedOnce (s s' : Kernel) (buf : Nat) : Prop :=
  freedSince s s' buf = 1 ∧ ∀ j : Fin RING, (s'.sockets j).queued.count buf = 0

/-- Between `s` and `s'` the buffer has not been freed, and in `s'` it is
once in the queue of the socket bound to the destination port of its frame and
in no other queue. -/
def QueuedOnce (s s' : Kernel) (buf : Nat) : Prop :=
  freedSince s s' buf = 0 ∧
    ∃ i, find_sock s.sockets (rd16be s.mem (buf + 36)) = some i ∧
      (s'.sockets i).queued.count buf = 1 ∧
      ∀ j : Fin RING, j ≠ i → (s'.sockets j).queued.count buf = 0

/-- An operation on the socket table: the system calls `bind`, `unbind` and
`recv` with their arguments, and the arrival of a frame, for which the device
has left the kernel memory `m` and `ip_rx(buf, len)` runs. -/
inductive TableOp where
  | bind (port : Int)
  | unbind (port : Int)
  | rx (m : Nat → Nat) (buf : Nat) (len : Int)
  | recv (dport : Int) (src_addr sport_addr buf_addr : Nat) (maxlen : Int)

/-- The state after one operation on the socket table; the drain loop of
`sys_unbind` gets sixteen tests. -/
def TableOp.step : TableOp → Kernel → Option Kernel
  | TableOp.bind p, s => some (sys_bind p s).2
  | TableOp.unbind p, s => (sys_unbind 16 p s).map Prod.snd
  | TableOp.rx m buf len, s => ip_rx buf len { s with mem := m }
  | TableOp.recv d a1 a2 a3 maxlen, s => (sys_recv d a1 a2 a3 maxlen s).map Prod.snd

/-- The state after a sequence of operations on the socket table. -/
def runTable : List TableOp → Kernel → Option Kernel
  | [], s => some s
  | op :: ops, s => (op.step s).bind (runTable ops)

/-- The invariant of the socket table: the indices of every slot are indices
of its queue, and no two valid slots hold the same port. -/
def SockInv (socks : Fin RING → Sock) : Prop :=
  (∀ i : Fin RING, (socks i).inRange) ∧
  ∀ i j : Fin RING, (socks i).valid ≠ 0 → (socks j).valid ≠ 0 →
    (socks i).port = (socks j).port → i = j

/-- The first `n` calls of a sequence of calls of `e1000_transmit`, the call
number `k` (from 0) with the buffer and the length `frames k`: the values
returned, in their order, and the state after the last call. -/
def transmit_seq (c : Consts) (frames : Nat → Nat × Int) : Nat → Kernel →
    Option (List Int × Kernel)
  | 0, s => some ([], s)
  | n + 1, s =>
    match transmit_seq c frames n s with
    | none => none
    | some p =>
      match e1000_transmit c (frames n).1 (frames n).2 p.2 with
      | none => none
      | some q => some (p.1 ++ [q.1], q.2)

/-- The state of the transmit ring after the first `n` calls of the sequence
`frames` from the state `sI`: the tail is `n % 16`, the status fields are
those of `sI`, and the slot the call number `m` will use, for the sixteen
calls to come, holds the buffer of the call number `m - 16` (nothing when
`m < 16`). -/
def TxInv (frames : Nat → Nat × Int) (sI : Kernel) (n : Nat) (s : Kernel) : Prop :=
  s.tdt = n % 16 ∧
  (∀ j : Fin RING, (s.tx_ring j).status = (sI.tx_ring j).status) ∧
  ∀ m, n ≤ m → m < n + 16 →
    s.tx_bufs (ringSlot m) = if m < 16 then 0 else (frames (m - 16)).1

/-! ### The reference checksum

The Internet checksum as the specification words it, on a sequence of bytes;
`in_cksum` is compared with it.
-/

/-- The `n` bytes of memory from the address `a` on. -/
def loadBytes (m : Nat → Nat) : Nat → Nat → List Nat
  | _, 0 => []
  | a, n + 1 => rd8 m a :: loadBytes m (a + 1) n

/-- The sum of the consecutive 16-bit words of a sequence of bytes, the low
byte of a word first; a last byte without a partner is the low byte of a word
padded with zero. -/
def refWords : List Nat → Nat
  | b0 :: b1 :: rest => (b0 + 256 * b1) + refWords rest
  | [b0] => b0
  | [] => 0

/-- The folding of the carries above bit 15 into the low 16 bits, again and
again until there is no carry; `fuel` bounds the number of steps. -/
def refFoldAux : Nat → Nat → Nat
  | 0, s => s
  | fuel + 1, s => if s < 65536 then s else refFoldAux fuel (s % 65536 + s / 65536)

/-- The folding until no carry remains; a step makes a value with a carry
smaller, so `s` steps are enough. -/
def refFold (s : Nat) : Nat := refFoldAux s s

/-- The reference Internet checksum of a sequence of bytes: the 16-bit one's
complement of the folded sum of its words. -/
def ref_cksum (bs : List Nat) : Nat := 65535 - refFold (refWords bs)

/-! ### States for concrete runs -/

/-- A state for concrete runs: every static variable zero, memory zero, the
allocator hands out the pages `0x87000000`, `0x87001000`, ... -/
def zeroKernel : Kernel :=
  { tdt := 0, rdt := 0, icr := 0
    tx_ring := fun _ => { addr := 0, length := 0, cmd := 0, status := 0 }
    tx_bufs := fun _ => 0
    rx_ring := fun _ => { addr := 0, length := 0, status := 0 }
    rx_bufs := fun _ => 0
    sockets := fun _ => { port := 0, valid := 0, rxq := fun _ => 0, r := 0, w := 0 }
    seen_arp := 0, seen_ip := 0
    mem := fun _ => 0, umem := fun _ => 0
    alloc_seq := fun n => 0x87000000 + 4096 * n, nalloc := 0
    killed := 0, copy_ok := fun _ _ => true
    freed := [], rx_log := [] }

/-- The transmit ring as `e1000_init` leaves it (every descriptor done, no
buffer owned, tail 0), on top of `zeroKernel`. -/
def txReady : Kernel :=
  { zeroKernel with
    tx_ring := fun _ => { addr := 0, length := 0, cmd := 0, status := 1 } }

/-- A memory for concrete runs: every page holds a UDP frame for `port`
(protocol 17 at offset 23, the destination port at offsets 36 and 37). -/
def frameMem (port : Nat) : Nat → Nat := fun a =>
  if a % 4096 = 23 then 17
  else if a % 4096 = 36 then port / 256
  else if a % 4096 = 37 then port % 256
  else 0

/-- The `k`-th page used for frames in concrete runs. -/
def page (k : Nat) : Nat := 0x88000000 + 4096 * k

/-- The state after `bind(2000)` from `zeroKernel`, with frames for port 2000
in memory. -/
def boundKernel : Kernel := (sys_bind 2000 { zeroKernel with mem := frameMem 2000 }).2

/-- The socket of port 2000 in slot 0 with a full queue: fifteen buffers,
`page 0`, ..., `page 14`. -/
def fullKernel : Kernel :=
  { boundKernel with
    sockets := fun j =>
      if j = 0 then { port := 2000, valid := 1, rxq := fun k => page k.val, r := 0, w := 15 }
      else boundKernel.sockets j }

/-- The socket of port 2000 in slot 0 with three buffers in its queue, round
the end of the ring: `page 14`, `page 15`, `page 0`. -/
def wrapKernel : Kernel :=
  { boundKernel with
    sockets := fun j =>
      if j = 0 then { port := 2000, valid := 1, rxq := fun k => page k.val, r := 14, w := 1 }
      else boundKernel.sockets j }

/-- The state `wrapKernel` after `unbind(2000)`: the three buffers freed, slot
0 free with `r = w = 1`. -/
def unboundKernel : Kernel :=
  { wrapKernel with
    freed := wrapKernel.freed ++ (wrapKernel.sockets 0).queued
    sockets := Function.update wrapKernel.sockets 0
      { wrapKernel.sockets 0 with r := (wrapKernel.sockets 0).w, valid := 0 } }

/-- A socket table without a free slot: slot `j` is bound to port `j`. -/
def fullTable : Kernel :=
  { zeroKernel with
    sockets := fun j => { port := j.val, valid := 1, rxq := fun _ => 0, r := 0, w := 0 } }

/-- A state after initialisation in which the device has received two frames:
receive tail 15, the descriptors 0 and 1 done with the lengths 60 and 61, the
receive buffers are the pages `page 32`, ..., `page 47`, and port 2000 is bound. -/
def rxKernel : Kernel :=
  { boundKernel with
    rdt := 15
    tx_ring := fun _ => { addr := 0, length := 0, cmd := 0, status := 1 }
    rx_bufs := fun i => page (32 + i.val)
    rx_ring := fun i =>
      { addr := page (32 + i.val)
        length := if i.val < 2 then 60 + i.val else 0
        status := if i.val < 2 then 1 else 0 } }

/-- The state `txReady` for a caller whose memory `copyin` and `copyout`
refuse. -/
def txNoCopy : Kernel := { txReady with copy_ok := fun _ _ => false }

/-- The state `txReady` with port 9000 bound and the five bytes of "hello" at
the address 4096 of the memory of the caller. -/
def helloKernel : Kernel :=
  (sys_bind 9000 { txReady with
    umem := fun a => if a < 4096 then 0 else [104, 101, 108, 108, 111].getD (a - 4096) 0 }).2

/-- The state after `send(9000, 10.0.2.2, 9000, 4096, 5)` from `helloKernel`. -/
def helloSent : Kernel :=
  match sys_send xv6Consts 9000 0x0a000202 9000 4096 5 helloKernel with
  | some r => r.2
  | none => helloKernel

/-- The state `helloSent` after the frame, 47 bytes in the page `0x87000000`,
has come back from the peer: the same bytes in the receive buffer `page 0`. -/
def helloEcho : Kernel :=
  { helloSent with mem := memmove helloSent.mem (page 0) 0x87000000 47 }

/-- The state after the frame in `page 0` is handed to `net_rx` with its
length 47. -/
def helloQueued : Kernel :=
  match net_rx xv6Consts (page 0) 47 helloEcho with
  | some s => s
  | none => helloEcho

/-- The state `helloQueued` for a caller whose memory `copyout` refuses. -/
def helloNoCopy : Kernel := { helloQueued with copy_ok := fun _ _ => false }

/-- A memory for concrete runs: every page holds an ARP request of the host
10.0.2.2 (Ethernet source `host_mac` at offset 6, type 0x0806 at offset 12,
sender IP at offset 28). -/
def arpMem : Nat → Nat := fun a =>
  if a % 4096 = 12 then 8
  else if a % 4096 = 13 then 6
  else if 6 ≤ a % 4096 ∧ a % 4096 < 12 then host_mac.getD (a % 4096 - 6) 0
  else if 28 ≤ a % 4096 ∧ a % 4096 < 32 then [10, 0, 2, 2].getD (a % 4096 - 28) 0
  else 0

/-- The state `txReady` with ARP requests in memory. -/
def arpKernel : Kernel := { txReady with mem := arpMem }

/-- The state after `e1000_init` from `zeroKernel`. -/
def initKernel : Kernel :=
  match e1000_init xv6Consts zeroKernel with
  | some s => s
  | none => zeroKernel

/-! ## Theorems -/

/-! ### Lemmas on the socket table -/

theorem find_first {p : Fin RING → Bool} {i : Fin RING}
    (h : (List.finRange RING).find? p = some i) :
    p i = true ∧ ∀ j : Fin RING, j < i → p j = false := by
  rw [List.find?_eq_some] at h
  obtain ⟨hp, as, bs, hl, has⟩ := h
  refine ⟨hp, fun j hj => ?_⟩
  have hmem : j ∈ as ++ i :: bs := hl ▸ List.mem_finRange j
  have hpw : List.Pairwise (fun x1 x2 : Fin RING => x1 < x2) (as ++ i :: bs) :=
    hl ▸ List.pairwise_lt_finRange RING
  rw [List.pairwise_append] at hpw
  rcases List.mem_append.1 hmem with h1 | h1
  · simpa using has j h1
  · rcases List.mem_cons.1 h1 with h2 | h2
    · exact absurd hj (by simp [h2])
    · have := (List.pairwise_cons.1 hpw.2.1).1 j h2
      exact absurd hj (not_lt.2 (le_of_lt this))

theorem find_of_first {p : Fin RING → Bool} {i : Fin RING}
    (hp : p i = true) (hlt : ∀ j : Fin RING, j < i → p j = false) :
    (List.finRange RING).find? p = some i := by
  cases hf : (List.finRange RING).find? p with
  | none =>
    rw [List.find?_eq_none] at hf
    exact absurd hp (hf i (List.mem_finRange i))
  | some k =>
    obtain ⟨hk, hklt⟩ := find_first hf
    rcases lt_trichotomy k i with h | h | h
    · rw [hlt k h] at hk; exact absurd hk (by simp)
    · rw [h]
    · rw [hklt i h] at hp; exact absurd hp (by simp)

theorem find_none_iff {p : Fin RING → Bool} :
    (List.finRange RING).find? p = none ↔ ∀ j : Fin RING, p j = false := by
  rw [List.find?_eq_none]
  constructor
  · intro h j
    simpa using h j (List.mem_finRange j)
  · intro h j _
    simp [h j]

theorem toIdx_eq {x : Int} (h0 : 0 ≤ x) (h1 : x < 16) :
    toIdx x = some ⟨x.toNat, by unfold RING; omega⟩ := by
  unfold toIdx
  rw [dif_pos ⟨h0, h1⟩]

theorem next16_eq {x : Int} (h0 : 0 ≤ x) : next16 x = (x + 1) % 16 := by
  unfold next16
  exact Int.tmod_eq_emod (by omega) (by decide)

theorem Sock.queued_nil_iff (sk : Sock) (h : sk.inRange) : sk.queued = [] ↔ sk.r = sk.w := by
  unfold Sock.inRange at h
  unfold Sock.queued Sock.count
  rw [List.map_eq_nil_iff, List.range_eq_nil]
  omega

theorem Sock.count_full_iff (sk : Sock) (h : sk.inRange) :
    next16 sk.w = sk.r ↔ sk.count = 15 := by
  unfold Sock.inRange at h
  rw [next16_eq h.2.2.1]
  unfold Sock.count
  omega

theorem Sock.queued_length (sk : Sock) : sk.queued.length = sk.count := by
  simp [Sock.queued]

theorem Sock.queued_enqueue (sk : Sock) (h : sk.inRange) (hfull : next16 sk.w ≠ sk.r)
    (buf : Nat) :
    Sock.queued { sk with
      rxq := Function.update sk.rxq ⟨sk.w.toNat, by unfold Sock.inRange at h; unfold RING; omega⟩ buf
      w := next16 sk.w } = sk.queued ++ [buf] := by
  unfold Sock.inRange at h
  rw [next16_eq h.2.2.1] at hfull
  have hc : Sock.count { sk with
      rxq := Function.update sk.rxq ⟨sk.w.toNat, by unfold RING; omega⟩ buf
      w := next16 sk.w } = sk.count + 1 := by
    simp only [Sock.count, next16_eq h.2.2.1]
    omega
  unfold Sock.queued
  rw [hc, List.range_succ, List.map_append, List.map_singleton]
  congr 1
  · apply List.map_congr_left
    intro k hk
    rw [List.mem_range] at hk
    apply Function.update_noteq
    intro he
    have := congrArg Fin.val he
    simp only [Sock.slot, Sock.count] at this hk
    omega
  · congr 1
    have : Sock.slot { sk with
      rxq := Function.update sk.rxq ⟨sk.w.toNat, by unfold RING; omega⟩ buf
      w := next16 sk.w } sk.count = ⟨sk.w.toNat, by unfold RING; omega⟩ := by
      apply Fin.ext
      simp only [Sock.slot, Sock.count]
      omega
    rw [this]
    exact Function.update_same _ _ _

theorem Sock.queued_dequeue (sk : Sock) (h : sk.inRange) (hne : sk.r ≠ sk.w) :
    sk.queued = sk.rxq ⟨sk.r.toNat, by unfold Sock.inRange at h; unfold RING; omega⟩
      :: Sock.queued { sk with r := next16 sk.r } := by
  unfold Sock.inRange at h
  have hc : sk.count = Sock.count { sk with r := next16 sk.r } + 1 := by
    simp only [Sock.count, next16_eq h.1]
    omega
  unfold Sock.queued
  rw [hc, List.range_succ_eq_map, List.map_cons, List.map_map]
  congr 1
  · congr 1
    apply Fin.ext
    simp only [Sock.slot]
    omega
  · apply List.map_congr_left
    intro k _
    simp only [Function.comp]
    congr 1
    apply Fin.ext
    simp only [Sock.slot, next16_eq h.1, Nat.succ_eq_add_one]
    push_cast
    omega

theorem Sock.inRange_enqueue (sk : Sock) (h : sk.inRange) (q : Fin RING → Nat) :
    Sock.inRange { sk with rxq := q, w := next16 sk.w } := by
  unfold Sock.inRange at h ⊢
  simp only [next16_eq h.2.2.1]
  omega

theorem Sock.inRange_dequeue (sk : Sock) (h : sk.inRange) :
    Sock.inRange { sk with r := next16 sk.r } := by
  unfold Sock.inRange at h ⊢
  simp only [next16_eq h.1]
  omega

/-! ### Lemmas on `ip_rx` and `sys_recv` -/

theorem ite_cases {α : Type} {P : α → Prop} {c : Prop} [Decidable c] {x y : α}
    (hx : P x) (hy : P y) : P (if c then x else y) := by
  split
  · exact hx
  · exact hy

theorem find_sock_eq {socks : Fin RING → Sock} {p : Int} {i : Fin RING}
    (hb : (socks i).bound p = true) (hfirst : ∀ j : Fin RING, j < i → (socks j).bound p = false) :
    find_sock socks p = some i :=
  find_of_first (p := fun j => (socks j).bound p) hb hfirst

theorem ip_rx_full_eq {s : Kernel} {buf : Nat} {p : Int} {i : Fin RING} (len : Int)
    (hudp : udpFor s.mem buf p) (hfind : find_sock s.sockets p = some i)
    (hfull : next16 (s.sockets i).w = (s.sockets i).r) :
    ip_rx buf len s = some (kfree buf { s with seen_ip := 1 }) := by
  obtain ⟨h17, hport⟩ := hudp
  simp [ip_rx, h17, hport, hfind, hfull]

theorem ip_rx_enqueue_eq {s : Kernel} {buf : Nat} {p : Int} {i : Fin RING} (len : Int)
    (hudp : udpFor s.mem buf p) (hfind : find_sock s.sockets p = some i)
    (hr : (s.sockets i).inRange)
    (hfull : next16 (s.sockets i).w ≠ (s.sockets i).r) :
    ip_rx buf len s = some { s with
      seen_ip := 1
      sockets := Function.update s.sockets i
        { s.sockets i with
          rxq := Function.update (s.sockets i).rxq
            ⟨(s.sockets i).w.toNat, by unfold Sock.inRange at hr; unfold RING; omega⟩ buf
          w := next16 (s.sockets i).w } } := by
  obtain ⟨h17, hport⟩ := hudp
  have hi := toIdx_eq hr.2.2.1 hr.2.2.2
  simp [ip_rx, h17, hport, hfind, hfull, hi]

theorem find_sock_update {socks : Fin RING → Sock} {i : Fin RING} {sk : Sock}
    (hv : sk.valid = (socks i).valid) (hp : sk.port = (socks i).port) (q : Int) :
    find_sock (Function.update socks i sk) q = find_sock socks q := by
  unfold find_sock
  congr 1
  funext j
  by_cases hj : j = i
  · subst hj
    simp [Sock.bound, hv, hp]
  · simp [Function.update_noteq hj]

theorem sys_recv_empty_eq {s : Kernel} {p : Int} {i : Fin RING} (a1 a2 a3 : Nat) (maxlen : Int)
    (hfind : find_sock s.sockets p = some i) (he : (s.sockets i).r = (s.sockets i).w) :
    sys_recv p a1 a2 a3 maxlen s
      = some (if s.killed ≠ 0 then RecvResult.ret (-1) else RecvResult.sleeping, s) := by
  by_cases hk : s.killed = 0 <;> simp [sys_recv, hfind, he, hk]

theorem recv_deliver_state (buf : Nat) (a1 a2 a3 : Nat) (maxlen : Int) (s1 : Kernel) :
    ∃ um, (recv_deliver buf a1 a2 a3 maxlen s1).2 = kfree buf { s1 with umem := um } := by
  unfold recv_deliver
  simp only
  split
  · exact ⟨_, rfl⟩
  · split
    · exact ⟨_, rfl⟩
    · exact ite_cases (P := fun z : Int × Kernel => ∃ um, z.2 = kfree buf { s1 with umem := um })
        ⟨_, rfl⟩ ⟨_, rfl⟩

theorem sys_recv_dequeue_eq {s : Kernel} {p : Int} {i : Fin RING} (a1 a2 a3 : Nat) (maxlen : Int)
    (hfind : find_sock s.sockets p = some i) (hr : (s.sockets i).inRange)
    (hne : (s.sockets i).r ≠ (s.sockets i).w) :
    ∃ v um, sys_recv p a1 a2 a3 maxlen s = some (RecvResult.ret v,
      kfree ((s.sockets i).rxq
          ⟨(s.sockets i).r.toNat, by unfold Sock.inRange at hr; unfold RING; omega⟩)
        { s with
          sockets := Function.update s.sockets i { s.sockets i with r := next16 (s.sockets i).r }
          umem := um }) := by
  have hi := toIdx_eq hr.1 hr.2.1
  unfold sys_recv
  simp only [hfind, hne, if_false, hi]
  generalize (⟨(s.sockets i).r.toNat, _⟩ : Fin RING) = ri
  obtain ⟨um, hum⟩ := recv_deliver_state ((s.sockets i).rxq ri) a1 a2 a3 maxlen
    { s with
      sockets := Function.update s.sockets i { s.sockets i with r := next16 (s.sockets i).r } }
  exact ⟨_, um, by rw [hum]⟩

theorem deliver_step {s : Kernel} {buf : Nat} {p : Int} {i : Fin RING} (len : Int)
    (hudp : udpFor s.mem buf p) (hfind : find_sock s.sockets p = some i)
    (hr : (s.sockets i).inRange) :
    ∃ s', ip_rx buf len s = some s' ∧ s'.mem = s.mem ∧ find_sock s'.sockets p = some i ∧
      (s'.sockets i).inRange ∧
      ((next16 (s.sockets i).w ≠ (s.sockets i).r ∧ s'.freed = s.freed ∧
          (s'.sockets i).queued = (s.sockets i).queued ++ [buf]) ∨
       (next16 (s.sockets i).w = (s.sockets i).r ∧ s'.freed = s.freed ++ [buf] ∧
          (s'.sockets i).queued = (s.sockets i).queued)) := by
  by_cases hfull : next16 (s.sockets i).w = (s.sockets i).r
  · refine ⟨_, ip_rx_full_eq len hudp hfind hfull, rfl, hfind, hr, Or.inr ⟨hfull, rfl, rfl⟩⟩
  · refine ⟨_, ip_rx_enqueue_eq len hudp hfind hr hfull, rfl, ?_, ?_, Or.inl ⟨hfull, rfl, ?_⟩⟩
    · refine (find_sock_update ?_ ?_ p).trans hfind <;> rfl
    · simp only [Function.update_same]
      exact Sock.inRange_enqueue _ hr _
    · simp only [Function.update_same]
      exact Sock.queued_enqueue _ hr hfull buf

theorem recv_step {s : Kernel} {p : Int} {i : Fin RING} (a1 a2 a3 : Nat) (maxlen : Int)
    (hfind : find_sock s.sockets p = some i) (hr : (s.sockets i).inRange) :
    ∃ res, sys_recv p a1 a2 a3 maxlen s = some res ∧ res.2.mem = s.mem ∧
      find_sock res.2.sockets p = some i ∧ (res.2.sockets i).inRange ∧
      (((s.sockets i).r = (s.sockets i).w ∧ res.2 = s) ∨
       ((s.sockets i).r ≠ (s.sockets i).w ∧ ∃ b, (s.sockets i).queued
          = b :: (res.2.sockets i).queued ∧ res.2.freed = s.freed ++ [b])) := by
  by_cases he : (s.sockets i).r = (s.sockets i).w
  · exact ⟨_, sys_recv_empty_eq a1 a2 a3 maxlen hfind he, rfl, hfind, hr, Or.inl ⟨he, rfl⟩⟩
  · obtain ⟨v, um, h⟩ := sys_recv_dequeue_eq a1 a2 a3 maxlen hfind hr he
    refine ⟨_, h, rfl, ?_, ?_, Or.inr ⟨he, _, ?_, rfl⟩⟩
    · refine (find_sock_update ?_ ?_ p).trans hfind <;> rfl
    · simp only [kfree, Function.update_same]
      exact Sock.inRange_dequeue _ hr
    · simp only [kfree, Function.update_same]
      exact Sock.queued_dequeue _ hr he

theorem run_invariant (p : Int) (i : Fin RING) (pre : List Nat) :
    ∀ (ops : List SockOp) (log : RunLog),
      find_sock log.state.sockets p = some i → (log.state.sockets i).inRange →
      (∀ b len, SockOp.deliver b len ∈ ops → udpFor log.state.mem b p) →
      pre ++ log.accepted = log.dequeued ++ (log.state.sockets i).queued →
      ∃ log', run p ops log = some log' ∧
        find_sock log'.state.sockets p = some i ∧ (log'.state.sockets i).inRange ∧
        pre ++ log'.accepted = log'.dequeued ++ (log'.state.sockets i).queued := by
  intro ops
  induction ops with
  | nil =>
    intro log h1 h2 _ h4
    exact ⟨log, rfl, h1, h2, h4⟩
  | cons op ops ih =>
    intro log h1 h2 h3 h4
    cases op with
    | deliver b len =>
      obtain ⟨s', hs', hmem, hf', hr', hcase⟩ :=
        deliver_step len (h3 b len (List.mem_cons_self _ _)) h1 h2
      simp only [run, hs']
      apply ih
      · exact hf'
      · exact hr'
      · intro b' len' hb'
        simp only [hmem]
        exact h3 b' len' (List.mem_cons_of_mem _ hb')
      · rcases hcase with ⟨_, hfr, hq⟩ | ⟨_, hfr, hq⟩
        · simp only [hfr, if_true, hq]
          rw [← List.append_assoc, h4, List.append_assoc]
        · simp [hfr, hq, h4]
    | recv a1 a2 a3 maxlen =>
      obtain ⟨res, hres, hmem, hf', hr', hcase⟩ := recv_step a1 a2 a3 maxlen h1 h2
      simp only [run, hres]
      apply ih
      · exact hf'
      · exact hr'
      · intro b' len' hb'
        simp only [hmem]
        exact h3 b' len' (List.mem_cons_of_mem _ hb')
      · rcases hcase with ⟨_, hst⟩ | ⟨_, b, hq, hfr⟩
        · simp [hst, h4]
        · simp [hfr, h4, hq]

/-! ### The transmit ring -/

/-- C1: when the descriptor at the tail index has DD set, `e1000_transmit`
returns 0, fills that descriptor (address, 16-bit length, EOP|RS), records the
buffer in `tx_bufs`, advances the tail modulo 16, frees the buffer the slot
owned before (once, when there was one) and leaves every other descriptor and
slot as it was; in particular it succeeds when all sixteen descriptors have DD
set. -/
theorem e1000_transmit_success (c : Consts) (s : Kernel) (buf : Nat) (len : Int)
    (h : s.tdt < RING) (hcmd : c.TXD_CMD_EOP ||| c.TXD_CMD_RS < 256) :
    ((s.tx_ring ⟨s.tdt, h⟩).dd c = true →
      ∃ s', e1000_transmit c buf len s = some (0, s') ∧
        (s'.tx_ring ⟨s.tdt, h⟩).addr = buf ∧
        (s'.tx_ring ⟨s.tdt, h⟩).length = toU16 len ∧
        (s'.tx_ring ⟨s.tdt, h⟩).cmd = c.TXD_CMD_EOP ||| c.TXD_CMD_RS ∧
        (s'.tx_ring ⟨s.tdt, h⟩).status = (s.tx_ring ⟨s.tdt, h⟩).status ∧
        s'.tx_bufs ⟨s.tdt, h⟩ = buf ∧
        s'.tdt = (s.tdt + 1) % 16 ∧
        s'.freed = (if s.tx_bufs ⟨s.tdt, h⟩ ≠ 0 then s.freed ++ [s.tx_bufs ⟨s.tdt, h⟩]
                    else s.freed) ∧
        (∀ j : Fin RING, j ≠ ⟨s.tdt, h⟩ →
          s'.tx_ring j = s.tx_ring j ∧ s'.tx_bufs j = s.tx_bufs j)) ∧
    ((∀ j : Fin RING, (s.tx_ring j).dd c = true) →
      ∃ s', e1000_transmit c buf len s = some (0, s')) := by
  have key : (s.tx_ring ⟨s.tdt, h⟩).dd c = true →
      ∃ s', e1000_transmit c buf len s = some (0, s') ∧
        (s'.tx_ring ⟨s.tdt, h⟩).addr = buf ∧
        (s'.tx_ring ⟨s.tdt, h⟩).length = toU16 len ∧
        (s'.tx_ring ⟨s.tdt, h⟩).cmd = c.TXD_CMD_EOP ||| c.TXD_CMD_RS ∧
        (s'.tx_ring ⟨s.tdt, h⟩).status = (s.tx_ring ⟨s.tdt, h⟩).status ∧
        s'.tx_bufs ⟨s.tdt, h⟩ = buf ∧
        s'.tdt = (s.tdt + 1) % 16 ∧
        s'.freed = (if s.tx_bufs ⟨s.tdt, h⟩ ≠ 0 then s.freed ++ [s.tx_bufs ⟨s.tdt, h⟩]
                    else s.freed) ∧
        (∀ j : Fin RING, j ≠ ⟨s.tdt, h⟩ →
          s'.tx_ring j = s.tx_ring j ∧ s'.tx_bufs j = s.tx_bufs j) := by
    intro hdd
    unfold e1000_transmit
    rw [dif_pos h]
    simp only [hdd, Bool.true_eq_false, if_false]
    refine ⟨_, rfl, ?_⟩
    by_cases hb : s.tx_bufs ⟨s.tdt, h⟩ = 0
    · simp [hb, Nat.mod_eq_of_lt hcmd]
      intro j hj
      simp [Function.update_noteq hj]
    · simp [hb, kfree, Nat.mod_eq_of_lt hcmd]
      intro j hj
      simp [Function.update_noteq hj]
  exact ⟨key, fun hall => (key (hall _)).imp fun _ hs => hs.1⟩

/-- Witness of C1: the first transmission after initialisation. -/
theorem e1000_transmit_success_witness :
    (∃ s', e1000_transmit xv6Consts 0x87005000 60 txReady = some (0, s') ∧
        (s'.tx_ring ⟨txReady.tdt, by decide⟩).addr = 0x87005000 ∧
        (s'.tx_ring ⟨txReady.tdt, by decide⟩).length = toU16 60 ∧
        (s'.tx_ring ⟨txReady.tdt, by decide⟩).cmd
          = xv6Consts.TXD_CMD_EOP ||| xv6Consts.TXD_CMD_RS ∧
        (s'.tx_ring ⟨txReady.tdt, by decide⟩).status
          = (txReady.tx_ring ⟨txReady.tdt, by decide⟩).status ∧
        s'.tx_bufs ⟨txReady.tdt, by decide⟩ = 0x87005000 ∧
        s'.tdt = (txReady.tdt + 1) % 16 ∧
        s'.freed = (if txReady.tx_bufs ⟨txReady.tdt, by decide⟩ ≠ 0
                    then txReady.freed ++ [txReady.tx_bufs ⟨txReady.tdt, by decide⟩]
                    else txReady.freed) ∧
        (∀ j : Fin RING, j ≠ ⟨txReady.tdt, by decide⟩ →
          s'.tx_ring j = txReady.tx_ring j ∧ s'.tx_bufs j = txReady.tx_bufs j)) ∧
    (∃ s', e1000_transmit xv6Consts 0x87005000 60 txReady = some (0, s')) :=
  ⟨(e1000_transmit_success xv6Consts txReady 0x87005000 60 (by decide) (by decide)).1
      (by decide),
   (e1000_transmit_success xv6Consts txReady 0x87005000 60 (by decide) (by decide)).2
      (by decide)⟩

/-- C2: when the descriptor at the tail index does not have DD set,
`e1000_transmit` returns -1 and the state after the call is the state before
it: no descriptor, no `tx_bufs` slot, not the tail register, and nothing is
freed. -/
theorem e1000_transmit_busy (c : Consts) (s : Kernel) (buf : Nat) (len : Int)
    (h : s.tdt < RING) (hdd : (s.tx_ring ⟨s.tdt, h⟩).dd c = false) :
    e1000_transmit c buf len s = some (-1, s) := by
  simp [e1000_transmit, h, hdd]

/-- Witness of C2: a ring whose descriptors are all still owned by the device. -/
theorem e1000_transmit_busy_witness :
    (zeroKernel.tx_ring ⟨zeroKernel.tdt, by decide⟩).dd xv6Consts = false ∧
    e1000_transmit xv6Consts 0x87005000 60 zeroKernel = some (-1, zeroKernel) :=
  ⟨by decide, e1000_transmit_busy xv6Consts zeroKernel 0x87005000 60 (by decide) (by decide)⟩

theorem run_append (p : Int) (ops1 ops2 : List SockOp) :
    ∀ log : RunLog, run p (ops1 ++ ops2) log = (run p ops1 log).bind (run p ops2) := by
  induction ops1 with
  | nil => intro log; rfl
  | cons op ops ih =>
    intro log
    cases op with
    | deliver b len =>
      simp only [List.cons_append, run]
      cases ip_rx b len log.state with
      | none => rfl
      | some s' => exact ih _
    | recv a1 a2 a3 maxlen =>
      simp only [List.cons_append, run]
      cases sys_recv p a1 a2 a3 maxlen log.state with
      | none => rfl
      | some res => exact ih _

theorem Sock.queued_length_le (sk : Sock) : sk.queued.length ≤ 15 := by
  rw [Sock.queued_length]
  unfold Sock.count
  omega

theorem Sock.full_iff_length (sk : Sock) (h : sk.inRange) :
    next16 sk.w = sk.r ↔ sk.queued.length = 15 := by
  rw [Sock.queued_length]
  exact sk.count_full_iff h

theorem run_deliveries (p : Int) (i : Fin RING) :
    ∀ (frames : List (Nat × Int)) (log : RunLog),
      find_sock log.state.sockets p = some i → (log.state.sockets i).inRange →
      (∀ f ∈ frames, udpFor log.state.mem f.1 p) →
      ∃ log', run p (frames.map fun f => SockOp.deliver f.1 f.2) log = some log' ∧
        find_sock log'.state.sockets p = some i ∧ (log'.state.sockets i).inRange ∧
        log'.accepted = log.accepted ++ (frames.take
          (min frames.length (15 - (log.state.sockets i).queued.length))).map Prod.fst ∧
        log'.dequeued = log.dequeued ∧
        (log'.state.sockets i).queued = (log.state.sockets i).queued ++ (frames.take
          (min frames.length (15 - (log.state.sockets i).queued.length))).map Prod.fst ∧
        log'.state.freed = log.state.freed ++ (frames.drop
          (min frames.length (15 - (log.state.sockets i).queued.length))).map Prod.fst := by
  intro frames
  induction frames with
  | nil =>
    intro log h1 h2 _
    exact ⟨log, rfl, h1, h2, by simp, rfl, by simp, by simp⟩
  | cons f frames ih =>
    intro log h1 h2 h3
    obtain ⟨s', hs', hmem, hf', hr', hcase⟩ :=
      deliver_step f.2 (h3 f (List.mem_cons_self _ _)) h1 h2
    have hle := (log.state.sockets i).queued_length_le
    have hfl := (log.state.sockets i).full_iff_length h2
    rcases hcase with ⟨hnf, hfr, hq⟩ | ⟨hfull, hfr, hq⟩
    · have hlt : (log.state.sockets i).queued.length < 15 := by
        have := mt hfl.2 hnf
        omega
      obtain ⟨log', hrun, g1, g2, g3, g4, g5, g6⟩ := ih
        { accepted := log.accepted ++ [f.1], dequeued := log.dequeued, state := s' } hf' hr'
        (fun f' hmem2 => by simp only [hmem]; exact h3 f' (List.mem_cons_of_mem _ hmem2))
      refine ⟨log', ?_, g1, g2, ?_, g4, ?_, ?_⟩
      · simp only [List.map_cons, run, hs', hfr, if_true]
        exact hrun
      all_goals
        simp only [hq, List.length_append, List.length_singleton, hfr] at g3 g5 g6
        have hn : min (f :: frames).length (15 - (log.state.sockets i).queued.length)
            = min frames.length (15 - ((log.state.sockets i).queued.length + 1)) + 1 := by
          simp only [List.length_cons]; omega
        rw [hn]
        simp [g3, g5, g6]
    · have heq : (log.state.sockets i).queued.length = 15 := hfl.1 hfull
      obtain ⟨log', hrun, g1, g2, g3, g4, g5, g6⟩ := ih
        { accepted := log.accepted, dequeued := log.dequeued, state := s' } hf' hr'
        (fun f' hmem2 => by simp only [hmem]; exact h3 f' (List.mem_cons_of_mem _ hmem2))
      refine ⟨log', ?_, g1, g2, ?_, g4, ?_, ?_⟩
      · simp only [List.map_cons, run, hs', hfr]
        simpa using hrun
      all_goals
        simp only [hq, hfr, heq] at g3 g5 g6
        simp [heq, g3, g5, g6]

theorem run_recvs (p : Int) (i : Fin RING) :
    ∀ (calls : List (Nat × Nat × Nat × Int)) (log : RunLog),
      find_sock log.state.sockets p = some i → (log.state.sockets i).inRange →
      ∃ log', run p (calls.map fun a => SockOp.recv a.1 a.2.1 a.2.2.1 a.2.2.2) log = some log' ∧
        find_sock log'.state.sockets p = some i ∧ (log'.state.sockets i).inRange ∧
        log'.accepted = log.accepted ∧
        log'.dequeued = log.dequeued ++ (log.state.sockets i).queued.take calls.length ∧
        (log'.state.sockets i).queued = (log.state.sockets i).queued.drop calls.length ∧
        log'.state.freed = log.state.freed ++ (log.state.sockets i).queued.take calls.length := by
  intro calls
  induction calls with
  | nil =>
    intro log h1 h2
    exact ⟨log, rfl, h1, h2, rfl, by simp, by simp, by simp⟩
  | cons a calls ih =>
    intro log h1 h2
    obtain ⟨res, hres, _, hf', hr', hcase⟩ := recv_step a.1 a.2.1 a.2.2.1 a.2.2.2 h1 h2
    obtain ⟨log', hrun, g1, g2, g3, g4, g5, g6⟩ := ih
      { accepted := log.accepted
        dequeued := log.dequeued ++ res.2.freed.drop log.state.freed.length
        state := res.2 } hf' hr'
    refine ⟨log', ?_, g1, g2, g3, ?_, ?_, ?_⟩
    · simp only [List.map_cons, run, hres]
      exact hrun
    all_goals
      rcases hcase with ⟨he, hst⟩ | ⟨_, b, hq, hfr⟩
      · have hnil := ((log.state.sockets i).queued_nil_iff h2).2 he
        simp only [hst, hnil] at g4 g5 g6
        simp [hnil, g4, g5, g6]
      · simp only [hfr, hq] at g4 g5 g6
        simp [hq, g4, g5, g6]

/-! ### The socket queue -/

/-- C4, as amended: the queue of a socket holds fifteen buffers.  From a bound
socket with an empty queue, seventeen UDP frames for its port handed to `ip_rx`
and then fifteen calls of `sys_recv`: the first fifteen frames are accepted,
the sixteenth and the seventeenth are freed, the fifteen calls take the first
fifteen frames in the order of arrival, and the queue is empty at the end. -/
theorem socket_queue_holds_fifteen (s : Kernel) (p : Int) (i : Fin RING)
    (frames : List (Nat × Int)) (calls : List (Nat × Nat × Nat × Int))
    (hb : (s.sockets i).bound p = true)
    (hfirst : ∀ j : Fin RING, j < i → (s.sockets j).bound p = false)
    (hr : (s.sockets i).inRange) (hempty : (s.sockets i).r = (s.sockets i).w)
    (hudp : ∀ f ∈ frames, udpFor s.mem f.1 p)
    (hframes : frames.length = 17) (hcalls : calls.length = 15) :
    ∃ log, run p ((frames.map fun f => SockOp.deliver f.1 f.2)
          ++ calls.map fun a => SockOp.recv a.1 a.2.1 a.2.2.1 a.2.2.2)
        { accepted := [], dequeued := [], state := s } = some log ∧
      log.accepted = (frames.take 15).map Prod.fst ∧
      log.dequeued = (frames.take 15).map Prod.fst ∧
      log.state.freed = s.freed ++ (frames.drop 15).map Prod.fst
        ++ (frames.take 15).map Prod.fst ∧
      (log.state.sockets i).queued = [] := by
  have hnil := ((s.sockets i).queued_nil_iff hr).2 hempty
  obtain ⟨log1, hrun1, f1, r1, a1, d1, q1, fr1⟩ := run_deliveries p i frames
    { accepted := [], dequeued := [], state := s } (find_sock_eq hb hfirst) hr hudp
  obtain ⟨log2, hrun2, _, _, a2, d2, q2, fr2⟩ := run_recvs p i calls log1 f1 r1
  simp only [hnil, hframes, List.length_nil, List.nil_append] at a1 d1 q1 fr1
  have h15 : min 17 (15 - 0) = 15 := by decide
  rw [h15] at a1 q1 fr1
  have hlen : ((frames.take 15).map Prod.fst).length = 15 := by
    simp [hframes]
  refine ⟨log2, ?_, ?_, ?_, ?_, ?_⟩
  · rw [run_append, hrun1]
    exact hrun2
  · rw [a2, a1]
  · rw [d2, d1, q1, hcalls, List.take_of_length_le (le_of_eq hlen), List.nil_append]
  · rw [fr2, fr1, q1, hcalls, List.take_of_length_le (le_of_eq hlen)]
  · rw [q2, q1, hcalls, List.drop_of_length_le (le_of_eq hlen)]

/-- Witness of C4 as amended: frames in the pages `page 0`, ..., `page 16` for
the socket of port 2000. -/
theorem socket_queue_holds_fifteen_witness :
    ∃ log, run 2000 ((((List.range 17).map fun k => (page k, (100 : Int))).map
            fun f => SockOp.deliver f.1 f.2)
          ++ ((List.range 15).map fun k => (k, 8, 16, (100 : Int))).map
            fun a => SockOp.recv a.1 a.2.1 a.2.2.1 a.2.2.2)
        { accepted := [], dequeued := [], state := boundKernel } = some log ∧
      log.accepted = (((List.range 17).map fun k => (page k, (100 : Int))).take 15).map Prod.fst ∧
      log.dequeued = (((List.range 17).map fun k => (page k, (100 : Int))).take 15).map Prod.fst ∧
      log.state.freed = boundKernel.freed
        ++ (((List.range 17).map fun k => (page k, (100 : Int))).drop 15).map Prod.fst
        ++ (((List.range 17).map fun k => (page k, (100 : Int))).take 15).map Prod.fst ∧
      (log.state.sockets 0).queued = [] :=
  socket_queue_holds_fifteen boundKernel 2000 0 _ _ (by decide) (by decide) (by decide)
    (by decide) (by decide) (by decide) (by decide)

/-- Counterexample to C4 as stated: seventeen frames for port 2000 are handed
to `ip_rx` from an empty queue and `sys_recv` is called sixteen times.  Only
fifteen frames are accepted and taken out, the sixteenth frame (`page 15`) is
freed by `ip_rx` like the seventeenth; so it is not the case that the first
sixteen frames are accepted and returned. -/
theorem socket_queue_sixteen_counterexample :
    (run 2000 (((List.range 17).map fun k => SockOp.deliver (page k) 100)
          ++ (List.range 16).map fun k => SockOp.recv k 8 16 100)
        { accepted := [], dequeued := [], state := boundKernel }).map
      (fun log => (log.accepted, log.dequeued, log.state.freed))
      = some ((List.range 15).map page, (List.range 15).map page,
          [page 15, page 16] ++ (List.range 15).map page) ∧
    ¬ ∃ log, run 2000 (((List.range 17).map fun k => SockOp.deliver (page k) 100)
          ++ (List.range 16).map fun k => SockOp.recv k 8 16 100)
        { accepted := [], dequeued := [], state := boundKernel } = some log ∧
      log.accepted = (List.range 16).map page ∧ log.dequeued = (List.range 16).map page := by
  have h : (run 2000 (((List.range 17).map fun k => SockOp.deliver (page k) 100)
          ++ (List.range 16).map fun k => SockOp.recv k 8 16 100)
        { accepted := [], dequeued := [], state := boundKernel }).map
      (fun log => (log.accepted, log.dequeued, log.state.freed))
      = some ((List.range 15).map page, (List.range 15).map page,
          [page 15, page 16] ++ (List.range 15).map page) := by
    decide
  refine ⟨h, ?_⟩
  rintro ⟨log, h1, h2, _⟩
  rw [h1] at h
  simp only [Option.map_some', Option.some.injEq, Prod.mk.injEq] at h
  have h3 := h.1
  rw [h2] at h3
  exact absurd h3 (by decide)

/-- C5: in every run of `ip_rx` deliveries for the port of a bound socket and
of `sys_recv` calls on that port, the run has a result, and the buffers that
were in the queue at the start followed by the buffers `ip_rx` accepted are
the buffers `sys_recv` took out followed by those still in the queue; from an
empty queue the buffers taken out are an initial segment of the accepted ones,
so the i-th buffer dequeued is the i-th buffer accepted. -/
theorem socket_fifo (s : Kernel) (p : Int) (i : Fin RING) (ops : List SockOp)
    (hb : (s.sockets i).bound p = true)
    (hfirst : ∀ j : Fin RING, j < i → (s.sockets j).bound p = false)
    (hr : (s.sockets i).inRange)
    (hudp : ∀ b len, SockOp.deliver b len ∈ ops → udpFor s.mem b p) :
    ∃ log, run p ops { accepted := [], dequeued := [], state := s } = some log ∧
      (s.sockets i).queued ++ log.accepted = log.dequeued ++ (log.state.sockets i).queued ∧
      ((s.sockets i).r = (s.sockets i).w → log.dequeued <+: log.accepted) := by
  obtain ⟨log, h1, _, _, h4⟩ := run_invariant p i (s.sockets i).queued ops
    { accepted := [], dequeued := [], state := s } (find_sock_eq hb hfirst) hr hudp (by simp)
  refine ⟨log, h1, h4, fun he => ?_⟩
  rw [((s.sockets i).queued_nil_iff hr).2 he, List.nil_append] at h4
  exact ⟨_, h4.symm⟩

/-- Witness of C5: two deliveries, a `recv`, a delivery and a `recv` on the
socket of port 2000, from an empty queue. -/
theorem socket_fifo_witness :
    ∃ log, run 2000 [SockOp.deliver (page 0) 100, SockOp.deliver (page 1) 100,
          SockOp.recv 0 8 16 100, SockOp.deliver (page 2) 100, SockOp.recv 0 8 16 100]
        { accepted := [], dequeued := [], state := boundKernel } = some log ∧
      (boundKernel.sockets 0).queued ++ log.accepted
        = log.dequeued ++ (log.state.sockets 0).queued ∧
      log.dequeued <+: log.accepted :=
  (socket_fifo boundKernel 2000 0 _ (by decide) (by decide) (by decide) (by
    intro b len h
    simp at h
    rcases h with ⟨rfl, _⟩ | ⟨rfl, _⟩ | ⟨rfl, _⟩ <;> decide)).imp
    fun _ h => ⟨h.1, h.2.1, h.2.2 (by decide)⟩

/-- C6: `ip_rx` on a UDP frame for the port of a bound socket.  When the queue
is full, `(w + 1) % 16 = r`, the socket table is unchanged and the buffer is
freed once.  When it is not full the buffer is stored at `rxq[w]`, `w` becomes
`(w + 1) % 16`, `r`, the other entries of the queue and the other sockets are
unchanged and nothing is freed. -/
theorem ip_rx_full_rejects (s : Kernel) (buf : Nat) (len : Int) (p : Int) (i : Fin RING)
    (hudp : udpFor s.mem buf p)
    (hb : (s.sockets i).bound p = true)
    (hfirst : ∀ j : Fin RING, j < i → (s.sockets j).bound p = false)
    (hr : (s.sockets i).inRange) :
    (((s.sockets i).w + 1) % 16 = (s.sockets i).r →
      ∃ s', ip_rx buf len s = some s' ∧ s'.sockets = s.sockets ∧
        s'.freed = s.freed ++ [buf]) ∧
    (((s.sockets i).w + 1) % 16 ≠ (s.sockets i).r →
      ∃ s' wi, ip_rx buf len s = some s' ∧ ((wi : Fin RING).val : Int) = (s.sockets i).w ∧
        (s'.sockets i).rxq wi = buf ∧
        (s'.sockets i).w = ((s.sockets i).w + 1) % 16 ∧
        (s'.sockets i).r = (s.sockets i).r ∧
        (s'.sockets i).port = (s.sockets i).port ∧
        (s'.sockets i).valid = (s.sockets i).valid ∧
        (∀ k : Fin RING, k ≠ wi → (s'.sockets i).rxq k = (s.sockets i).rxq k) ∧
        (∀ j : Fin RING, j ≠ i → s'.sockets j = s.sockets j) ∧
        s'.freed = s.freed) := by
  have hfind := find_sock_eq hb hfirst
  have hw := next16_eq hr.2.2.1
  constructor
  · intro hfull
    rw [← hw] at hfull
    exact ⟨_, ip_rx_full_eq len hudp hfind hfull, rfl, rfl⟩
  · intro hfull
    rw [← hw] at hfull
    have hlt : (s.sockets i).w.toNat < RING := by
      unfold Sock.inRange at hr; unfold RING; omega
    refine ⟨_, ⟨_, hlt⟩, ip_rx_enqueue_eq len hudp hfind hr hfull,
      ?_, ?_, ?_, ?_, ?_, ?_, ?_, ?_, rfl⟩
    · simp only [Int.toNat_of_nonneg hr.2.2.1]
    · simp
    · simp [hw]
    · simp
    · simp
    · simp
    · intro k hk
      simp [Function.update_noteq hk]
    · intro j hj
      simp [Function.update_noteq hj]

/-- Witness of C6: a frame for port 2000 with the queue full, and with the queue
empty. -/
theorem ip_rx_full_rejects_witness :
    (∃ s', ip_rx (page 20) 100 fullKernel = some s' ∧ s'.sockets = fullKernel.sockets ∧
        s'.freed = fullKernel.freed ++ [page 20]) ∧
    (∃ s' wi, ip_rx (page 20) 100 boundKernel = some s' ∧
        ((wi : Fin RING).val : Int) = (boundKernel.sockets 0).w ∧
        (s'.sockets 0).rxq wi = page 20 ∧
        (s'.sockets 0).w = ((boundKernel.sockets 0).w + 1) % 16 ∧
        (s'.sockets 0).r = (boundKernel.sockets 0).r ∧
        (s'.sockets 0).port = (boundKernel.sockets 0).port ∧
        (s'.sockets 0).valid = (boundKernel.sockets 0).valid ∧
        (∀ k : Fin RING, k ≠ wi → (s'.sockets 0).rxq k = (boundKernel.sockets 0).rxq k) ∧
        (∀ j : Fin RING, j ≠ 0 → s'.sockets j = boundKernel.sockets j) ∧
        s'.freed = boundKernel.freed) :=
  ⟨(ip_rx_full_rejects fullKernel (page 20) 100 2000 0 (by decide) (by decide) (by decide)
      (by decide)).1 (by decide),
   (ip_rx_full_rejects boundKernel (page 20) 100 2000 0 (by decide) (by decide) (by decide)
      (by decide)).2 (by decide)⟩

/-! ### `sys_bind` and `sys_unbind` -/

theorem unbind_drain_eq (i : Fin RING) :
    ∀ (n fuel : Nat) (s : Kernel), (s.sockets i).inRange → (s.sockets i).count = n → n < fuel →
      unbind_drain fuel i s = some { s with
        freed := s.freed ++ (s.sockets i).queued
        sockets := Function.update s.sockets i { s.sockets i with r := (s.sockets i).w } } := by
  intro n
  induction n with
  | zero =>
    intro fuel s hr hc hf
    obtain ⟨f, rfl⟩ : ∃ f, fuel = f + 1 := ⟨fuel - 1, by omega⟩
    have hq : (s.sockets i).queued = [] := by
      simp [Sock.queued, hc]
    have he := ((s.sockets i).queued_nil_iff hr).1 hq
    have hsk : ({ s.sockets i with r := (s.sockets i).w } : Sock) = s.sockets i := by
      rw [← he]
    simp only [unbind_drain, he, if_true, hq, List.append_nil, hsk, Function.update_eq_self]
  | succ n ih =>
    intro fuel s hr hc hf
    obtain ⟨f, rfl⟩ : ∃ f, fuel = f + 1 := ⟨fuel - 1, by omega⟩
    have hne : (s.sockets i).r ≠ (s.sockets i).w := by
      intro he
      have := ((s.sockets i).queued_nil_iff hr).2 he
      rw [← Sock.queued_length, this] at hc
      simp at hc
    have hq := (s.sockets i).queued_dequeue hr hne
    have hi := toIdx_eq hr.1 hr.2.1
    have hc' : Sock.count { s.sockets i with r := next16 (s.sockets i).r } = n := by
      have h1 := congrArg List.length hq
      rw [List.length_cons, Sock.queued_length, Sock.queued_length, hc] at h1
      dsimp only at h1 ⊢
      omega
    simp only [unbind_drain, hne, if_false, hi, kfree]
    rw [ih f _ (by simpa using Sock.inRange_dequeue _ hr) (by simpa using hc') (by omega)]
    simp only [Function.update_same, Function.update_idem, hq, List.append_assoc,
      List.singleton_append]

theorem sys_unbind_eq {fuel : Nat} {s : Kernel} {p : Int} {i : Fin RING} (hfuel : 16 ≤ fuel)
    (hfind : find_sock s.sockets p = some i) (hr : (s.sockets i).inRange) :
    sys_unbind fuel p s = some (0, { s with
      freed := s.freed ++ (s.sockets i).queued
      sockets := Function.update s.sockets i
        { s.sockets i with r := (s.sockets i).w, valid := 0 } }) := by
  have hc : (s.sockets i).count < fuel := by
    unfold Sock.count; omega
  simp only [sys_unbind, hfind, unbind_drain_eq i _ fuel s hr rfl hc, Function.update_same,
    Function.update_idem]

theorem sys_bind_ok_find {s1 s2 : Kernel} {p : Int} (h : sys_bind p s1 = (0, s2)) :
    ∃ k, find_sock s2.sockets p = some k ∧ (s2.sockets k).r = 0 ∧ (s2.sockets k).w = 0 ∧
      s2.killed = s1.killed := by
  unfold sys_bind at h
  cases hf : find_sock s1.sockets p with
  | some j =>
    rw [hf] at h
    simp at h
  | none =>
    rw [hf] at h
    cases hg : find_free s1.sockets with
    | none =>
      rw [hg] at h
      simp at h
    | some k =>
      rw [hg] at h
      simp only [Prod.mk.injEq, true_and] at h
      subst h
      refine ⟨k, ?_, by simp, by simp, rfl⟩
      have hnone := find_none_iff.1 hf
      apply find_sock_eq
      · simp [Sock.bound]
      · intro j hj
        have hjk : j ≠ k := ne_of_lt hj
        simp only [Function.update_noteq hjk]
        exact hnone j

/-- C7: `sys_bind(port)`.  When a slot is valid with that port it returns -1
and the state is unchanged; otherwise, when `i` is the lowest free slot, it
returns 0 and slot `i` becomes valid with the port and `r = w = 0`, everything
else unchanged; otherwise, with no free slot, it returns -1 and the state is
unchanged. -/
theorem sys_bind_cases (port : Int) (s : Kernel) :
    ((∃ j : Fin RING, (s.sockets j).bound port = true) → sys_bind port s = (-1, s)) ∧
    ((∀ j : Fin RING, (s.sockets j).bound port = false) →
      ∀ i : Fin RING, (s.sockets i).valid = 0 →
        (∀ j : Fin RING, j < i → (s.sockets j).valid ≠ 0) →
        sys_bind port s = (0, { s with
          sockets := Function.update s.sockets i
            { s.sockets i with valid := 1, port := port, r := 0, w := 0 } })) ∧
    ((∀ j : Fin RING, (s.sockets j).bound port = false) →
      (∀ j : Fin RING, (s.sockets j).valid ≠ 0) → sys_bind port s = (-1, s)) := by
  refine ⟨?_, ?_, ?_⟩
  · rintro ⟨j, hj⟩
    cases hf : find_sock s.sockets port with
    | none =>
      have := find_none_iff.1 hf j
      simp only [hj] at this
      exact absurd this (by simp)
    | some k => simp [sys_bind, hf]
  · intro hnone i hi hlt
    have hf : find_sock s.sockets port = none := find_none_iff.2 hnone
    have hg : find_free s.sockets = some i :=
      find_of_first (p := fun j => (s.sockets j).valid == 0) (by simp [hi])
        (fun j hj => by simpa using hlt j hj)
    simp [sys_bind, hf, hg]
  · intro hnone hall
    have hf : find_sock s.sockets port = none := find_none_iff.2 hnone
    have hg : find_free s.sockets = none :=
      find_none_iff.2 (fun j => by simpa using hall j)
    simp [sys_bind, hf, hg]

/-- Witness of C7: the port is bound already; the table is empty; the table
has no free slot. -/
theorem sys_bind_cases_witness :
    sys_bind 2000 boundKernel = (-1, boundKernel) ∧
    sys_bind 2000 zeroKernel = (0, { zeroKernel with
      sockets := Function.update zeroKernel.sockets 0
        { zeroKernel.sockets 0 with valid := 1, port := 2000, r := 0, w := 0 } }) ∧
    sys_bind 2000 fullTable = (-1, fullTable) :=
  ⟨(sys_bind_cases 2000 boundKernel).1 ⟨0, by decide⟩,
   (sys_bind_cases 2000 zeroKernel).2.1 (by decide) 0 (by decide) (by decide),
   (sys_bind_cases 2000 fullTable).2.2 (by decide) (by decide)⟩

/-- C8: when port `p` is bound to the socket in slot `i`, `sys_unbind(p)`
returns 0, frees the buffers in the queue of that socket, each once and in the
order of the queue, marks the slot free and leaves every other slot and the
rest of the state as it was; and after a successful `sys_bind(p)` that follows,
the socket found for `p` has `r = w = 0`, an empty queue, and `sys_recv` on it
sleeps (or returns -1 when the process is killed) without a change of state. -/
theorem sys_unbind_frees_queue (fuel : Nat) (s : Kernel) (p : Int) (i : Fin RING)
    (hfuel : 16 ≤ fuel)
    (hb : (s.sockets i).bound p = true)
    (hfirst : ∀ j : Fin RING, j < i → (s.sockets j).bound p = false)
    (hr : (s.sockets i).inRange) :
    sys_unbind fuel p s = some (0, { s with
      freed := s.freed ++ (s.sockets i).queued
      sockets := Function.update s.sockets i
        { s.sockets i with r := (s.sockets i).w, valid := 0 } }) ∧
    (s.sockets i).queued.length = (s.sockets i).count ∧
    ∀ s1 s2, sys_unbind fuel p s = some (0, s1) → sys_bind p s1 = (0, s2) →
      ∃ k : Fin RING, (s2.sockets k).bound p = true ∧
        (∀ j : Fin RING, j < k → (s2.sockets j).bound p = false) ∧
        (s2.sockets k).r = (s2.sockets k).w ∧ (s2.sockets k).queued = [] ∧
        ∀ a1 a2 a3 maxlen, sys_recv p a1 a2 a3 maxlen s2
          = some (if s2.killed ≠ 0 then RecvResult.ret (-1) else RecvResult.sleeping, s2) := by
  refine ⟨sys_unbind_eq hfuel (find_sock_eq hb hfirst) hr, Sock.queued_length _, ?_⟩
  intro s1 s2 _ hbind
  obtain ⟨k, hk, hr0, hw0, _⟩ := sys_bind_ok_find hbind
  obtain ⟨hkb, hkf⟩ := find_first hk
  have hrk : (s2.sockets k).inRange := by
    unfold Sock.inRange; rw [hr0, hw0]; decide
  exact ⟨k, hkb, hkf, by rw [hr0, hw0], ((s2.sockets k).queued_nil_iff hrk).2 (by rw [hr0, hw0]),
    fun a1 a2 a3 maxlen => sys_recv_empty_eq a1 a2 a3 maxlen hk (by rw [hr0, hw0])⟩

/-- Witness of C8: the socket of port 2000 with three buffers in its queue,
`unbind(2000)` and then `bind(2000)`. -/
theorem sys_unbind_frees_queue_witness :
    sys_unbind 16 2000 wrapKernel = some (0, { wrapKernel with
      freed := wrapKernel.freed ++ (wrapKernel.sockets 0).queued
      sockets := Function.update wrapKernel.sockets 0
        { wrapKernel.sockets 0 with r := (wrapKernel.sockets 0).w, valid := 0 } }) ∧
    (wrapKernel.sockets 0).queued = [page 14, page 15, page 0] ∧
    ∃ k : Fin RING, ((sys_bind 2000 unboundKernel).2.sockets k).bound 2000 = true ∧
      (∀ j : Fin RING, j < k → ((sys_bind 2000 unboundKernel).2.sockets j).bound 2000 = false) ∧
      ((sys_bind 2000 unboundKernel).2.sockets k).r
        = ((sys_bind 2000 unboundKernel).2.sockets k).w ∧
      ((sys_bind 2000 unboundKernel).2.sockets k).queued = [] ∧
      ∀ a1 a2 a3 maxlen, sys_recv 2000 a1 a2 a3 maxlen (sys_bind 2000 unboundKernel).2
        = some (if (sys_bind 2000 unboundKernel).2.killed ≠ 0 then RecvResult.ret (-1)
            else RecvResult.sleeping, (sys_bind 2000 unboundKernel).2) :=
  ⟨(sys_unbind_frees_queue 16 wrapKernel 2000 0 (by decide) (by decide) (by decide)
      (by decide)).1,
   by decide,
   (sys_unbind_frees_queue 16 wrapKernel 2000 0 (by decide) (by decide) (by decide)
      (by decide)).2.2 unboundKernel (sys_bind 2000 unboundKernel).2
      (sys_unbind_frees_queue 16 wrapKernel 2000 0 (by decide) (by decide) (by decide)
        (by decide)).1
      (Prod.ext (by decide) rfl)⟩

/-- C9: `sys_unbind` returns 0 for every port; when the port is not bound the
state is unchanged (nothing is freed); and a second `sys_unbind` of the same
port returns 0 again and changes nothing, so two calls give the state and the
result of one. -/
theorem sys_unbind_idempotent (fuel : Nat) (s : Kernel) (p : Int)
    (hfuel : 16 ≤ fuel)
    (hr : ∀ j : Fin RING, (s.sockets j).bound p = true → (s.sockets j).inRange)
    (huniq : ∀ j k : Fin RING, (s.sockets j).bound p = true → (s.sockets k).bound p = true →
      j = k) :
    ∃ s1, sys_unbind fuel p s = some (0, s1) ∧
      ((∀ j : Fin RING, (s.sockets j).bound p = false) → s1 = s) ∧
      sys_unbind fuel p s1 = some (0, s1) := by
  cases hf : find_sock s.sockets p with
  | none =>
    have h1 : sys_unbind fuel p s = some (0, s) := by simp [sys_unbind, hf]
    exact ⟨s, h1, fun _ => rfl, h1⟩
  | some i =>
    obtain ⟨hb, _⟩ := find_first hf
    refine ⟨_, sys_unbind_eq hfuel hf (hr i hb), ?_, ?_⟩
    · intro hnone
      rw [hnone i] at hb
      exact absurd hb (by simp)
    · have hnone : find_sock (Function.update s.sockets i
          { s.sockets i with r := (s.sockets i).w, valid := 0 }) p = none := by
        apply find_none_iff.2
        intro j
        by_cases hj : j = i
        · subst hj
          simp [Sock.bound]
        · simp only [Function.update_noteq hj]
          cases hbj : (s.sockets j).bound p with
          | false => rfl
          | true => exact absurd (huniq j i hbj hb) hj
      simp only [sys_unbind, hnone]

/-- Witness of C9: the port 2000 bound with three buffers in the queue, and
the port 3000 that is not bound. -/
theorem sys_unbind_idempotent_witness :
    (∃ s1, sys_unbind 16 2000 wrapKernel = some (0, s1) ∧
      ((∀ j : Fin RING, (wrapKernel.sockets j).bound 2000 = false) → s1 = wrapKernel) ∧
      sys_unbind 16 2000 s1 = some (0, s1)) ∧
    (∃ s1, sys_unbind 16 3000 wrapKernel = some (0, s1) ∧ s1 = wrapKernel ∧
      sys_unbind 16 3000 s1 = some (0, s1)) :=
  ⟨sys_unbind_idempotent 16 wrapKernel 2000 (by decide) (by decide) (by decide),
   (sys_unbind_idempotent 16 wrapKernel 3000 (by decide) (by decide) (by decide)).imp
     fun _ h => ⟨h.1, h.2.1 (by decide), h.2.2⟩⟩

/-! ### The checksum -/

theorem cksum_fold_val (lo hi : Nat) (hlo : lo < 65536) (hhi : hi < 65536) :
    cksum_fold (65536 * hi + lo)
      = if lo + hi < 65536 then 65535 - (lo + hi) else 131070 - (lo + hi) := by
  have e1 : (65536 * hi + lo) % 65536 = lo := by omega
  have e2 : (65536 * hi + lo) / 65536 = hi := by omega
  unfold cksum_fold
  simp only [e1, e2]
  have e3 : (lo + hi) % 4294967296 = lo + hi := by omega
  rw [e3]
  split
  · have e4 : (lo + hi) / 65536 = 0 := by omega
    rw [e4]
    omega
  · have e4 : (lo + hi) / 65536 = 1 := by omega
    rw [e4]
    omega

theorem cksum_fold_lt (S : Nat) : cksum_fold S < 65536 := by
  unfold cksum_fold
  simp only
  omega

theorem cksum_fold_law (S : Nat) (h : S + cksum_fold S < 4294967296) :
    cksum_fold (S + cksum_fold S) = 0 := by
  have hS : S = 65536 * (S / 65536) + S % 65536 := by omega
  have hlo : S % 65536 < 65536 := Nat.mod_lt _ (by decide)
  have hhi : S / 65536 < 65536 := by omega
  generalize S / 65536 = hi at hS hhi
  generalize S % 65536 = lo at hS hlo
  subst hS
  rw [cksum_fold_val lo hi hlo hhi] at h ⊢
  by_cases hc : lo + hi < 65536
  · rw [if_pos hc] at h ⊢
    have e : 65536 * hi + lo + (65535 - (lo + hi)) = 65536 * hi + (65535 - hi) := by omega
    rw [e, cksum_fold_val _ _ (by omega) hhi]
    have : 65535 - hi + hi < 65536 := by omega
    rw [if_pos this]
    omega
  · rw [if_neg hc] at h ⊢
    by_cases hh : hi = 65535
    · subst hh
      have e : 65536 * 65535 + lo + (131070 - (lo + 65535)) = 65536 * 65535 + 65535 := by omega
      rw [e, cksum_fold_val _ _ (by omega) (by omega)]
      decide
    · have e : 65536 * hi + lo + (131070 - (lo + hi))
          = 65536 * (hi + 1) + (65534 - hi) := by omega
      rw [e, cksum_fold_val _ _ (by omega) (by omega)]
      have : 65534 - hi + (hi + 1) < 65536 := by omega
      rw [if_pos this]
      omega

theorem rd8_lt (m : Nat → Nat) (a : Nat) : rd8 m a < 256 := by
  unfold rd8; omega

theorem rd16_lt (m : Nat → Nat) (a : Nat) : rd16 m a < 65536 := by
  have h1 := rd8_lt m a
  have h2 := rd8_lt m (a + 1)
  unfold rd16; omega

theorem rd16_wr16_same (m : Nat → Nat) (a v : Nat) : rd16 (wr16 m a v) a = v % 65536 := by
  simp [rd16, rd8, wr16, wr8, Function.update]
  omega

theorem rd8_wr16_other (m : Nat → Nat) (a v b : Nat) (h : b ≠ a ∧ b ≠ a + 1) :
    rd8 (wr16 m a v) b = rd8 m b := by
  simp [rd8, wr16, wr8, Function.update, h.1, h.2]

theorem rd16_congr {m m' : Nat → Nat} {a : Nat} (h0 : rd8 m a = rd8 m' a)
    (h1 : rd8 m (a + 1) = rd8 m' (a + 1)) : rd16 m a = rd16 m' a := by
  unfold rd16; rw [h0, h1]

theorem wordSum_congr (m m' : Nat → Nat) :
    ∀ (n w : Nat), (∀ a, w ≤ a → a < w + 2 * n → rd8 m a = rd8 m' a) →
      wordSum m w n = wordSum m' w n := by
  intro n
  induction n with
  | zero => intro w _; rfl
  | succ n ih =>
    intro w h
    simp only [wordSum]
    rw [rd16_congr (h w (by omega) (by omega)) (h (w + 1) (by omega) (by omega)),
      ih (w + 2) (fun a h1 h2 => h a (by omega) (by omega))]

theorem wordSum_le (m : Nat → Nat) : ∀ (n w : Nat), wordSum m w n ≤ n * 65535 := by
  intro n
  induction n with
  | zero => intro w; simp [wordSum]
  | succ n ih =>
    intro w
    have h1 := rd16_lt m w
    have h2 := ih (w + 2)
    simp only [wordSum]
    omega

theorem wordSum_wr16 (m : Nat → Nat) (v : Nat) :
    ∀ (n w k : Nat), k < n →
      wordSum (wr16 m (w + 2 * k) v) w n + rd16 m (w + 2 * k) = wordSum m w n + v % 65536 := by
  intro n
  induction n with
  | zero => intro w k hk; omega
  | succ n ih =>
    intro w k hk
    cases k with
    | zero =>
      simp only [wordSum, Nat.mul_zero, Nat.add_zero, rd16_wr16_same]
      rw [wordSum_congr (wr16 m w v) m n (w + 2)
        (fun a h1 _ => rd8_wr16_other m w v a (by omega))]
      omega
    | succ k =>
      have hw : w + 2 * (k + 1) = (w + 2) + 2 * k := by omega
      have h := ih (w + 2) k (by omega)
      rw [hw]
      simp only [wordSum]
      rw [rd16_congr (rd8_wr16_other m _ v w (by omega))
        (rd8_wr16_other m _ v (w + 1) (by omega))]
      omega

theorem cksum_words_even (m : Nat → Nat) :
    ∀ (n w sum : Nat), sum < 4294967296 →
      cksum_words m (2 * n) w sum = (0, w + 2 * n, (sum + wordSum m w n) % 4294967296) := by
  intro n
  induction n with
  | zero =>
    intro w sum h
    simp [cksum_words, wordSum, Nat.mod_eq_of_lt h]
  | succ n ih =>
    intro w sum _
    have e : 2 * (n + 1) = 2 * n + 2 := by omega
    rw [e, cksum_words, ih (w + 2) _ (Nat.mod_lt _ (by decide))]
    simp only [wordSum, Prod.mk.injEq, true_and]
    constructor
    · omega
    · omega

theorem in_cksum_even (m : Nat → Nat) (addr n : Nat) :
    in_cksum m addr ((2 * n : Nat) : Int) = cksum_fold (wordSum m addr n % 4294967296) := by
  unfold in_cksum
  rw [Int.toNat_ofNat, cksum_words_even m n addr 0 (by decide)]
  simp

theorem in_cksum_congr (m m' : Nat → Nat) (addr n : Nat)
    (h : ∀ a, addr ≤ a → a < addr + 2 * n → rd8 m a = rd8 m' a) :
    in_cksum m addr ((2 * n : Nat) : Int) = in_cksum m' addr ((2 * n : Nat) : Int) := by
  rw [in_cksum_even, in_cksum_even, wordSum_congr m m' n addr h]

theorem in_cksum_stored (m : Nat → Nat) (addr n k : Nat) (hk : k < n)
    (hn : n * 65535 < 4294967296) (hz : rd16 m (addr + 2 * k) = 0) :
    in_cksum (wr16 m (addr + 2 * k) (in_cksum m addr ((2 * n : Nat) : Int))) addr
      ((2 * n : Nat) : Int) = 0 := by
  have hc := cksum_fold_lt (wordSum m addr n % 4294967296)
  have h1 := wordSum_wr16 m (in_cksum m addr ((2 * n : Nat) : Int)) n addr k hk
  have h2 := wordSum_le (wr16 m (addr + 2 * k) (in_cksum m addr ((2 * n : Nat) : Int))) n addr
  have h3 := wordSum_le m n addr
  rw [in_cksum_even m addr n] at h1 h2 ⊢
  rw [in_cksum_even]
  rw [hz, Nat.mod_eq_of_lt hc] at h1
  rw [Nat.mod_eq_of_lt (lt_of_le_of_lt h3 hn)] at h1 h2 hc ⊢
  rw [Nat.mod_eq_of_lt (lt_of_le_of_lt h2 hn), Nat.add_zero] at *
  rw [h1]
  exact cksum_fold_law _ (by omega)

theorem wr16_wr16 (m : Nat → Nat) (a v v' : Nat) : wr16 (wr16 m a v) a v' = wr16 m a v' := by
  funext b
  simp only [wr16, wr8, Function.update]
  split_ifs <;> rfl

theorem e1000_transmit_some (c : Consts) (buf : Nat) (len : Int) (s : Kernel)
    (h : s.tdt < RING) :
    ∃ res, e1000_transmit c buf len s = some res ∧ res.2.mem = s.mem := by
  unfold e1000_transmit
  rw [dif_pos h]
  simp only
  split
  · exact ⟨_, rfl, rfl⟩
  · refine ⟨_, rfl, ?_⟩
    simp only
    split <;> rfl

theorem send_headers_cksum (c : Consts) (m0 : Nat → Nat) (buf : Nat)
    (sport dst dport len : Int) (m' : Nat → Nat)
    (h : ∀ a, buf + 14 ≤ a → a < buf + 34 →
      rd8 m' a = rd8 (send_headers c m0 buf sport dst dport len) a) :
    in_cksum m' (buf + 14) 20 = 0 := by
  have e : (20 : Int) = ((2 * 10 : Nat) : Int) := by norm_num
  have hf : buf + 24 = buf + 14 + 2 * 5 := by omega
  rw [e, in_cksum_congr m' (send_headers c m0 buf sport dst dport len) (buf + 14) 10
    (fun a h1 h2 => h a h1 (by omega))]
  unfold send_headers
  simp only
  rw [wr16be, wr16be, wr16be]
  rw [in_cksum_congr _
    (wr16 (wr32be (wr32be (wr8 (wr8 (wr16 (wr16 (wr16be (wr8 (wr8 (wr16be (wrBytes
      (wrBytes (memset m0 buf 0 PGSIZE) buf host_mac) (buf + 6) local_mac) (buf + 12) 0x0800)
      (buf + 14) 0x45) (buf + 15) 0) (buf + 16) (toU64 (28 + len))) (buf + 18) 0) (buf + 20) 0)
      (buf + 22) 100) (buf + 23) 17) (buf + 26) c.local_ip) (buf + 30) (toU64 dst))
      (buf + 24) (in_cksum (wr32be (wr32be (wr8 (wr8 (wr16 (wr16 (wr16be (wr8 (wr8 (wr16be
      (wrBytes (wrBytes (memset m0 buf 0 PGSIZE) buf host_mac) (buf + 6) local_mac) (buf + 12)
      0x0800) (buf + 14) 0x45) (buf + 15) 0) (buf + 16) (toU64 (28 + len))) (buf + 18) 0)
      (buf + 20) 0) (buf + 22) 100) (buf + 23) 17) (buf + 26) c.local_ip) (buf + 30) (toU64 dst))
      (buf + 14) 20)) (buf + 14) 10]
  · rw [hf, e]
    apply in_cksum_stored _ _ _ _ (by decide) (by decide)
    rw [← hf]
    simp [rd16, rd8, wr32be, wr16be, wr16, wr8, wrBytes, memset, Function.update, PGSIZE,
      local_mac, host_mac]
    rw [if_pos (by omega)]
    rfl
  · intro a h1 h2
    have h34 : a ≠ buf + 34 := by omega
    have h35 : a ≠ buf + 34 + 1 := by omega
    have h36 : a ≠ buf + 36 := by omega
    have h37 : a ≠ buf + 36 + 1 := by omega
    have h38 : a ≠ buf + 38 := by omega
    have h39 : a ≠ buf + 38 + 1 := by omega
    simp only [rd8, wr8, Function.update, h34, h35, h36, h37, h38, h39, dite_false,
      eq_rec_constant, if_false]

/-- C10: the checksum verifies.  For a header of `n` 16-bit words at `addr`
(`n * 0xffff` below `2^32`, so the accumulator does not wrap) with the checksum
field at the word `k`: when the field is set to 0, `c = in_cksum` is computed
and `c` is stored in the field, `in_cksum` of the header is 0; when the field is
set to 0 again, `in_cksum` is `c` again.  And when `sys_send` builds and sends a
frame, `in_cksum` of the 20 bytes of its IP header is 0. -/
theorem in_cksum_verifies (m : Nat → Nat) (addr n k : Nat)
    (c : Consts) (sport dst dport : Int) (bufaddr : Nat) (len : Int) (s : Kernel)
    (hk : k < n) (hn : n * 65535 < 4294967296)
    (htotal : wrap32 (len + 42) ≤ 4096) (halloc : s.alloc_seq s.nalloc ≠ 0)
    (hcopy : s.copy_ok bufaddr (toU64 len) = true) (htdt : s.tdt < 16) :
    in_cksum (wr16 (wr16 m (addr + 2 * k) 0) (addr + 2 * k)
        (in_cksum (wr16 m (addr + 2 * k) 0) addr ((2 * n : Nat) : Int)))
      addr ((2 * n : Nat) : Int) = 0 ∧
    in_cksum (wr16 (wr16 (wr16 m (addr + 2 * k) 0) (addr + 2 * k)
        (in_cksum (wr16 m (addr + 2 * k) 0) addr ((2 * n : Nat) : Int))) (addr + 2 * k) 0)
      addr ((2 * n : Nat) : Int)
      = in_cksum (wr16 m (addr + 2 * k) 0) addr ((2 * n : Nat) : Int) ∧
    ∃ s', sys_send c sport dst dport bufaddr len s = some (0, s') ∧
      in_cksum s'.mem (s.alloc_seq s.nalloc + 14) 20 = 0 := by
  refine ⟨?_, ?_, ?_⟩
  · apply in_cksum_stored _ _ _ _ hk hn
    rw [rd16_wr16_same]
  · rw [wr16_wr16, wr16_wr16]
  · have ht : ¬ wrap32 (len + 42) > (PGSIZE : Int) := by
      unfold PGSIZE; push_cast; omega
    obtain ⟨res, hres, hmem⟩ := e1000_transmit_some c (s.alloc_seq s.nalloc)
      (wrap32 (len + 42))
      { (kalloc s).2 with
        mem := copyBytes (send_headers c s.mem (s.alloc_seq s.nalloc) sport dst dport len)
          (s.alloc_seq s.nalloc + 42) (fun k => s.umem (bufaddr + k)) (toU64 len) } htdt
    refine ⟨res.2, ?_, ?_⟩
    · unfold sys_send
      simp only [ht, if_false, kalloc, halloc, hcopy, Bool.true_eq_false]
      simp only [kalloc] at hres
      rw [hres]
    · rw [hmem]
      apply send_headers_cksum c s.mem (s.alloc_seq s.nalloc) sport dst dport len
      intro a h1 h2
      have : ¬ (s.alloc_seq s.nalloc + 42 ≤ a ∧ a < s.alloc_seq s.nalloc + 42 + toU64 len) := by
        omega
      simp only [rd8, copyBytes, this, if_false]

/-- Witness of C10: a header of ten words with the field at word 5, and a
`send` of five bytes from the state after initialisation. -/
theorem in_cksum_verifies_witness :
    in_cksum (wr16 (wr16 (fun a => 7 * a + 3) (100 + 2 * 5) 0) (100 + 2 * 5)
        (in_cksum (wr16 (fun a => 7 * a + 3) (100 + 2 * 5) 0) 100 ((2 * 10 : Nat) : Int)))
      100 ((2 * 10 : Nat) : Int) = 0 ∧
    in_cksum (wr16 (wr16 (wr16 (fun a => 7 * a + 3) (100 + 2 * 5) 0) (100 + 2 * 5)
        (in_cksum (wr16 (fun a => 7 * a + 3) (100 + 2 * 5) 0) 100 ((2 * 10 : Nat) : Int)))
        (100 + 2 * 5) 0)
      100 ((2 * 10 : Nat) : Int)
      = in_cksum (wr16 (fun a => 7 * a + 3) (100 + 2 * 5) 0) 100 ((2 * 10 : Nat) : Int) ∧
    ∃ s', sys_send xv6Consts 9000 0x0a000202 9000 0 5 txReady = some (0, s') ∧
      in_cksum s'.mem (txReady.alloc_seq txReady.nalloc + 14) 20 = 0 :=
  in_cksum_verifies (fun a => 7 * a + 3) 100 10 5 xv6Consts 9000 0x0a000202 9000 0 5 txReady
    (by decide) (by decide) (by decide) (by decide) (by decide) (by decide)

/-! ### The receive ring -/

theorem e1000_transmit_ok (c : Consts) (buf : Nat) (len : Int) (s : Kernel) (h : NetOK s) :
    ∃ res, e1000_transmit c buf len s = some res ∧ NetOK res.2 ∧ RxFrame s res.2 := by
  obtain ⟨ht, hs, ha⟩ := h
  have ht' : s.tdt < RING := ht
  unfold e1000_transmit
  rw [dif_pos ht']
  simp only
  split
  · exact ⟨_, rfl, ⟨ht, hs, ha⟩, rfl, rfl, rfl, rfl, le_refl _, rfl⟩
  · refine ⟨_, rfl, ?_, ?_⟩
    · split
      · exact ⟨Nat.mod_lt _ (by decide), hs, ha⟩
      · exact ⟨Nat.mod_lt _ (by decide), hs, ha⟩
    · split
      · exact ⟨rfl, rfl, rfl, rfl, le_refl _, rfl⟩
      · exact ⟨rfl, rfl, rfl, rfl, le_refl _, rfl⟩

theorem ip_rx_ok (buf : Nat) (len : Int) (s : Kernel) (h : NetOK s) :
    ∃ s', ip_rx buf len s = some s' ∧ NetOK s' ∧ RxFrame s s' := by
  obtain ⟨ht, hs, ha⟩ := h
  unfold ip_rx
  simp only
  split
  · exact ⟨_, rfl, ⟨ht, hs, ha⟩, rfl, rfl, rfl, rfl, le_refl _, rfl⟩
  · split
    · rename_i i _
      split
      · exact ⟨_, rfl, ⟨ht, hs, ha⟩, rfl, rfl, rfl, rfl, le_refl _, rfl⟩
      · rw [toIdx_eq (hs i).2.2.1 (hs i).2.2.2]
        refine ⟨_, rfl, ⟨ht, ?_, ha⟩, rfl, rfl, rfl, rfl, le_refl _, rfl⟩
        intro j
        by_cases hj : j = i
        · subst hj
          simp only [Function.update_same]
          exact Sock.inRange_enqueue _ (hs j) _
        · simp only [Function.update_noteq hj]
          exact hs j
    · exact ⟨_, rfl, ⟨ht, hs, ha⟩, rfl, rfl, rfl, rfl, le_refl _, rfl⟩

theorem arp_rx_ok (c : Consts) (inbuf : Nat) (s : Kernel) (h : NetOK s) :
    ∃ s', arp_rx c inbuf s = some s' ∧ NetOK s' ∧ RxFrame s s' := by
  obtain ⟨ht, hs, ha⟩ := h
  unfold arp_rx
  split
  · exact ⟨_, rfl, ⟨ht, hs, ha⟩, rfl, rfl, rfl, rfl, le_refl _, rfl⟩
  · simp only [kalloc, ha s.nalloc (le_refl _), if_false]
    have hok : NetOK { s with seen_arp := 1, nalloc := s.nalloc + 1 } :=
      ⟨ht, hs, fun n hn => ha n (by simp only at hn; omega)⟩
    generalize hm : memmove _ _ _ _ = m
    obtain ⟨res, hres, hok', hfr⟩ := e1000_transmit_ok c (s.alloc_seq s.nalloc) 42
      { s with seen_arp := 1, nalloc := s.nalloc + 1, mem := m } hok
    rw [hres]
    refine ⟨_, rfl, hok', ?_⟩
    obtain ⟨f1, f2, f3, f4, f5, f6⟩ := hfr
    exact ⟨f1, f2, f3, f4, by simp only at f5; simp only [kfree]; omega, f6⟩

theorem net_rx_ok (c : Consts) (buf : Nat) (len : Int) (s : Kernel) (h : NetOK s) :
    ∃ s', net_rx c buf len s = some s' ∧ NetOK s' ∧
      s'.rx_ring = s.rx_ring ∧ s'.rx_bufs = s.rx_bufs ∧ s'.rdt = s.rdt ∧
      s'.alloc_seq = s.alloc_seq ∧ s.nalloc ≤ s'.nalloc ∧
      s'.rx_log = s.rx_log ++ [(buf, len)] := by
  have hok : NetOK { s with rx_log := s.rx_log ++ [(buf, len)] } := h
  unfold net_rx
  simp only
  split
  · obtain ⟨s', h1, h2, f1, f2, f3, f4, f5, f6⟩ := arp_rx_ok c buf _ hok
    exact ⟨s', h1, h2, f1, f2, f3, f4, f5, f6⟩
  · split
    · obtain ⟨s', h1, h2, f1, f2, f3, f4, f5, f6⟩ := ip_rx_ok buf len _ hok
      exact ⟨s', h1, h2, f1, f2, f3, f4, f5, f6⟩
    · exact ⟨_, rfl, hok, rfl, rfl, rfl, rfl, le_refl _, rfl⟩

theorem ringSlot_val (idx : Fin RING) : ringSlot idx.val = idx := by
  apply Fin.ext
  have := idx.isLt
  simp only [ringSlot, RING] at this ⊢
  omega

theorem ringSlot_next (idx : Fin RING) (j : Nat) :
    ringSlot ((ringNext idx).val + j) = ringSlot (idx.val + (j + 1)) := by
  apply Fin.ext
  simp only [ringSlot, ringNext, RING]
  omega

theorem ringSlot_ne (idx : Fin RING) (j : Nat) (h0 : 0 < j) (h1 : j < 16) :
    ringSlot (idx.val + j) ≠ idx := by
  intro h
  have h2 := congrArg Fin.val h
  have := idx.isLt
  simp only [ringSlot, RING] at h2 this
  omega

theorem dd_status_zero (c : Consts) (d : RxDesc) (h : d.status = 0) : d.dd c = false := by
  simp [RxDesc.dd, h]

theorem recv_loop_drain (c : Consts) :
    ∀ (m fuel : Nat) (idx : Fin RING) (s : Kernel), NetOK s → m ≤ 16 → m < fuel →
      (∀ j, j < m → (s.rx_ring (ringSlot (idx.val + j))).dd c = true) →
      (m < 16 → (s.rx_ring (ringSlot (idx.val + m))).dd c = false) →
      ∃ s', recv_loop c fuel idx s = some s' ∧ NetOK s' ∧
        s'.alloc_seq = s.alloc_seq ∧ s.nalloc ≤ s'.nalloc ∧
        s'.rx_log = s.rx_log ++ (List.range m).map (fun j =>
          (s.rx_bufs (ringSlot (idx.val + j)),
            ((s.rx_ring (ringSlot (idx.val + j))).length : Int))) ∧
        (∀ j, j < m → (s'.rx_ring (ringSlot (idx.val + j))).status = 0 ∧
          (s'.rx_ring (ringSlot (idx.val + j))).addr = s'.rx_bufs (ringSlot (idx.val + j)) ∧
          ∃ n, s.nalloc ≤ n ∧ n < s'.nalloc ∧
            s'.rx_bufs (ringSlot (idx.val + j)) = s.alloc_seq n) ∧
        (∀ i : Fin RING, (∀ j, j < m → i ≠ ringSlot (idx.val + j)) →
          s'.rx_ring i = s.rx_ring i ∧ s'.rx_bufs i = s.rx_bufs i) ∧
        s'.rdt = (if m = 0 then s.rdt else (idx.val + (m - 1)) % 16) := by
  intro m
  induction m with
  | zero =>
    intro fuel idx s hok _ hf _ hnd
    obtain ⟨f, rfl⟩ : ∃ f, fuel = f + 1 := ⟨fuel - 1, by omega⟩
    have h0 := hnd (by decide)
    rw [Nat.add_zero, ringSlot_val] at h0
    refine ⟨s, ?_, hok, rfl, le_refl _, by simp, fun j hj => absurd hj (by omega),
      fun i _ => ⟨rfl, rfl⟩, by simp⟩
    simp [recv_loop, h0]
  | succ m ih =>
    intro fuel idx s hok hm hf hdd hnd
    obtain ⟨f, rfl⟩ : ∃ f, fuel = f + 1 := ⟨fuel - 1, by omega⟩
    have h0 := hdd 0 (by omega)
    rw [Nat.add_zero, ringSlot_val] at h0
    obtain ⟨s1, hs1, hok1, f1, f2, f3, f4, f5, f6⟩ :=
      net_rx_ok c (s.rx_bufs idx) ((s.rx_ring idx).length : Int) s hok
    have hnz : s1.alloc_seq s1.nalloc ≠ 0 := hok1.2.2 _ (le_refl _)
    -- the state at the end of the body of the loop
    obtain ⟨s3, hs3⟩ : ∃ s3 : Kernel, s3 = { s1 with
        nalloc := s1.nalloc + 1
        rx_bufs := Function.update s1.rx_bufs idx (s1.alloc_seq s1.nalloc)
        rx_ring := Function.update s1.rx_ring idx
          { s1.rx_ring idx with addr := s1.alloc_seq s1.nalloc, status := 0 }
        rdt := idx.val } := ⟨_, rfl⟩
    have hstep : recv_loop c (f + 1) idx s = recv_loop c f (ringNext idx) s3 := by
      rw [hs3]
      simp only [recv_loop, h0, if_true, hs1, kalloc, hnz, if_false]
    have hok3 : NetOK s3 := by
      rw [hs3]
      exact ⟨hok1.1, hok1.2.1, fun n hn => hok1.2.2 n (by simp only at hn; omega)⟩
    have hring : ∀ i : Fin RING, i ≠ idx → s3.rx_ring i = s.rx_ring i ∧
        s3.rx_bufs i = s.rx_bufs i := by
      intro i hi
      rw [hs3]
      simp only [Function.update_noteq hi, f1, f2, and_self]
    have hidx : (s3.rx_ring idx).status = 0 ∧ (s3.rx_ring idx).addr = s3.rx_bufs idx ∧
        s3.rx_bufs idx = s.alloc_seq s1.nalloc := by
      rw [hs3]
      simp only [Function.update_same, f4, and_self]
    have hn3 : s3.nalloc = s1.nalloc + 1 := by rw [hs3]
    have ha3 : s3.alloc_seq = s.alloc_seq := by rw [hs3]; exact f4
    have hl3 : s3.rx_log = s.rx_log ++ [(s.rx_bufs idx, ((s.rx_ring idx).length : Int))] := by
      rw [hs3]; exact f6
    have hr3 : s3.rdt = idx.val := by rw [hs3]
    obtain ⟨s', g1, g2, g3, g4, g5, g6, g7, g8⟩ := ih f (ringNext idx) s3 hok3 (by omega)
      (by omega)
      (fun j hj => by
        rw [ringSlot_next, (hring _ (ringSlot_ne idx (j + 1) (by omega) (by omega))).1]
        exact hdd (j + 1) (by omega))
      (fun hm16 => by
        rw [ringSlot_next]
        by_cases h16 : m + 1 < 16
        · rw [(hring _ (ringSlot_ne idx (m + 1) (by omega) h16)).1]
          exact hnd h16
        · have e : ringSlot (idx.val + (m + 1)) = idx := by
            have h := ringSlot_val idx
            have : m + 1 = 16 := by omega
            rw [this]
            apply Fin.ext
            have := idx.isLt
            simp only [ringSlot, RING] at this ⊢
            omega
          rw [e]
          exact dd_status_zero c _ hidx.1)
    refine ⟨s', by rw [hstep, g1], g2, by rw [g3, ha3], by omega, ?_, ?_, ?_, ?_⟩
    · rw [g5, hl3, List.range_succ_eq_map, List.map_cons, List.map_map, List.append_assoc,
        List.singleton_append, Nat.add_zero, ringSlot_val]
      congr 2
      apply List.map_congr_left
      intro j hj
      rw [List.mem_range] at hj
      simp only [Function.comp, Nat.succ_eq_add_one]
      rw [ringSlot_next]
      have hne := ringSlot_ne idx (j + 1) (by omega) (by omega)
      rw [(hring _ hne).1, (hring _ hne).2]
    · intro j hj
      cases j with
      | zero =>
        rw [Nat.add_zero, ringSlot_val]
        have hun := g7 idx (fun j hj' => by
          rw [ringSlot_next]
          exact (ringSlot_ne idx (j + 1) (by omega) (by omega)).symm)
        rw [hun.1, hun.2]
        exact ⟨hidx.1, hidx.2.1, s1.nalloc, f5, by omega, hidx.2.2⟩
      | succ j =>
        obtain ⟨k1, k2, n, k3, k4, k5⟩ := g6 j (by omega)
        rw [ringSlot_next] at k1 k2 k5
        exact ⟨k1, k2, n, by omega, k4, by rw [k5, ha3]⟩
    · intro i hi
      have hne : i ≠ idx := by
        have := hi 0 (by omega)
        rwa [Nat.add_zero, ringSlot_val] at this
      have hun := g7 i (fun j hj' => by
        rw [ringSlot_next]
        exact hi (j + 1) (by omega))
      rw [hun.1, hun.2]
      exact hring i hne
    · rw [g8, hr3]
      have := idx.isLt
      simp only [ringNext, RING, Nat.add_sub_cancel, Nat.succ_ne_zero, if_false] at this ⊢
      split
      · rename_i h; subst h; omega
      · omega

/-- C3: the receive drain.  In a state with receive tail `t` in which the
descriptors with DD set are the `k` slots `(t + 1) % 16`, ..., `(t + k) % 16`
(and in which `net_rx` can run: the transmit tail indexes its ring, the indices
of the sockets index their queues, `kalloc` gets a page), `e1000_recv` returns,
it has handed to `net_rx` the `k` frames `(rx_bufs[slot], length of the
descriptor)` of those slots in that order and nothing else, no descriptor has DD
set afterwards, every drained slot holds a page of a `kalloc` of this call in
`rx_bufs` and in the address of the descriptor, the other slots are unchanged,
and the tail is `(t + k) % 16`, or `t` as before when `k = 0`. -/
theorem e1000_recv_drains (c : Consts) (s : Kernel) (k fuel : Nat)
    (hk : k ≤ 16) (hfuel : 17 ≤ fuel)
    (htdt : s.tdt < 16) (hsock : ∀ i : Fin RING, (s.sockets i).inRange)
    (halloc : ∀ n, s.nalloc ≤ n → s.alloc_seq n ≠ 0)
    (hdd : ∀ i : Fin RING, (s.rx_ring i).dd c = true ↔
      ∃ j, j < k ∧ i = ringSlot (s.rdt + 1 + j)) :
    ∃ s', e1000_recv c fuel s = some s' ∧
      s'.rx_log = s.rx_log ++ (List.range k).map (fun j =>
        (s.rx_bufs (ringSlot (s.rdt + 1 + j)),
          ((s.rx_ring (ringSlot (s.rdt + 1 + j))).length : Int))) ∧
      (∀ i : Fin RING, (s'.rx_ring i).dd c = false) ∧
      (∀ j, j < k →
        (s'.rx_ring (ringSlot (s.rdt + 1 + j))).addr = s'.rx_bufs (ringSlot (s.rdt + 1 + j)) ∧
        ∃ n, s.nalloc ≤ n ∧ n < s'.nalloc ∧
          s'.rx_bufs (ringSlot (s.rdt + 1 + j)) = s.alloc_seq n ∧ s.alloc_seq n ≠ 0) ∧
      (∀ i : Fin RING, (∀ j, j < k → i ≠ ringSlot (s.rdt + 1 + j)) →
        s'.rx_ring i = s.rx_ring i ∧ s'.rx_bufs i = s.rx_bufs i) ∧
      s'.rdt = (if k = 0 then s.rdt else (s.rdt + k) % 16) := by
  have hslot : ∀ j, ringSlot ((⟨(s.rdt + 1) % 4294967296 % RING, Nat.mod_lt _ (by decide)⟩ :
      Fin RING).val + j) = ringSlot (s.rdt + 1 + j) := by
    intro j
    apply Fin.ext
    simp only [ringSlot, RING]
    omega
  obtain ⟨s', g1, _, _, _, g5, g6, g7, g8⟩ := recv_loop_drain c k fuel
    ⟨(s.rdt + 1) % 4294967296 % RING, Nat.mod_lt _ (by decide)⟩ s ⟨htdt, hsock, halloc⟩ hk
    (by omega)
    (fun j hj => by
      rw [hslot]
      exact (hdd _).2 ⟨j, hj, rfl⟩)
    (fun hk16 => by
      rw [hslot]
      cases hc : (s.rx_ring (ringSlot (s.rdt + 1 + k))).dd c with
      | false => rfl
      | true =>
        obtain ⟨j, hj, he⟩ := (hdd _).1 hc
        have h2 := congrArg Fin.val he
        simp only [ringSlot, RING] at h2
        omega)
  simp only [hslot] at g5 g6 g7
  refine ⟨s', g1, g5, ?_, ?_, g7, ?_⟩
  · intro i
    by_cases hi : ∃ j, j < k ∧ i = ringSlot (s.rdt + 1 + j)
    · obtain ⟨j, hj, rfl⟩ := hi
      exact dd_status_zero c _ (g6 j hj).1
    · rw [(g7 i (fun j hj he => hi ⟨j, hj, he⟩)).1]
      cases hc : (s.rx_ring i).dd c with
      | false => rfl
      | true => exact absurd ((hdd i).1 hc) hi
  · intro j hj
    obtain ⟨_, k2, n, k3, k4, k5⟩ := g6 j hj
    exact ⟨k2, n, k3, k4, k5, halloc n k3⟩
  · rw [g8]
    by_cases hk0 : k = 0
    · simp only [hk0, if_true]
    · simp only [hk0, if_false, RING]
      omega

/-- Witness of C3: two frames received behind the tail 15. -/
theorem e1000_recv_drains_witness :
    ∃ s', e1000_recv xv6Consts 17 rxKernel = some s' ∧
      s'.rx_log = rxKernel.rx_log ++ (List.range 2).map (fun j =>
        (rxKernel.rx_bufs (ringSlot (rxKernel.rdt + 1 + j)),
          ((rxKernel.rx_ring (ringSlot (rxKernel.rdt + 1 + j))).length : Int))) ∧
      (∀ i : Fin RING, (s'.rx_ring i).dd xv6Consts = false) ∧
      (∀ j, j < 2 →
        (s'.rx_ring (ringSlot (rxKernel.rdt + 1 + j))).addr
          = s'.rx_bufs (ringSlot (rxKernel.rdt + 1 + j)) ∧
        ∃ n, rxKernel.nalloc ≤ n ∧ n < s'.nalloc ∧
          s'.rx_bufs (ringSlot (rxKernel.rdt + 1 + j)) = rxKernel.alloc_seq n ∧
          rxKernel.alloc_seq n ≠ 0) ∧
      (∀ i : Fin RING, (∀ j, j < 2 → i ≠ ringSlot (rxKernel.rdt + 1 + j)) →
        s'.rx_ring i = rxKernel.rx_ring i ∧ s'.rx_bufs i = rxKernel.rx_bufs i) ∧
      s'.rdt = (if 2 = 0 then rxKernel.rdt else (rxKernel.rdt + 2) % 16) :=
  e1000_recv_drains xv6Consts rxKernel 2 17 (by decide) (by decide) (by decide) (by decide)
    (by intro n _; show 0x87000000 + 4096 * n ≠ 0; omega) (by decide)

/-! ### The checksum and its reference -/

theorem refFoldAux_of_lt (fuel s : Nat) (h : s < 65536) : refFoldAux fuel s = s := by
  cases fuel with
  | zero => rfl
  | succ f => simp [refFoldAux, h]

theorem refFoldAux_step (fuel s : Nat) (h : 65536 ≤ s) :
    refFoldAux (fuel + 1) s = refFoldAux fuel (s % 65536 + s / 65536) := by
  have : ¬ s < 65536 := by omega
  simp [refFoldAux, this]

theorem refFoldAux_lt : ∀ (fuel s : Nat), s ≤ fuel + 65535 → refFoldAux fuel s < 65536 := by
  intro fuel
  induction fuel with
  | zero =>
    intro s h
    rw [refFoldAux_of_lt 0 s (by omega)]
    omega
  | succ f ih =>
    intro s h
    by_cases hs : s < 65536
    · rw [refFoldAux_of_lt _ s hs]; exact hs
    · rw [refFoldAux_step f s (by omega)]
      exact ih _ (by omega)

theorem refFold_lt (s : Nat) : refFold s < 65536 :=
  refFoldAux_lt s s (by omega)

theorem refFold_val (lo hi : Nat) (hlo : lo < 65536) (hhi : hi < 65536) :
    refFold (65536 * hi + lo)
      = if lo + hi < 65536 then lo + hi else lo + hi - 65535 := by
  unfold refFold
  by_cases h0 : hi = 0
  · subst h0
    simp only [Nat.mul_zero, Nat.zero_add, Nat.add_zero, hlo, if_true]
    exact refFoldAux_of_lt _ _ hlo
  · obtain ⟨f, hf⟩ : ∃ f, 65536 * hi + lo = f + 1 := ⟨65536 * hi + lo - 1, by omega⟩
    have e1 : (65536 * hi + lo) % 65536 = lo := by omega
    have e2 : (65536 * hi + lo) / 65536 = hi := by omega
    rw [hf] at e1 e2
    rw [hf, refFoldAux_step f _ (by omega), e1, e2]
    by_cases hc : lo + hi < 65536
    · rw [if_pos hc]
      exact refFoldAux_of_lt _ _ hc
    · rw [if_neg hc]
      obtain ⟨g, hg⟩ : ∃ g, f = g + 1 := ⟨f - 1, by omega⟩
      rw [hg, refFoldAux_step g _ (by omega)]
      have e3 : (lo + hi) % 65536 + (lo + hi) / 65536 = lo + hi - 65535 := by omega
      rw [e3]
      exact refFoldAux_of_lt _ _ (by omega)

theorem cksum_fold_ref (S : Nat) (h : S < 4294967296) : cksum_fold S = 65535 - refFold S := by
  have hS : S = 65536 * (S / 65536) + S % 65536 := by omega
  have hlo : S % 65536 < 65536 := Nat.mod_lt _ (by decide)
  have hhi : S / 65536 < 65536 := by omega
  generalize S / 65536 = hi at hS hhi
  generalize S % 65536 = lo at hS hlo
  subst hS
  rw [cksum_fold_val lo hi hlo hhi, refFold_val lo hi hlo hhi]
  split <;> omega

theorem cksum_words_ref (m : Nat → Nat) :
    ∀ (n w sum : Nat), sum < 4294967296 →
      (if (cksum_words m n w sum).1 = 1 then
          ((cksum_words m n w sum).2.2 + rd8 m (cksum_words m n w sum).2.1) % 4294967296
        else (cksum_words m n w sum).2.2)
        = (sum + refWords (loadBytes m w n)) % 4294967296 := by
  intro n
  induction n using Nat.strong_induction_on with
  | _ n ih =>
    intro w sum h
    match n, ih with
    | 0, _ =>
      simp [cksum_words, loadBytes, refWords, Nat.mod_eq_of_lt h]
    | 1, _ =>
      simp [cksum_words, loadBytes, refWords]
    | k + 2, ih =>
      have h1 := ih k (by omega) (w + 2) ((sum + rd16 m w) % 4294967296)
        (Nat.mod_lt _ (by decide))
      have e : w + 1 + 1 = w + 2 := rfl
      rw [cksum_words, h1]
      simp only [loadBytes, refWords, rd16, e]
      omega

theorem in_cksum_ref_sum (m : Nat → Nat) (addr n : Nat) :
    in_cksum m addr (n : Int) = cksum_fold (refWords (loadBytes m addr n) % 4294967296) := by
  have h := cksum_words_ref m n addr 0 (by decide)
  unfold in_cksum
  rw [Int.toNat_ofNat]
  simp only [h, Nat.zero_add]

theorem loadBytes_length (m : Nat → Nat) : ∀ (n a : Nat), (loadBytes m a n).length = n := by
  intro n
  induction n with
  | zero => intro a; rfl
  | succ n ih => intro a; simp [loadBytes, ih]

theorem loadBytes_succ (m : Nat → Nat) :
    ∀ (n a : Nat), loadBytes m a (n + 1) = loadBytes m a n ++ [rd8 m (a + n)] := by
  intro n
  induction n with
  | zero => intro a; simp [loadBytes]
  | succ n ih =>
    intro a
    rw [loadBytes, ih (a + 1), loadBytes]
    have : a + 1 + n = a + (n + 1) := by omega
    rw [this]
    rfl

theorem refWords_append_zero :
    ∀ (n : Nat) (bs : List Nat), bs.length = n → n % 2 = 1 →
      refWords (bs ++ [0]) = refWords bs := by
  intro n
  induction n using Nat.strong_induction_on with
  | _ n ih =>
    intro bs hl hodd
    match bs, hl with
    | [], hl => simp at hl; omega
    | [b], _ => simp [refWords]
    | b0 :: b1 :: rest, hl =>
      simp only [List.length_cons] at hl
      have h2 := ih (n - 2) (by omega) rest (by omega) (by omega)
      show refWords (b0 :: b1 :: (rest ++ [0])) = refWords (b0 :: b1 :: rest)
      rw [refWords, refWords, h2]

/-- C11: `in_cksum` is the reference Internet checksum.  For the `n` bytes of
memory at `addr`, when the sum of their 16-bit words is below `2^32`:
`in_cksum` returns the one's complement of that sum folded until no carry
remains; the two folding steps of the code give, for every 32-bit sum, the
value of the folding until no carry, which is a 16-bit value; and for an odd
`n` followed by a zero byte the checksum of the `n + 1` bytes is the checksum of
the `n` bytes. -/
theorem in_cksum_refines (m : Nat → Nat) (addr n : Nat)
    (h : refWords (loadBytes m addr n) < 4294967296) :
    in_cksum m addr (n : Int) = ref_cksum (loadBytes m addr n) ∧
    (∀ S, S < 4294967296 → cksum_fold S = 65535 - refFold S ∧ refFold S < 65536) ∧
    (n % 2 = 1 → rd8 m (addr + n) = 0 →
      ref_cksum (loadBytes m addr (n + 1)) = ref_cksum (loadBytes m addr n) ∧
      in_cksum m addr ((n + 1 : Nat) : Int) = in_cksum m addr (n : Int)) := by
  refine ⟨?_, fun S hS => ⟨cksum_fold_ref S hS, refFold_lt S⟩, ?_⟩
  · rw [in_cksum_ref_sum, Nat.mod_eq_of_lt h, cksum_fold_ref _ h]
    rfl
  · intro hodd hz
    have e : refWords (loadBytes m addr (n + 1)) = refWords (loadBytes m addr n) := by
      rw [loadBytes_succ, hz]
      exact refWords_append_zero n _ (loadBytes_length m n addr) hodd
    refine ⟨by unfold ref_cksum; rw [e], ?_⟩
    rw [in_cksum_ref_sum, in_cksum_ref_sum, e]

/-- Witness of C11: five bytes of memory followed by a zero byte. -/
theorem in_cksum_refines_witness :
    in_cksum (wr8 (fun a => 7 * a + 3) 105 0) 100 ((5 : Nat) : Int)
      = ref_cksum (loadBytes (wr8 (fun a => 7 * a + 3) 105 0) 100 5) ∧
    (∀ S, S < 4294967296 → cksum_fold S = 65535 - refFold S ∧ refFold S < 65536) ∧
    ref_cksum (loadBytes (wr8 (fun a => 7 * a + 3) 105 0) 100 (5 + 1))
      = ref_cksum (loadBytes (wr8 (fun a => 7 * a + 3) 105 0) 100 5) ∧
    in_cksum (wr8 (fun a => 7 * a + 3) 105 0) 100 ((5 + 1 : Nat) : Int)
      = in_cksum (wr8 (fun a => 7 * a + 3) 105 0) 100 ((5 : Nat) : Int) :=
  ⟨(in_cksum_refines (wr8 (fun a => 7 * a + 3) 105 0) 100 5 (by decide)).1,
   (in_cksum_refines (wr8 (fun a => 7 * a + 3) 105 0) 100 5 (by decide)).2.1,
   (in_cksum_refines (wr8 (fun a => 7 * a + 3) 105 0) 100 5 (by decide)).2.2
     (by decide) (by decide)⟩

/-! ### `sys_send` -/

theorem sys_send_too_big {c : Consts} {sport dst dport : Int} {bufaddr : Nat} {len : Int}
    {s : Kernel} (h : wrap32 (len + 42) > 4096) :
    sys_send c sport dst dport bufaddr len s = some (-1, s) := by
  have h' : wrap32 (len + 42) > (PGSIZE : Int) := by unfold PGSIZE; push_cast; exact h
  simp [sys_send, h']

theorem sys_send_no_page {c : Consts} {sport dst dport : Int} {bufaddr : Nat} {len : Int}
    {s : Kernel} (h : wrap32 (len + 42) ≤ 4096) (ha : s.alloc_seq s.nalloc = 0) :
    sys_send c sport dst dport bufaddr len s = some (-1, { s with nalloc := s.nalloc + 1 }) := by
  have h' : ¬ wrap32 (len + 42) > (PGSIZE : Int) := by unfold PGSIZE; push_cast; omega
  simp [sys_send, h', kalloc, ha]

theorem sys_send_copy_fails {c : Consts} {sport dst dport : Int} {bufaddr : Nat} {len : Int}
    {s : Kernel} (h : wrap32 (len + 42) ≤ 4096) (ha : s.alloc_seq s.nalloc ≠ 0)
    (hc : s.copy_ok bufaddr (toU64 len) = false) :
    sys_send c sport dst dport bufaddr len s = some (-1, kfree (s.alloc_seq s.nalloc)
      { s with
        nalloc := s.nalloc + 1
        mem := send_headers c s.mem (s.alloc_seq s.nalloc) sport dst dport len }) := by
  have h' : ¬ wrap32 (len + 42) > (PGSIZE : Int) := by unfold PGSIZE; push_cast; omega
  simp [sys_send, h', kalloc, ha, hc]

theorem sys_send_transmits {c : Consts} {sport dst dport : Int} {bufaddr : Nat} {len : Int}
    {s : Kernel} (h : wrap32 (len + 42) ≤ 4096) (ha : s.alloc_seq s.nalloc ≠ 0)
    (hc : s.copy_ok bufaddr (toU64 len) = true) :
    sys_send c sport dst dport bufaddr len s =
      (e1000_transmit c (s.alloc_seq s.nalloc) (wrap32 (len + 42))
        { s with
          nalloc := s.nalloc + 1
          mem := copyBytes (send_headers c s.mem (s.alloc_seq s.nalloc) sport dst dport len)
            (s.alloc_seq s.nalloc + 42) (fun k => s.umem (bufaddr + k)) (toU64 len) }).map
        fun res => (0, res.2) := by
  have h' : ¬ wrap32 (len + 42) > (PGSIZE : Int) := by unfold PGSIZE; push_cast; omega
  simp only [sys_send, h', kalloc, ha, hc, if_false, Bool.true_eq_false]
  cases e1000_transmit c (s.alloc_seq s.nalloc) (wrap32 (len + 42)) _ <;> rfl

/-- C12, the code at the failing input: `send` of `len = 2147483647` bytes
after initialisation.  The total `len + 42` stored in an `int` is negative, so
the test `total > PGSIZE` does not reject the call: a page is allocated, and
the call returns 0 with the frame in the transmit ring when `copyin` accepts
the range (one allocation, tail 1, length field 41, `tx_bufs[0]` the page), and
returns -1 with the page freed when it does not (one allocation, tail 0). -/
theorem sys_send_length_wraps :
    wrap32 (2147483647 + 42) = -2147483607 ∧
    (sys_send xv6Consts 9000 0x0a000202 9000 0 2147483647 txReady).map
        (fun r => (r.1, [r.2.nalloc, r.2.tdt, (r.2.tx_ring 0).length, r.2.tx_bufs 0], r.2.freed))
      = some (0, [1, 1, 41, 0x87000000], []) ∧
    (sys_send xv6Consts 9000 0x0a000202 9000 0 2147483647 txNoCopy).map
        (fun r => (r.1, [r.2.nalloc, r.2.tdt], r.2.freed))
      = some (-1, [1, 0], [0x87000000]) := by
  refine ⟨by decide, by decide, by decide⟩

/-! ### The round trip -/

theorem toU64_nonneg {x : Int} (h0 : 0 ≤ x) (h1 : x < 18446744073709551616) :
    toU64 x = x.toNat := by
  unfold toU64
  omega

theorem send_frame_fields (c : Consts) (m0 : Nat → Nat) (buf : Nat) (sport dst dport len : Int)
    (src : Nat → Nat)
    (hs0 : 0 ≤ sport) (hs1 : sport ≤ 65535) (hd0 : 0 ≤ dport) (hd1 : dport ≤ 65535)
    (hl0 : 0 ≤ len) (hl1 : len + 42 ≤ 4096) :
    rd16be (copyBytes (send_headers c m0 buf sport dst dport len) (buf + 42) src (toU64 len))
        (buf + 12) = 2048 ∧
    rd8 (copyBytes (send_headers c m0 buf sport dst dport len) (buf + 42) src (toU64 len))
        (buf + 23) = 17 ∧
    rd16be (copyBytes (send_headers c m0 buf sport dst dport len) (buf + 42) src (toU64 len))
        (buf + 34) = sport.toNat ∧
    rd16be (copyBytes (send_headers c m0 buf sport dst dport len) (buf + 42) src (toU64 len))
        (buf + 36) = dport.toNat ∧
    rd16be (copyBytes (send_headers c m0 buf sport dst dport len) (buf + 42) src (toU64 len))
        (buf + 38) = len.toNat + 8 ∧
    rd32be (copyBytes (send_headers c m0 buf sport dst dport len) (buf + 42) src (toU64 len))
        (buf + 26) = c.local_ip % 4294967296 ∧
    ∀ k, k < len.toNat →
      rd8 (copyBytes (send_headers c m0 buf sport dst dport len) (buf + 42) src (toU64 len))
        (buf + 42 + k) = src k % 256 := by
  have e1 := toU64_nonneg hs0 (by omega)
  have e2 := toU64_nonneg hd0 (by omega)
  have e3 := toU64_nonneg hl0 (by omega)
  have e4 : toU64 (len + 8) = len.toNat + 8 := by unfold toU64; omega
  refine ⟨?_, ?_, ?_, ?_, ?_, ?_, ?_⟩
  · simp [rd16be, rd8, copyBytes, send_headers, wr16be, wr16, wr32be, wr8, Function.update]
  · simp [rd16be, rd8, copyBytes, send_headers, wr16be, wr16, wr32be, wr8, Function.update]
  · simp [rd16be, rd8, copyBytes, send_headers, wr16be, wr16, wr32be, wr8, Function.update, e1]
    omega
  · simp [rd16be, rd8, copyBytes, send_headers, wr16be, wr16, wr32be, wr8, Function.update, e2]
    omega
  · simp [rd16be, rd8, copyBytes, send_headers, wr16be, wr16, wr32be, wr8, Function.update, e4]
    omega
  · simp [rd32be, rd8, copyBytes, send_headers, wr16be, wr16, wr32be, wr8, Function.update]
    omega
  · intro k hk
    simp [rd8, copyBytes, e3, hk]

/-! ### `sys_recv` -/

theorem wrap32_small {x : Int} (h0 : -2147483648 ≤ x) (h1 : x < 2147483648) : wrap32 x = x := by
  unfold wrap32
  omega

theorem rd16be_lt (m : Nat → Nat) (a : Nat) : rd16be m a < 65536 := by
  have h1 := rd8_lt m a
  have h2 := rd8_lt m (a + 1)
  unfold rd16be; omega

theorem rd32be_lt (m : Nat → Nat) (a : Nat) : rd32be m a < 4294967296 := by
  have h1 := rd8_lt m a
  have h2 := rd8_lt m (a + 1)
  have h3 := rd8_lt m (a + 2)
  have h4 := rd8_lt m (a + 3)
  unfold rd32be; omega

theorem recv_copy_len (m : Nat → Nat) (buf : Nat) (maxlen : Int) :
    (if wrap32 ((rd16be m (buf + 38) : Int) - 8) < maxlen
      then wrap32 ((rd16be m (buf + 38) : Int) - 8) else maxlen)
      = min ((rd16be m (buf + 38) : Int) - 8) maxlen := by
  have h := rd16be_lt m (buf + 38)
  rw [wrap32_small (by omega) (by omega)]
  rw [min_def]
  split_ifs <;> omega

theorem recv_deliver_ok (buf a1 a2 a3 : Nat) (maxlen : Int) (s1 : Kernel)
    (h1 : s1.copy_ok a1 4 = true) (h2 : s1.copy_ok a2 2 = true)
    (h3 : s1.copy_ok a3 (toU64 (min ((rd16be s1.mem (buf + 38) : Int) - 8) maxlen)) = true) :
    recv_deliver buf a1 a2 a3 maxlen s1 =
      (min ((rd16be s1.mem (buf + 38) : Int) - 8) maxlen,
        kfree buf { s1 with
          umem := copyBytes (copyBytes (copyBytes s1.umem a1
              (bytes32 (rd32be s1.mem (buf + 26))) 4) a2
              (bytes32 (rd16be s1.mem (buf + 34))) 2) a3
            (fun k => s1.mem (buf + 42 + k))
            (toU64 (min ((rd16be s1.mem (buf + 38) : Int) - 8) maxlen)) }) := by
  unfold recv_deliver
  simp only [recv_copy_len, h1, h2, h3, Bool.true_eq_false, if_false]

theorem recv_deliver_fail (buf a1 a2 a3 : Nat) (maxlen : Int) (s1 : Kernel)
    (h : s1.copy_ok a1 4 = false ∨ s1.copy_ok a2 2 = false ∨
      s1.copy_ok a3 (toU64 (min ((rd16be s1.mem (buf + 38) : Int) - 8) maxlen)) = false) :
    ∃ um, recv_deliver buf a1 a2 a3 maxlen s1 = (-1, kfree buf { s1 with umem := um }) := by
  unfold recv_deliver
  simp only [recv_copy_len]
  cases h1 : s1.copy_ok a1 4 with
  | false => exact ⟨s1.umem, by simp⟩
  | true =>
    cases h2 : s1.copy_ok a2 2 with
    | false => exact ⟨copyBytes s1.umem a1 (bytes32 (rd32be s1.mem (buf + 26))) 4, by simp⟩
    | true =>
      cases h3 : s1.copy_ok a3 (toU64 (min ((rd16be s1.mem (buf + 38) : Int) - 8) maxlen)) with
      | false =>
        exact ⟨copyBytes (copyBytes s1.umem a1 (bytes32 (rd32be s1.mem (buf + 26))) 4) a2
          (bytes32 (rd16be s1.mem (buf + 34))) 2, by simp⟩
      | true => simp [h1, h2, h3] at h

theorem sys_recv_unfold {s : Kernel} {p : Int} {i ri : Fin RING} (a1 a2 a3 : Nat)
    (maxlen : Int) (hfind : find_sock s.sockets p = some i)
    (hri : (ri.val : Int) = (s.sockets i).r) (hne : (s.sockets i).r ≠ (s.sockets i).w) :
    sys_recv p a1 a2 a3 maxlen s = some
      (RecvResult.ret (recv_deliver ((s.sockets i).rxq ri) a1 a2 a3 maxlen
          { s with
            sockets := Function.update s.sockets i
              { s.sockets i with r := ((s.sockets i).r + 1) % 16 } }).1,
        (recv_deliver ((s.sockets i).rxq ri) a1 a2 a3 maxlen
          { s with
            sockets := Function.update s.sockets i
              { s.sockets i with r := ((s.sockets i).r + 1) % 16 } }).2) := by
  have hr0 : 0 ≤ (s.sockets i).r := by rw [← hri]; omega
  have hr1 : (s.sockets i).r < 16 := by
    have := ri.isLt
    rw [← hri]; simp only [RING] at this; omega
  have hi := toIdx_eq hr0 hr1
  have hri2 : (⟨(s.sockets i).r.toNat, by unfold RING; omega⟩ : Fin RING) = ri := by
    apply Fin.ext
    simp only
    omega
  rw [hri2] at hi
  simp only [sys_recv, hfind, hne, if_false, hi, next16_eq hr0]

theorem sys_recv_copies_ok {s : Kernel} {p : Int} {i ri : Fin RING} (a1 a2 a3 : Nat)
    (maxlen : Int) (hfind : find_sock s.sockets p = some i)
    (hri : (ri.val : Int) = (s.sockets i).r) (hne : (s.sockets i).r ≠ (s.sockets i).w)
    (h1 : s.copy_ok a1 4 = true) (h2 : s.copy_ok a2 2 = true)
    (h3 : s.copy_ok a3 (toU64 (min ((rd16be s.mem ((s.sockets i).rxq ri + 38) : Int) - 8)
      maxlen)) = true) :
    sys_recv p a1 a2 a3 maxlen s = some
      (RecvResult.ret (min ((rd16be s.mem ((s.sockets i).rxq ri + 38) : Int) - 8) maxlen),
        { s with
          sockets := Function.update s.sockets i
            { s.sockets i with r := ((s.sockets i).r + 1) % 16 }
          umem := copyBytes (copyBytes (copyBytes s.umem a1
              (bytes32 (rd32be s.mem ((s.sockets i).rxq ri + 26))) 4) a2
              (bytes32 (rd16be s.mem ((s.sockets i).rxq ri + 34))) 2) a3
            (fun k => s.mem ((s.sockets i).rxq ri + 42 + k))
            (toU64 (min ((rd16be s.mem ((s.sockets i).rxq ri + 38) : Int) - 8) maxlen))
          freed := s.freed ++ [(s.sockets i).rxq ri] }) := by
  have h := recv_deliver_ok ((s.sockets i).rxq ri) a1 a2 a3 maxlen
    { s with
      sockets := Function.update s.sockets i
        { s.sockets i with r := ((s.sockets i).r + 1) % 16 } } h1 h2 h3
  rw [sys_recv_unfold a1 a2 a3 maxlen hfind hri hne, h]
  rfl

/-- C14: `sys_recv` on a port bound to the socket in slot `i` with a buffer
`buf` at the read index `ri` of its queue; `payload_len` is the UDP length
field in host order minus 8.  When the three copies succeed it returns
`min payload_len maxlen`, the caller's memory gets the source address (four
bytes, host order) at `a1`, the source port (two bytes, host order) at `a2`
and that many bytes from offset 42 of the buffer at `a3`; when a copy fails it
returns -1; in both cases the read index advances and `buf` is freed once.  On
a port that is not bound it returns -1 and the state is unchanged. -/
theorem sys_recv_result (s : Kernel) (p : Int) (i ri : Fin RING) (a1 a2 a3 : Nat)
    (maxlen : Int)
    (hb : (s.sockets i).bound p = true)
    (hfirst : ∀ j : Fin RING, j < i → (s.sockets j).bound p = false)
    (hri : (ri.val : Int) = (s.sockets i).r)
    (hne : (s.sockets i).r ≠ (s.sockets i).w) :
    ((s.copy_ok a1 4 = true ∧ s.copy_ok a2 2 = true ∧
        s.copy_ok a3 (toU64 (min ((rd16be s.mem ((s.sockets i).rxq ri + 38) : Int) - 8)
          maxlen)) = true) →
      sys_recv p a1 a2 a3 maxlen s = some
        (RecvResult.ret (min ((rd16be s.mem ((s.sockets i).rxq ri + 38) : Int) - 8) maxlen),
          { s with
            sockets := Function.update s.sockets i
              { s.sockets i with r := ((s.sockets i).r + 1) % 16 }
            umem := copyBytes (copyBytes (copyBytes s.umem a1
                (bytes32 (rd32be s.mem ((s.sockets i).rxq ri + 26))) 4) a2
                (bytes32 (rd16be s.mem ((s.sockets i).rxq ri + 34))) 2) a3
              (fun k => s.mem ((s.sockets i).rxq ri + 42 + k))
              (toU64 (min ((rd16be s.mem ((s.sockets i).rxq ri + 38) : Int) - 8) maxlen))
            freed := s.freed ++ [(s.sockets i).rxq ri] })) ∧
    ((s.copy_ok a1 4 = false ∨ s.copy_ok a2 2 = false ∨
        s.copy_ok a3 (toU64 (min ((rd16be s.mem ((s.sockets i).rxq ri + 38) : Int) - 8)
          maxlen)) = false) →
      ∃ um, sys_recv p a1 a2 a3 maxlen s = some (RecvResult.ret (-1),
          { s with
            sockets := Function.update s.sockets i
              { s.sockets i with r := ((s.sockets i).r + 1) % 16 }
            umem := um
            freed := s.freed ++ [(s.sockets i).rxq ri] })) ∧
    (0 ≤ min ((rd16be s.mem ((s.sockets i).rxq ri + 38) : Int) - 8) maxlen →
      toU64 (min ((rd16be s.mem ((s.sockets i).rxq ri + 38) : Int) - 8) maxlen)
        = (min ((rd16be s.mem ((s.sockets i).rxq ri + 38) : Int) - 8) maxlen).toNat) ∧
    (∀ q : Int, (∀ j : Fin RING, (s.sockets j).bound q = false) →
      sys_recv q a1 a2 a3 maxlen s = some (RecvResult.ret (-1), s)) := by
  have hfind := find_sock_eq hb hfirst
  refine ⟨?_, ?_, ?_, ?_⟩
  · rintro ⟨h1, h2, h3⟩
    exact sys_recv_copies_ok a1 a2 a3 maxlen hfind hri hne h1 h2 h3
  · intro h
    obtain ⟨um, hum⟩ := recv_deliver_fail ((s.sockets i).rxq ri) a1 a2 a3 maxlen
      { s with
        sockets := Function.update s.sockets i
          { s.sockets i with r := ((s.sockets i).r + 1) % 16 } } h
    exact ⟨um, by rw [sys_recv_unfold a1 a2 a3 maxlen hfind hri hne, hum]; rfl⟩
  · intro h
    have h2 := rd16be_lt s.mem ((s.sockets i).rxq ri + 38)
    exact toU64_nonneg h (by omega)
  · intro q hq
    have hnone : find_sock s.sockets q = none := find_none_iff.2 hq
    simp only [sys_recv, hnone]

theorem rd8_copyBytes_in (m : Nat → Nat) (dst : Nat) (src : Nat → Nat) (n a : Nat)
    (h : dst ≤ a ∧ a < dst + n) : rd8 (copyBytes m dst src n) a = src (a - dst) % 256 := by
  simp [rd8, copyBytes, h]

theorem rd8_copyBytes_out (m : Nat → Nat) (dst : Nat) (src : Nat → Nat) (n a : Nat)
    (h : a < dst ∨ dst + n ≤ a) : rd8 (copyBytes m dst src n) a = rd8 m a := by
  have h' : ¬ (dst ≤ a ∧ a < dst + n) := by omega
  simp [rd8, copyBytes, h']

theorem bytes32_rd16 (v : Nat) (h : v < 65536) :
    bytes32 v 0 % 256 + 256 * (bytes32 v 1 % 256) = v := by
  simp only [bytes32, pow_zero, pow_one, Nat.div_one]
  omega

theorem bytes32_rd32 (v : Nat) (h : v < 4294967296) :
    bytes32 v 0 % 256 + 256 * (bytes32 v 1 % 256) + 65536 * (bytes32 v 2 % 256)
      + 16777216 * (bytes32 v 3 % 256) = v := by
  have e2 : (256 : Nat) ^ 2 = 65536 := by norm_num
  have e3 : (256 : Nat) ^ 3 = 16777216 := by norm_num
  simp only [bytes32, pow_zero, pow_one, Nat.div_one, e2, e3]
  omega

theorem sameBytes_rd8 {m m' : Nat → Nat} {a a' n : Nat} (h : sameBytes m a m' a' n)
    (k : Nat) (hk : k < n) : rd8 m (a + k) = rd8 m' (a' + k) := h k hk

theorem sameBytes_rd16be {m m' : Nat → Nat} {a a' n : Nat} (h : sameBytes m a m' a' n)
    (k : Nat) (hk : k + 1 < n) : rd16be m (a + k) = rd16be m' (a' + k) := by
  have h0 := h k (by omega)
  have h1 := h (k + 1) hk
  simp only [← Nat.add_assoc] at h1
  simp only [rd16be, h0, h1]

theorem sameBytes_rd32be {m m' : Nat → Nat} {a a' n : Nat} (h : sameBytes m a m' a' n)
    (k : Nat) (hk : k + 3 < n) : rd32be m (a + k) = rd32be m' (a' + k) := by
  have h0 := h k (by omega)
  have h1 := h (k + 1) (by omega)
  have h2 := h (k + 2) (by omega)
  have h3 := h (k + 3) hk
  simp only [← Nat.add_assoc] at h1 h2 h3
  simp only [rd32be, h0, h1, h2, h3]

/-- C13: the round trip.  `sys_send` of `len` bytes (`42 + len <= 4096`, ports
in `0..65535`) from a state in which it can go through returns 0 and leaves a
frame in memory at the page it allocated.  When that frame (at any address `fb`
holding its bytes) is handed to `net_rx` with the length `42 + len` while the
first socket bound to `dport` is not full, it is put at the end of the queue of
that socket and nothing is freed.  And when the frame is the next of the queue,
`sys_recv` on `dport` with `maxlen >= len` and three ranges the copies accept
(none overlapping another) returns `len`, the caller has the payload sent, the
source port `sport` and, as source address, the IP source field of the frame in
host order, which is the local address; the buffer is freed once. -/
theorem send_recv_round_trip (c : Consts) (s0 : Kernel) (sport dst dport : Int)
    (bufaddr : Nat) (len : Int)
    (hs0 : 0 ≤ sport) (hs1 : sport ≤ 65535) (hd0 : 0 ≤ dport) (hd1 : dport ≤ 65535)
    (hl0 : 0 ≤ len) (hl1 : 42 + len ≤ 4096)
    (halloc : s0.alloc_seq s0.nalloc ≠ 0)
    (hcopy : s0.copy_ok bufaddr (toU64 len) = true) (htdt : s0.tdt < 16) :
    ∃ s1, sys_send c sport dst dport bufaddr len s0 = some (0, s1) ∧
      (∀ (s2 : Kernel) (fb : Nat) (i : Fin RING),
        sameBytes s2.mem fb s1.mem (s0.alloc_seq s0.nalloc) (42 + len.toNat) →
        (s2.sockets i).bound dport = true →
        (∀ j : Fin RING, j < i → (s2.sockets j).bound dport = false) →
        (s2.sockets i).inRange →
        ((s2.sockets i).w + 1) % 16 ≠ (s2.sockets i).r →
        ∃ s3, net_rx c fb (42 + len) s2 = some s3 ∧
          (s3.sockets i).queued = (s2.sockets i).queued ++ [fb] ∧
          (∀ j : Fin RING, j ≠ i → s3.sockets j = s2.sockets j) ∧
          s3.freed = s2.freed ∧ s3.mem = s2.mem) ∧
      (∀ (s4 : Kernel) (fb : Nat) (i ri : Fin RING) (a1 a2 a3 : Nat) (maxlen : Int),
        sameBytes s4.mem fb s1.mem (s0.alloc_seq s0.nalloc) (42 + len.toNat) →
        (s4.sockets i).bound dport = true →
        (∀ j : Fin RING, j < i → (s4.sockets j).bound dport = false) →
        (ri.val : Int) = (s4.sockets i).r → (s4.sockets i).r ≠ (s4.sockets i).w →
        (s4.sockets i).rxq ri = fb →
        len ≤ maxlen →
        s4.copy_ok a1 4 = true → s4.copy_ok a2 2 = true → s4.copy_ok a3 (toU64 len) = true →
        (a1 + 4 ≤ a2 ∨ a2 + 2 ≤ a1) → (a1 + 4 ≤ a3 ∨ a3 + len.toNat ≤ a1) →
        (a2 + 2 ≤ a3 ∨ a3 + len.toNat ≤ a2) →
        ∃ s5, sys_recv dport a1 a2 a3 maxlen s4 = some (RecvResult.ret len, s5) ∧
          (∀ k, k < len.toNat → rd8 s5.umem (a3 + k) = rd8 s0.umem (bufaddr + k)) ∧
          (rd16 s5.umem a2 : Int) = sport ∧
          rd32 s5.umem a1 = rd32be s4.mem (fb + 26) ∧
          rd32be s4.mem (fb + 26) = c.local_ip % 4294967296 ∧
          s5.freed = s4.freed ++ [fb]) := by
  have hw : wrap32 (len + 42) = len + 42 := wrap32_small (by omega) (by omega)
  obtain ⟨res, hres, hmem⟩ := e1000_transmit_some c (s0.alloc_seq s0.nalloc) (wrap32 (len + 42))
    { s0 with
      nalloc := s0.nalloc + 1
      mem := copyBytes (send_headers c s0.mem (s0.alloc_seq s0.nalloc) sport dst dport len)
        (s0.alloc_seq s0.nalloc + 42) (fun k => s0.umem (bufaddr + k)) (toU64 len) } htdt
  obtain ⟨f12, f23, f34, f36, f38, f26, fpay⟩ := send_frame_fields c s0.mem
    (s0.alloc_seq s0.nalloc) sport dst dport len (fun k => s0.umem (bufaddr + k))
    hs0 hs1 hd0 hd1 hl0 (by omega)
  simp only at hmem
  rw [← hmem] at f12 f23 f34 f36 f38 f26 fpay
  refine ⟨res.2, ?_, ?_, ?_⟩
  · rw [sys_send_transmits (by omega) halloc hcopy, hres]
    rfl
  · intro s2 fb i hsame hb hfirst hr hnf
    have t12 : rd16be s2.mem (fb + 12) = 2048 := by
      rw [sameBytes_rd16be hsame 12 (by omega), f12]
    have t23 : rd8 s2.mem (fb + 23) = 17 := by
      rw [sameBytes_rd8 hsame 23 (by omega), f23]
    have t36 : (rd16be s2.mem (fb + 36) : Int) = dport := by
      rw [sameBytes_rd16be hsame 36 (by omega), f36]
      omega
    have hlen : 34 ≤ toU64 (42 + len) := by unfold toU64; omega
    have hnf' : next16 (s2.sockets i).w ≠ (s2.sockets i).r := by
      rw [next16_eq hr.2.2.1]; exact hnf
    have hnet : net_rx c fb (42 + len) s2
        = ip_rx fb (42 + len) { s2 with rx_log := s2.rx_log ++ [(fb, 42 + len)] } := by
      simp [net_rx, t12, hlen]
    have henq := ip_rx_enqueue_eq (s := { s2 with rx_log := s2.rx_log ++ [(fb, 42 + len)] })
      (42 + len) ⟨t23, t36⟩ (find_sock_eq hb hfirst) hr hnf'
    rw [hnet, henq]
    refine ⟨_, rfl, ?_, ?_, rfl, rfl⟩
    · simp only [Function.update_same]
      exact Sock.queued_enqueue _ hr hnf' fb
    · intro j hj
      simp only [Function.update_noteq hj]
  · intro s4 fb i ri a1 a2 a3 maxlen hsame hb hfirst hri hne hfb hmax h1 h2 h3 d12 d13 d23
    have t38 : (rd16be s4.mem (fb + 38) : Int) - 8 = len := by
      rw [sameBytes_rd16be hsame 38 (by omega), f38]
      omega
    have t34 : rd16be s4.mem (fb + 34) = sport.toNat := by
      rw [sameBytes_rd16be hsame 34 (by omega), f34]
    have t26 : rd32be s4.mem (fb + 26) = c.local_ip % 4294967296 := by
      rw [sameBytes_rd32be hsame 26 (by omega), f26]
    have hmin : min ((rd16be s4.mem ((s4.sockets i).rxq ri + 38) : Int) - 8) maxlen = len := by
      rw [hfb, t38]; exact min_eq_left hmax
    have hn : toU64 len = len.toNat := toU64_nonneg hl0 (by omega)
    have hsys := sys_recv_copies_ok a1 a2 a3 maxlen (find_sock_eq hb hfirst) hri hne h1 h2
      (by rw [hmin]; exact h3)
    rw [hmin, hfb, hn] at hsys
    refine ⟨_, hsys, ?_, ?_, ?_, t26, rfl⟩
    · intro k hk
      simp only
      rw [rd8_copyBytes_in _ _ _ _ _ (by omega), Nat.add_sub_cancel_left]
      have e := sameBytes_rd8 hsame (42 + k) (by omega)
      have e2 := fpay k hk
      simp only [rd8, ← Nat.add_assoc] at e e2 ⊢
      rw [e, e2]
    · have r2 : ∀ j, j < 2 → rd8 (copyBytes (copyBytes (copyBytes s4.umem a1
          (bytes32 (rd32be s4.mem (fb + 26))) 4) a2 (bytes32 (rd16be s4.mem (fb + 34))) 2) a3
          (fun k => s4.mem (fb + 42 + k)) len.toNat) (a2 + j)
            = bytes32 (rd16be s4.mem (fb + 34)) j % 256 := by
        intro j hj
        rw [rd8_copyBytes_out _ _ _ _ _ (by omega), rd8_copyBytes_in _ _ _ _ _ (by omega),
          Nat.add_sub_cancel_left]
      have r20 := r2 0 (by omega)
      have r21 := r2 1 (by omega)
      simp only [Nat.add_zero] at r20
      simp only [rd16]
      rw [r20, r21, bytes32_rd16 _ (rd16be_lt _ _), t34]
      omega
    · have r4 : ∀ j, j < 4 → rd8 (copyBytes (copyBytes (copyBytes s4.umem a1
          (bytes32 (rd32be s4.mem (fb + 26))) 4) a2 (bytes32 (rd16be s4.mem (fb + 34))) 2) a3
          (fun k => s4.mem (fb + 42 + k)) len.toNat) (a1 + j)
            = bytes32 (rd32be s4.mem (fb + 26)) j % 256 := by
        intro j hj
        rw [rd8_copyBytes_out _ _ _ _ _ (by omega), rd8_copyBytes_out _ _ _ _ _ (by omega),
          rd8_copyBytes_in _ _ _ _ _ (by omega), Nat.add_sub_cancel_left]
      have r40 := r4 0 (by omega)
      have r41 := r4 1 (by omega)
      have r42 := r4 2 (by omega)
      have r43 := r4 3 (by omega)
      simp only [Nat.add_zero] at r40
      simp only [rd32]
      rw [r40, r41, r42, r43]
      exact bytes32_rd32 _ (rd32be_lt _ _)

/-- Witness of C13: `send(9000, 10.0.2.2, 9000, "hello", 5)` with port 9000
bound; the statement for this call, and the run of the call, of `net_rx` on
the frame come back in `page 0` and of `recv(9000, ..., 100)`: it returns 5,
the caller has the bytes of "hello", the port 9000 and the address
10.0.2.15, and the receive buffer is freed. -/
theorem send_recv_round_trip_witness :
    (∃ s1, sys_send xv6Consts 9000 0x0a000202 9000 4096 5 helloKernel = some (0, s1) ∧
      (∀ (s2 : Kernel) (fb : Nat) (i : Fin RING),
        sameBytes s2.mem fb s1.mem (helloKernel.alloc_seq helloKernel.nalloc)
          (42 + (5 : Int).toNat) →
        (s2.sockets i).bound 9000 = true →
        (∀ j : Fin RING, j < i → (s2.sockets j).bound 9000 = false) →
        (s2.sockets i).inRange →
        ((s2.sockets i).w + 1) % 16 ≠ (s2.sockets i).r →
        ∃ s3, net_rx xv6Consts fb (42 + 5) s2 = some s3 ∧
          (s3.sockets i).queued = (s2.sockets i).queued ++ [fb] ∧
          (∀ j : Fin RING, j ≠ i → s3.sockets j = s2.sockets j) ∧
          s3.freed = s2.freed ∧ s3.mem = s2.mem) ∧
      (∀ (s4 : Kernel) (fb : Nat) (i ri : Fin RING) (a1 a2 a3 : Nat) (maxlen : Int),
        sameBytes s4.mem fb s1.mem (helloKernel.alloc_seq helloKernel.nalloc)
          (42 + (5 : Int).toNat) →
        (s4.sockets i).bound 9000 = true →
        (∀ j : Fin RING, j < i → (s4.sockets j).bound 9000 = false) →
        (ri.val : Int) = (s4.sockets i).r → (s4.sockets i).r ≠ (s4.sockets i).w →
        (s4.sockets i).rxq ri = fb →
        5 ≤ maxlen →
        s4.copy_ok a1 4 = true → s4.copy_ok a2 2 = true → s4.copy_ok a3 (toU64 5) = true →
        (a1 + 4 ≤ a2 ∨ a2 + 2 ≤ a1) → (a1 + 4 ≤ a3 ∨ a3 + (5 : Int).toNat ≤ a1) →
        (a2 + 2 ≤ a3 ∨ a3 + (5 : Int).toNat ≤ a2) →
        ∃ s5, sys_recv 9000 a1 a2 a3 maxlen s4 = some (RecvResult.ret 5, s5) ∧
          (∀ k, k < (5 : Int).toNat → rd8 s5.umem (a3 + k) = rd8 helloKernel.umem (4096 + k)) ∧
          (rd16 s5.umem a2 : Int) = 9000 ∧
          rd32 s5.umem a1 = rd32be s4.mem (fb + 26) ∧
          rd32be s4.mem (fb + 26) = xv6Consts.local_ip % 4294967296 ∧
          s5.freed = s4.freed ++ [fb])) ∧
    (sys_recv 9000 8192 8200 8208 100 helloQueued).map
        (fun r => (r.1, (List.range 5).map (fun k => r.2.umem (8208 + k)), rd16 r.2.umem 8200,
          rd32 r.2.umem 8192, r.2.freed))
      = some (RecvResult.ret 5, [104, 101, 108, 108, 111], 9000, 0x0a00020f, [page 0]) :=
  ⟨send_recv_round_trip xv6Consts helloKernel 9000 0x0a000202 9000 4096 5 (by decide)
      (by decide) (by decide) (by decide) (by decide) (by decide) (by decide) (by decide)
      (by decide),
   by decide⟩

/-- Witness of C14: `recv(9000, ..., 100)` on the queue that holds the frame
of "hello", with copies that succeed and with copies that fail, and `recv` on
the port 3000 that is not bound. -/
theorem sys_recv_result_witness :
    sys_recv 9000 8192 8200 8208 100 helloQueued = some
      (RecvResult.ret (min ((rd16be helloQueued.mem
          ((helloQueued.sockets 0).rxq 0 + 38) : Int) - 8) 100),
        { helloQueued with
          sockets := Function.update helloQueued.sockets 0
            { helloQueued.sockets 0 with r := ((helloQueued.sockets 0).r + 1) % 16 }
          umem := copyBytes (copyBytes (copyBytes helloQueued.umem 8192
              (bytes32 (rd32be helloQueued.mem ((helloQueued.sockets 0).rxq 0 + 26))) 4) 8200
              (bytes32 (rd16be helloQueued.mem ((helloQueued.sockets 0).rxq 0 + 34))) 2) 8208
            (fun k => helloQueued.mem ((helloQueued.sockets 0).rxq 0 + 42 + k))
            (toU64 (min ((rd16be helloQueued.mem
              ((helloQueued.sockets 0).rxq 0 + 38) : Int) - 8) 100))
          freed := helloQueued.freed ++ [(helloQueued.sockets 0).rxq 0] }) ∧
    min ((rd16be helloQueued.mem ((helloQueued.sockets 0).rxq 0 + 38) : Int) - 8) 100 = 5 ∧
    (∃ um, sys_recv 9000 8192 8200 8208 100 helloNoCopy = some (RecvResult.ret (-1),
        { helloNoCopy with
          sockets := Function.update helloNoCopy.sockets 0
            { helloNoCopy.sockets 0 with r := ((helloNoCopy.sockets 0).r + 1) % 16 }
          umem := um
          freed := helloNoCopy.freed ++ [(helloNoCopy.sockets 0).rxq 0] })) ∧
    sys_recv 3000 8192 8200 8208 100 helloQueued = some (RecvResult.ret (-1), helloQueued) :=
  ⟨(sys_recv_result helloQueued 9000 0 0 8192 8200 8208 100 (by decide) (by decide)
      (by decide) (by decide)).1 ⟨by decide, by decide, by decide⟩,
   by decide,
   (sys_recv_result helloNoCopy 9000 0 0 8192 8200 8208 100 (by decide) (by decide)
      (by decide) (by decide)).2.1 (Or.inl (by decide)),
   (sys_recv_result helloQueued 9000 0 0 8192 8200 8208 100 (by decide) (by decide)
      (by decide) (by decide)).2.2.2 3000 (by decide)⟩

/-! ### `net_rx` -/

theorem net_rx_by_class (c : Consts) (s : Kernel) (buf : Nat) (len : Int) :
    net_rx c buf len s =
      match classify s.mem buf len with
      | FrameClass.arp => arp_rx c buf { s with rx_log := s.rx_log ++ [(buf, len)] }
      | FrameClass.ip => ip_rx buf len { s with rx_log := s.rx_log ++ [(buf, len)] }
      | FrameClass.drop => some (kfree buf { s with rx_log := s.rx_log ++ [(buf, len)] }) := by
  unfold net_rx classify
  simp only
  split
  · rfl
  · split
    · rfl
    · rfl

/-- C16: frame classification by `net_rx(buf, len)`, for the lengths it can
receive (its caller `e1000_recv` passes the 16-bit length field of a
descriptor, so `0 ≤ len`): the frame goes to `arp_rx` iff its type is 0x0806
and `len >= 14 + 28`, to `ip_rx` iff it did not go to `arp_rx`, its type is
0x0800 and `len >= 14 + 20`, and in every other case the buffer is freed once
and nothing else than the two logs changes: no socket, not the ARP latch, not
the transmit ring. -/
theorem net_rx_classifies (c : Consts) (s : Kernel) (buf : Nat) (len : Int)
    (hl0 : 0 ≤ len) (hl1 : len < 2147483648) :
    (classify s.mem buf len = FrameClass.arp ↔
      rd16be s.mem (buf + 12) = 0x0806 ∧ 14 + 28 ≤ len) ∧
    (classify s.mem buf len = FrameClass.ip ↔
      classify s.mem buf len ≠ FrameClass.arp ∧
        rd16be s.mem (buf + 12) = 0x0800 ∧ 14 + 20 ≤ len) ∧
    (classify s.mem buf len = FrameClass.arp →
      net_rx c buf len s = arp_rx c buf { s with rx_log := s.rx_log ++ [(buf, len)] }) ∧
    (classify s.mem buf len = FrameClass.ip →
      net_rx c buf len s = ip_rx buf len { s with rx_log := s.rx_log ++ [(buf, len)] }) ∧
    (classify s.mem buf len ≠ FrameClass.arp → classify s.mem buf len ≠ FrameClass.ip →
      net_rx c buf len s =
        some { s with freed := s.freed ++ [buf], rx_log := s.rx_log ++ [(buf, len)] }) := by
  have e : toU64 len = len.toNat := toU64_nonneg hl0 (by omega)
  have hby := net_rx_by_class c s buf len
  refine ⟨?_, ?_, ?_, ?_, ?_⟩
  · by_cases h1 : 42 ≤ len.toNat ∧ rd16be s.mem (buf + 12) = 0x0806
    · have hv : classify s.mem buf len = FrameClass.arp := by
        unfold classify; rw [e, if_pos h1]
      rw [hv]
      exact ⟨fun _ => ⟨h1.2, by omega⟩, fun _ => rfl⟩
    · have hv : classify s.mem buf len ≠ FrameClass.arp := by
        unfold classify; rw [e, if_neg h1]
        split <;> decide
      exact ⟨fun h => absurd h hv, fun h => absurd ⟨by omega, h.1⟩ h1⟩
  · by_cases h1 : 42 ≤ len.toNat ∧ rd16be s.mem (buf + 12) = 0x0806
    · have hv : classify s.mem buf len = FrameClass.arp := by
        unfold classify; rw [e, if_pos h1]
      rw [hv]
      exact ⟨fun h => absurd h (by decide), fun h => absurd rfl h.1⟩
    · by_cases h2 : 34 ≤ len.toNat ∧ rd16be s.mem (buf + 12) = 0x0800
      · have hv : classify s.mem buf len = FrameClass.ip := by
          unfold classify; rw [e, if_neg h1, if_pos h2]
        rw [hv]
        exact ⟨fun _ => ⟨by decide, h2.2, by omega⟩, fun _ => rfl⟩
      · have hv : classify s.mem buf len = FrameClass.drop := by
          unfold classify; rw [e, if_neg h1, if_neg h2]
        rw [hv]
        exact ⟨fun h => absurd h (by decide), fun h => absurd ⟨by omega, h.2.1⟩ h2⟩
  · intro h
    rw [hby, h]
  · intro h
    rw [hby, h]
  · intro h1 h2
    rw [hby]
    cases h : classify s.mem buf len
    · exact absurd h h1
    · exact absurd h h2
    · rfl

/-- Witness of C16: frames in `page 0` of `arpKernel`, typed ARP, with the
lengths 42 and 41: the first goes to `arp_rx`, the second is freed. -/
theorem net_rx_classifies_witness :
    classify arpKernel.mem (page 0) 42 = FrameClass.arp ∧
    net_rx xv6Consts (page 0) 42 arpKernel =
      arp_rx xv6Consts (page 0) { arpKernel with rx_log := arpKernel.rx_log ++ [(page 0, 42)] } ∧
    net_rx xv6Consts (page 0) 41 arpKernel =
      some { arpKernel with
        freed := arpKernel.freed ++ [page 0]
        rx_log := arpKernel.rx_log ++ [(page 0, 41)] } :=
  ⟨by decide,
   (net_rx_classifies xv6Consts arpKernel (page 0) 42 (by decide) (by decide)).2.2.1 (by decide),
   (net_rx_classifies xv6Consts arpKernel (page 0) 41 (by decide) (by decide)).2.2.2.2
     (by decide) (by decide)⟩

/-! ### ARP -/

theorem rd8_wr8_eq (m : Nat → Nat) (a v x : Nat) (h : x = a) :
    rd8 (wr8 m a v) x = v % 256 := by
  subst h; simp [rd8, wr8]

theorem rd8_wr8_ne (m : Nat → Nat) (a v x : Nat) (h : x ≠ a) :
    rd8 (wr8 m a v) x = rd8 m x := by
  simp [rd8, wr8, Function.update_noteq h]

theorem rd8_memmove_in (m : Nat → Nat) (dst src n x : Nat) (h : dst ≤ x ∧ x < dst + n) :
    rd8 (memmove m dst src n) x = rd8 m (src + (x - dst)) := by
  simp [rd8, memmove, h]

theorem rd8_memmove_out (m : Nat → Nat) (dst src n x : Nat) (h : x < dst ∨ dst + n ≤ x) :
    rd8 (memmove m dst src n) x = rd8 m x := by
  have h' : ¬ (dst ≤ x ∧ x < dst + n) := by omega
  simp [rd8, memmove, h']

theorem rd8_mac_in (m : Nat → Nat) (dst x : Nat) (h : dst ≤ x ∧ x < dst + 6) :
    rd8 (wrBytes m dst local_mac) x = local_mac.getD (x - dst) 0 := by
  have h' : dst ≤ x ∧ x < dst + local_mac.length := h
  have h6 : x - dst < 6 := by omega
  simp only [rd8, wrBytes, if_pos h', Nat.mod_mod]
  generalize x - dst = k at h6
  interval_cases k <;> rfl

theorem rd8_mac_out (m : Nat → Nat) (dst x : Nat) (h : x < dst ∨ dst + 6 ≤ x) :
    rd8 (wrBytes m dst local_mac) x = rd8 m x := by
  have h' : ¬ (dst ≤ x ∧ x < dst + local_mac.length) := by
    show ¬ (dst ≤ x ∧ x < dst + 6)
    omega
  simp only [rd8, wrBytes, if_neg h']

theorem arp_reply_outside (c : Consts) (m : Nat → Nat) (buf inbuf a : Nat)
    (h : a < buf ∨ buf + 42 ≤ a) :
    rd8 (arp_reply c m buf inbuf) a = rd8 m a := by
  simp (disch := omega) only [arp_reply, wr16be, wr32be, rd8_memmove_out, rd8_wr8_ne,
    rd8_mac_out]

theorem arp_reply_fields (c : Consts) (m : Nat → Nat) (buf inbuf : Nat)
    (hd : inbuf + 42 ≤ buf ∨ buf + 42 ≤ inbuf) :
    (∀ k, k < 6 → rd8 (arp_reply c m buf inbuf) (buf + k) = rd8 m (inbuf + 6 + k)) ∧
    (∀ k, k < 6 → rd8 (arp_reply c m buf inbuf) (buf + 6 + k) = local_mac.getD k 0) ∧
    rd16be (arp_reply c m buf inbuf) (buf + 12) = 0x0806 ∧
    rd16be (arp_reply c m buf inbuf) (buf + 14) = 1 ∧
    rd16be (arp_reply c m buf inbuf) (buf + 16) = 0x0800 ∧
    rd8 (arp_reply c m buf inbuf) (buf + 18) = 6 ∧
    rd8 (arp_reply c m buf inbuf) (buf + 19) = 4 ∧
    rd16be (arp_reply c m buf inbuf) (buf + 20) = 2 ∧
    (∀ k, k < 6 → rd8 (arp_reply c m buf inbuf) (buf + 22 + k) = local_mac.getD k 0) ∧
    rd32be (arp_reply c m buf inbuf) (buf + 28) = c.local_ip % 4294967296 ∧
    (∀ k, k < 6 → rd8 (arp_reply c m buf inbuf) (buf + 32 + k) = rd8 m (inbuf + 6 + k)) ∧
    (∀ k, k < 4 → rd8 (arp_reply c m buf inbuf) (buf + 38 + k) = rd8 m (inbuf + 28 + k)) := by
  refine ⟨?_, ?_, ?_, ?_, ?_, ?_, ?_, ?_, ?_, ?_, ?_, ?_⟩
  · intro k hk
    simp (disch := omega) only [arp_reply, wr16be, wr32be, rd8_memmove_out, rd8_wr8_ne,
      rd8_mac_out, rd8_memmove_in, Nat.add_sub_cancel_left]
  · intro k hk
    simp (disch := omega) only [arp_reply, wr16be, wr32be, rd8_memmove_out, rd8_wr8_ne,
      rd8_mac_out, rd8_mac_in, Nat.add_sub_cancel_left]
  · simp (disch := omega) only [rd16be, arp_reply, wr16be, wr32be, rd8_memmove_out, rd8_wr8_ne,
      rd8_mac_out, rd8_wr8_eq]
  · simp (disch := omega) only [rd16be, arp_reply, wr16be, wr32be, rd8_memmove_out, rd8_wr8_ne,
      rd8_mac_out, rd8_wr8_eq]
  · simp (disch := omega) only [rd16be, arp_reply, wr16be, wr32be, rd8_memmove_out, rd8_wr8_ne,
      rd8_mac_out, rd8_wr8_eq]
  · simp (disch := omega) only [rd16be, arp_reply, wr16be, wr32be, rd8_memmove_out, rd8_wr8_ne,
      rd8_mac_out, rd8_wr8_eq]
  · simp (disch := omega) only [rd16be, arp_reply, wr16be, wr32be, rd8_memmove_out, rd8_wr8_ne,
      rd8_mac_out, rd8_wr8_eq]
  · simp (disch := omega) only [rd16be, arp_reply, wr16be, wr32be, rd8_memmove_out, rd8_wr8_ne,
      rd8_mac_out, rd8_wr8_eq]
  · intro k hk
    simp (disch := omega) only [arp_reply, wr16be, wr32be, rd8_memmove_out, rd8_wr8_ne,
      rd8_mac_out, rd8_mac_in, Nat.add_sub_cancel_left]
  · simp (disch := omega) only [rd32be, arp_reply, wr16be, wr32be, rd8_memmove_out, rd8_wr8_ne,
      rd8_mac_out, rd8_wr8_eq]
    omega
  · intro k hk
    simp (disch := omega) only [arp_reply, wr16be, wr32be, rd8_memmove_out, rd8_wr8_ne,
      rd8_mac_out, rd8_memmove_in, Nat.add_sub_cancel_left]
  · intro k hk
    simp (disch := omega) only [arp_reply, wr16be, wr32be, rd8_memmove_out, rd8_wr8_ne,
      rd8_mac_out, rd8_memmove_in, Nat.add_sub_cancel_left]

theorem arp_rx_first (c : Consts) (inbuf : Nat) (s : Kernel) (h0 : s.seen_arp = 0)
    (ha : s.alloc_seq s.nalloc ≠ 0) :
    arp_rx c inbuf s =
      (e1000_transmit c (s.alloc_seq s.nalloc) 42
        { s with
          seen_arp := 1
          nalloc := s.nalloc + 1
          mem := arp_reply c s.mem (s.alloc_seq s.nalloc) inbuf }).map
        (fun res => kfree inbuf res.2) := by
  unfold arp_rx
  rw [if_neg (by rw [h0]; exact fun h => h rfl)]
  simp only [kalloc, ha, if_false, arp_reply]
  generalize e1000_transmit c _ _ _ = r
  cases r <;> rfl

theorem arp_rx_later (c : Consts) (inbuf : Nat) (s : Kernel) (h : s.seen_arp ≠ 0) :
    arp_rx c inbuf s = some (kfree inbuf s) := by
  unfold arp_rx
  rw [if_pos h]

theorem e1000_transmit_frame (c : Consts) (buf : Nat) (len : Int) (s : Kernel)
    (h : s.tdt < RING) :
    ∃ res, e1000_transmit c buf len s = some res ∧ res.2.mem = s.mem ∧
      res.2.seen_arp = s.seen_arp ∧ res.2.rx_log = s.rx_log ∧ res.2.sockets = s.sockets ∧
      res.2.nalloc = s.nalloc ∧ res.2.alloc_seq = s.alloc_seq ∧
      res.2.freed = (if (s.tx_ring ⟨s.tdt, h⟩).dd c = true ∧ s.tx_bufs ⟨s.tdt, h⟩ ≠ 0
        then s.freed ++ [s.tx_bufs ⟨s.tdt, h⟩] else s.freed) := by
  unfold e1000_transmit
  rw [dif_pos h]
  simp only
  by_cases hdd : (s.tx_ring ⟨s.tdt, h⟩).dd c = false
  · rw [if_pos hdd]
    refine ⟨_, rfl, rfl, rfl, rfl, rfl, rfl, rfl, ?_⟩
    rw [if_neg (by rw [hdd]; simp)]
  · rw [if_neg hdd]
    have hdd' : (s.tx_ring ⟨s.tdt, h⟩).dd c = true := by simpa using hdd
    by_cases hb : s.tx_bufs ⟨s.tdt, h⟩ ≠ 0
    · simp only [if_pos hb]
      refine ⟨_, rfl, rfl, rfl, rfl, rfl, rfl, rfl, ?_⟩
      rw [if_pos ⟨hdd', hb⟩]
      rfl
    · simp only [if_neg hb]
      refine ⟨_, rfl, rfl, rfl, rfl, rfl, rfl, rfl, ?_⟩
      rw [if_neg (fun hh => hb hh.2)]

theorem classify_congr {m m' : Nat → Nat} {buf : Nat} (len : Int)
    (h0 : rd8 m (buf + 12) = rd8 m' (buf + 12)) (h1 : rd8 m (buf + 13) = rd8 m' (buf + 13)) :
    classify m buf len = classify m' buf len := by
  have e : buf + 12 + 1 = buf + 13 := rfl
  simp only [classify, rd16be, e, h0, h1]

theorem deliver_all_seen (c : Consts) :
    ∀ (fs : List (Nat × Int)) (s : Kernel), s.seen_arp ≠ 0 →
      (∀ f ∈ fs, classify s.mem f.1 f.2 = FrameClass.arp) →
      deliver_all c fs s = some { s with
        freed := s.freed ++ fs.map Prod.fst
        rx_log := s.rx_log ++ fs } := by
  intro fs
  induction fs with
  | nil => intro s _ _; simp [deliver_all]
  | cons f fs ih =>
    intro s hs hf
    have h1 := hf f (List.mem_cons_self _ _)
    rw [deliver_all, net_rx_by_class, h1]
    simp only
    rw [arp_rx_later c f.1 { s with rx_log := s.rx_log ++ [(f.1, f.2)] } hs]
    simp only [Option.some_bind, kfree]
    rw [ih { s with rx_log := s.rx_log ++ [(f.1, f.2)], freed := s.freed ++ [f.1] } hs
      (fun g hg => hf g (List.mem_cons_of_mem _ hg))]
    simp

/-- C15: ARP is one-shot.  From a state in which no ARP frame has been seen
(`seen_arp` is 0, as at start), a sequence of ARP frames handed to `net_rx`
one after the other is, as a whole, one call of `e1000_transmit`, for the
first frame, followed by one `kfree` for every frame of the sequence: the call
transmits the 42 bytes of the page that `kalloc` gave, which hold the reply to
the first frame (`ArpReplyTo`); every ARP frame that comes when `seen_arp` is
set is freed and changes nothing else than the two logs, so no later frame
transmits; and the buffers freed by the run are those of the frames, each
once, in their order (after the buffer the transmit slot owned, when it owned
one). -/
theorem arp_one_shot (c : Consts) (s0 : Kernel) (b0 : Nat) (l0 : Int)
    (rest : List (Nat × Int))
    (hseen : s0.seen_arp = 0) (htdt : s0.tdt < 16) (halloc : s0.alloc_seq s0.nalloc ≠ 0)
    (harp : ∀ f ∈ (b0, l0) :: rest, classify s0.mem f.1 f.2 = FrameClass.arp)
    (hdisj : ∀ f ∈ (b0, l0) :: rest,
      f.1 + 42 ≤ s0.alloc_seq s0.nalloc ∨ s0.alloc_seq s0.nalloc + 42 ≤ f.1) :
    ∃ (r : Int) (sT : Kernel),
      e1000_transmit c (s0.alloc_seq s0.nalloc) 42
        { s0 with
          seen_arp := 1
          nalloc := s0.nalloc + 1
          mem := arp_reply c s0.mem (s0.alloc_seq s0.nalloc) b0
          rx_log := s0.rx_log ++ [(b0, l0)] } = some (r, sT) ∧
      ArpReplyTo c (arp_reply c s0.mem (s0.alloc_seq s0.nalloc) b0) (s0.alloc_seq s0.nalloc)
        s0.mem b0 ∧
      deliver_all c ((b0, l0) :: rest) s0 = some { sT with
        freed := sT.freed ++ b0 :: rest.map Prod.fst
        rx_log := s0.rx_log ++ (b0, l0) :: rest } ∧
      sT.freed = (if (s0.tx_ring ⟨s0.tdt, htdt⟩).dd c = true ∧ s0.tx_bufs ⟨s0.tdt, htdt⟩ ≠ 0
        then s0.freed ++ [s0.tx_bufs ⟨s0.tdt, htdt⟩] else s0.freed) ∧
      sT.seen_arp = 1 ∧
      (∀ (s : Kernel) (b : Nat) (l : Int), s.seen_arp ≠ 0 →
        classify s.mem b l = FrameClass.arp →
        net_rx c b l s =
          some { s with freed := s.freed ++ [b], rx_log := s.rx_log ++ [(b, l)] }) := by
  obtain ⟨res, hres, hmem, hseenT, hlog, _, _, _, hfreed⟩ :=
    e1000_transmit_frame c (s0.alloc_seq s0.nalloc) 42
      { s0 with
        seen_arp := 1
        nalloc := s0.nalloc + 1
        mem := arp_reply c s0.mem (s0.alloc_seq s0.nalloc) b0
        rx_log := s0.rx_log ++ [(b0, l0)] } htdt
  have h0 := harp (b0, l0) (List.mem_cons_self _ _)
  have hd0 := hdisj (b0, l0) (List.mem_cons_self _ _)
  refine ⟨res.1, res.2, hres, arp_reply_fields c s0.mem _ b0 hd0, ?_, hfreed, hseenT, ?_⟩
  · have hfirst := arp_rx_first c b0 { s0 with rx_log := s0.rx_log ++ [(b0, l0)] } hseen halloc
    simp only at h0
    rw [deliver_all, net_rx_by_class, h0]
    simp only
    rw [hfirst, hres]
    simp only [Option.map_some', Option.some_bind, kfree]
    have hs1 : ({ res.2 with freed := res.2.freed ++ [b0] } : Kernel).seen_arp ≠ 0 := by
      show res.2.seen_arp ≠ 0
      rw [hseenT]
      exact (by decide : (1 : Int) ≠ 0)
    have hcl : ∀ f ∈ rest,
        classify ({ res.2 with freed := res.2.freed ++ [b0] } : Kernel).mem f.1 f.2 =
          FrameClass.arp := by
      intro f hf
      have hfd := hdisj f (List.mem_cons_of_mem _ hf)
      have hfa := harp f (List.mem_cons_of_mem _ hf)
      show classify res.2.mem f.1 f.2 = FrameClass.arp
      rw [hmem, ← hfa]
      exact classify_congr f.2
        (arp_reply_outside c s0.mem _ b0 (f.1 + 12) (by omega))
        (arp_reply_outside c s0.mem _ b0 (f.1 + 13) (by omega))
    rw [deliver_all_seen c rest { res.2 with freed := res.2.freed ++ [b0] } hs1 hcl]
    simp [hlog]
  · intro s b l hs hcl
    rw [net_rx_by_class, hcl]
    simp only
    rw [arp_rx_later c b { s with rx_log := s.rx_log ++ [(b, l)] } hs]
    rfl

/-- Witness of C15: three ARP requests, in `page 0`, `page 1` and `page 2`,
handed to `net_rx` from `arpKernel`: the reply to the first is in slot 0 of
the transmit ring with the length 42, the tail is 1, and the three buffers
are freed once each. -/
theorem arp_one_shot_witness :
    (∃ (r : Int) (sT : Kernel),
      e1000_transmit xv6Consts (arpKernel.alloc_seq arpKernel.nalloc) 42
        { arpKernel with
          seen_arp := 1
          nalloc := arpKernel.nalloc + 1
          mem := arp_reply xv6Consts arpKernel.mem (arpKernel.alloc_seq arpKernel.nalloc)
            (page 0)
          rx_log := arpKernel.rx_log ++ [(page 0, 42)] } = some (r, sT) ∧
      ArpReplyTo xv6Consts
        (arp_reply xv6Consts arpKernel.mem (arpKernel.alloc_seq arpKernel.nalloc) (page 0))
        (arpKernel.alloc_seq arpKernel.nalloc) arpKernel.mem (page 0) ∧
      deliver_all xv6Consts ((page 0, 42) :: [(page 1, 60), (page 2, 42)]) arpKernel =
        some { sT with
          freed := sT.freed ++ page 0 :: [(page 1, (60 : Int)), (page 2, 42)].map Prod.fst
          rx_log := arpKernel.rx_log ++ (page 0, 42) :: [(page 1, 60), (page 2, 42)] } ∧
      sT.freed = (if (arpKernel.tx_ring ⟨arpKernel.tdt, by decide⟩).dd xv6Consts = true ∧
          arpKernel.tx_bufs ⟨arpKernel.tdt, by decide⟩ ≠ 0
        then arpKernel.freed ++ [arpKernel.tx_bufs ⟨arpKernel.tdt, by decide⟩]
        else arpKernel.freed) ∧
      sT.seen_arp = 1 ∧
      (∀ (s : Kernel) (b : Nat) (l : Int), s.seen_arp ≠ 0 →
        classify s.mem b l = FrameClass.arp →
        net_rx xv6Consts b l s =
          some { s with freed := s.freed ++ [b], rx_log := s.rx_log ++ [(b, l)] })) ∧
    (deliver_all xv6Consts [(page 0, 42), (page 1, 60), (page 2, 42)] arpKernel).map
        (fun s => (s.seen_arp, [s.tdt, s.tx_bufs 0, (s.tx_ring 0).addr, (s.tx_ring 0).length,
          s.tx_bufs 1, s.nalloc], s.freed)) =
      some (1, [1, 0x87000000, 0x87000000, 42, 0, 1], [page 0, page 1, page 2]) :=
  ⟨arp_one_shot xv6Consts arpKernel (page 0) 42 [(page 1, 60), (page 2, 42)] (by decide)
      (by decide) (by decide) (by decide) (by decide),
   by decide⟩

/-! ### Ownership of a received buffer -/

theorem net_rx_outcome (c : Consts) (s : Kernel) (buf : Nat) (len : Int)
    (htdt : s.tdt < 16) (hr : ∀ j : Fin RING, (s.sockets j).inRange)
    (halloc : s.alloc_seq s.nalloc ≠ 0) :
    ∃ s', net_rx c buf len s = some s' ∧
      ((Enqueues s buf len ∧
          ∃ i, find_sock s.sockets (rd16be s.mem (buf + 36)) = some i ∧ s'.freed = s.freed ∧
            (s'.sockets i).queued = (s.sockets i).queued ++ [buf] ∧
            ∀ j : Fin RING, j ≠ i → s'.sockets j = s.sockets j) ∨
       (¬ Enqueues s buf len ∧ s'.sockets = s.sockets ∧
          (s'.freed = s.freed ++ [buf] ∨
            ∃ j : Fin RING, s'.freed = s.freed ++ [s.tx_bufs j] ++ [buf]))) := by
  rw [net_rx_by_class]
  cases hc : classify s.mem buf len
  · -- ARP
    have hne : ¬ Enqueues s buf len := fun h => by
      rw [h.1] at hc
      exact absurd hc (by decide)
    simp only
    by_cases hs : s.seen_arp = 0
    · rw [arp_rx_first c buf { s with rx_log := s.rx_log ++ [(buf, len)] } hs halloc]
      obtain ⟨res, hres, _, _, _, hsock, _, _, hfreed⟩ :=
        e1000_transmit_frame c (s.alloc_seq s.nalloc) 42
          { s with
            seen_arp := 1
            nalloc := s.nalloc + 1
            mem := arp_reply c s.mem (s.alloc_seq s.nalloc) buf
            rx_log := s.rx_log ++ [(buf, len)] } htdt
      rw [hres]
      refine ⟨_, rfl, Or.inr ⟨hne, hsock, ?_⟩⟩
      simp only [kfree, hfreed]
      split
      · exact Or.inr ⟨⟨s.tdt, htdt⟩, rfl⟩
      · exact Or.inl rfl
    · rw [arp_rx_later c buf { s with rx_log := s.rx_log ++ [(buf, len)] } hs]
      exact ⟨_, rfl, Or.inr ⟨hne, rfl, Or.inl rfl⟩⟩
  · -- IP
    simp only
    by_cases h17 : rd8 s.mem (buf + 23) = 17
    · cases hf : find_sock s.sockets (rd16be s.mem (buf + 36))
      · refine ⟨kfree buf { s with rx_log := s.rx_log ++ [(buf, len)], seen_ip := 1 }, ?_,
          Or.inr ⟨?_, rfl, Or.inl rfl⟩⟩
        · simp [ip_rx, h17, hf]
        · rintro ⟨_, _, i, hi, _⟩
          rw [hf] at hi
          exact absurd hi (by simp)
      · rename_i i
        have hudp : udpFor ({ s with rx_log := s.rx_log ++ [(buf, len)] } : Kernel).mem buf
            (rd16be s.mem (buf + 36)) := ⟨h17, rfl⟩
        by_cases hfull : next16 (s.sockets i).w = (s.sockets i).r
        · refine ⟨_, ip_rx_full_eq (s := { s with rx_log := s.rx_log ++ [(buf, len)] }) len
            hudp hf hfull, Or.inr ⟨?_, rfl, Or.inl rfl⟩⟩
          rintro ⟨_, _, j, hj, hnf⟩
          rw [hf] at hj
          cases hj
          rw [next16_eq (hr i).2.2.1] at hfull
          exact hnf hfull
        · refine ⟨_, ip_rx_enqueue_eq (s := { s with rx_log := s.rx_log ++ [(buf, len)] }) len
            hudp hf (hr i) hfull, Or.inl ⟨⟨hc, h17, i, hf, ?_⟩, i, rfl, rfl, ?_, ?_⟩⟩
          · rw [next16_eq (hr i).2.2.1] at hfull
            exact hfull
          · simp only [Function.update_same]
            exact Sock.queued_enqueue _ (hr i) hfull buf
          · intro j hj
            simp only [Function.update_noteq hj]
    · refine ⟨kfree buf { s with rx_log := s.rx_log ++ [(buf, len)], seen_ip := 1 }, ?_,
        Or.inr ⟨fun h => h17 h.2.1, rfl, Or.inl rfl⟩⟩
      simp [ip_rx, h17]
  · -- neither
    refine ⟨_, rfl, Or.inr ⟨fun h => ?_, rfl, Or.inl rfl⟩⟩
    rw [h.1] at hc
    exact absurd hc (by decide)

/-- C18: single-owner handoff in `net_rx`.  For a buffer that is in no socket
queue and in no slot of the transmit ring when it is passed to `net_rx`, in a
state in which `net_rx` returns (indices of the queues in range, transmit tail
in range, a page for an ARP reply), on return either the buffer has been freed
once and is in no queue, or it has not been freed and is once in the queue of
the socket bound to its UDP destination port and in no other queue; the second
case occurs iff the frame is classified IP, its protocol field is 17, a valid
socket is bound to the destination port and the queue of that socket is not
full (`Enqueues`), the first case iff not. -/
theorem net_rx_single_owner (c : Consts) (s : Kernel) (buf : Nat) (len : Int)
    (htdt : s.tdt < 16) (hr : ∀ j : Fin RING, (s.sockets j).inRange)
    (halloc : s.alloc_seq s.nalloc ≠ 0)
    (hq : ∀ j : Fin RING, buf ∉ (s.sockets j).queued)
    (htx : ∀ j : Fin RING, s.tx_bufs j ≠ buf) :
    ∃ s', net_rx c buf len s = some s' ∧
      (FreedOnce s s' buf ∨ QueuedOnce s s' buf) ∧
      (QueuedOnce s s' buf ↔ Enqueues s buf len) ∧
      (FreedOnce s s' buf ↔ ¬ Enqueues s buf len) := by
  obtain ⟨s', hs', hcase⟩ := net_rx_outcome c s buf len htdt hr halloc
  have hz : ∀ j : Fin RING, (s.sockets j).queued.count buf = 0 := fun j =>
    List.count_eq_zero_of_not_mem (hq j)
  refine ⟨s', hs', ?_⟩
  rcases hcase with ⟨henq, i, hi, hfr, hqi, hoth⟩ | ⟨hne, hsock, hfr⟩
  · have hf0 : freedSince s s' buf = 0 := by
      simp [freedSince, hfr]
    have hQ : QueuedOnce s s' buf := by
      refine ⟨hf0, i, hi, ?_, ?_⟩
      · rw [hqi, List.count_append, hz i]
        simp
      · intro j hj
        rw [hoth j hj]
        exact hz j
    refine ⟨Or.inr hQ, ⟨fun _ => henq, fun _ => hQ⟩, ⟨fun h => ?_, fun h => absurd henq h⟩⟩
    have h1 := h.1
    rw [hf0] at h1
    exact absurd h1 (by decide)
  · have hf1 : freedSince s s' buf = 1 := by
      rcases hfr with hfr | ⟨j, hfr⟩
      · simp [freedSince, hfr]
      · have hj := htx j
        simp [freedSince, hfr, List.append_assoc, List.count_cons, hj]
    have hF : FreedOnce s s' buf := by
      refine ⟨hf1, fun j => ?_⟩
      rw [hsock]
      exact hz j
    refine ⟨Or.inl hF, ⟨fun h => ?_, fun h => absurd h hne⟩, ⟨fun _ => hne, fun _ => hF⟩⟩
    have h0 := h.1
    rw [hf1] at h0
    exact absurd h0 (by decide)

/-- Witness of C18: the UDP frame for port 9000 in `page 0`, handed to
`net_rx` in the state `helloEcho`, in which port 9000 is bound and its queue
is empty: the frame is one for a queue. -/
theorem net_rx_single_owner_witness :
    (∃ s', net_rx xv6Consts (page 0) 47 helloEcho = some s' ∧
      (FreedOnce helloEcho s' (page 0) ∨ QueuedOnce helloEcho s' (page 0)) ∧
      (QueuedOnce helloEcho s' (page 0) ↔ Enqueues helloEcho (page 0) 47) ∧
      (FreedOnce helloEcho s' (page 0) ↔ ¬ Enqueues helloEcho (page 0) 47)) ∧
    Enqueues helloEcho (page 0) 47 :=
  ⟨net_rx_single_owner xv6Consts helloEcho (page 0) 47 (by decide) (by decide) (by decide)
      (by decide) (by decide),
   ⟨by decide, by decide, 0, by decide, by decide⟩⟩

/-! ### The invariant of the socket table -/

theorem Sock.bound_iff (sk : Sock) (p : Int) :
    sk.bound p = true ↔ sk.valid ≠ 0 ∧ sk.port = p := by
  simp [Sock.bound]

theorem SockInv_update {socks : Fin RING → Sock} (h : SockInv socks) (i : Fin RING) (sk : Sock)
    (hr : sk.inRange)
    (hv : sk.valid ≠ 0 → (socks i).valid ≠ 0 ∧ sk.port = (socks i).port) :
    SockInv (Function.update socks i sk) := by
  obtain ⟨h1, h2⟩ := h
  refine ⟨fun j => ?_, fun a b ha hb hp => ?_⟩
  · by_cases hj : j = i
    · subst hj
      rw [Function.update_same]
      exact hr
    · rw [Function.update_noteq hj]
      exact h1 j
  · by_cases hai : a = i
    · by_cases hbi : b = i
      · rw [hai, hbi]
      · subst hai
        rw [Function.update_same] at ha hp
        rw [Function.update_noteq hbi] at hb hp
        obtain ⟨hva, hpa⟩ := hv ha
        exact h2 a b hva hb (hpa ▸ hp)
    · by_cases hbi : b = i
      · subst hbi
        rw [Function.update_same] at hb hp
        rw [Function.update_noteq hai] at ha hp
        obtain ⟨hvb, hpb⟩ := hv hb
        exact h2 a b ha hvb (hp.trans hpb)
      · rw [Function.update_noteq hai] at ha hp
        rw [Function.update_noteq hbi] at hb hp
        exact h2 a b ha hb hp

theorem SockInv_find {socks : Fin RING → Sock} (h : SockInv socks) (p : Int) (i : Fin RING)
    (hv : (socks i).valid ≠ 0) (hp : (socks i).port = p) : find_sock socks p = some i := by
  apply find_sock_eq
  · exact ((socks i).bound_iff p).2 ⟨hv, hp⟩
  · intro j hj
    cases hb : (socks j).bound p
    · rfl
    · obtain ⟨hvj, hpj⟩ := ((socks j).bound_iff p).1 hb
      have := h.2 j i hvj hv (hpj.trans hp.symm)
      subst this
      exact absurd hj (lt_irrefl _)

theorem sys_bind_inv (p : Int) (s : Kernel) (h : SockInv s.sockets) :
    SockInv (sys_bind p s).2.sockets := by
  unfold sys_bind
  cases hf : find_sock s.sockets p
  · cases hfr : find_free s.sockets
    · exact h
    · rename_i i
      have hnone := find_none_iff.1 hf
      have hb : ∀ j : Fin RING, (s.sockets j).valid ≠ 0 → (s.sockets j).port ≠ p := by
        intro j hvj hpj
        have := hnone j
        rw [((s.sockets j).bound_iff p).2 ⟨hvj, hpj⟩] at this
        exact absurd this (by decide)
      obtain ⟨h1, h2⟩ := h
      simp only
      refine ⟨fun j => ?_, fun a b ha hb' hp => ?_⟩
      · by_cases hj : j = i
        · subst hj
          rw [Function.update_same]
          exact ⟨le_refl _, (by decide : (0 : Int) < 16), le_refl _, (by decide : (0 : Int) < 16)⟩
        · rw [Function.update_noteq hj]
          exact h1 j
      · by_cases hai : a = i
        · by_cases hbi : b = i
          · rw [hai, hbi]
          · subst hai
            rw [Function.update_same] at hp
            rw [Function.update_noteq hbi] at hb' hp
            exact absurd hp.symm (hb b hb')
        · by_cases hbi : b = i
          · subst hbi
            rw [Function.update_same] at hp
            rw [Function.update_noteq hai] at ha hp
            exact absurd hp (hb a ha)
          · rw [Function.update_noteq hai] at ha hp
            rw [Function.update_noteq hbi] at hb' hp
            exact h2 a b ha hb' hp
  · exact h

theorem TableOp.step_inv (op : TableOp) (s : Kernel) (h : SockInv s.sockets) :
    ∃ s', op.step s = some s' ∧ SockInv s'.sockets := by
  cases op with
  | bind p => exact ⟨_, rfl, sys_bind_inv p s h⟩
  | unbind p =>
    simp only [TableOp.step]
    cases hf : find_sock s.sockets p
    · refine ⟨s, ?_, h⟩
      simp [sys_unbind, hf]
    · rename_i i
      rw [sys_unbind_eq (le_refl 16) hf (h.1 i)]
      refine ⟨_, rfl, ?_⟩
      apply SockInv_update h
      · have := h.1 i
        unfold Sock.inRange at this ⊢
        simp only
        omega
      · intro hv
        exact absurd rfl hv
  | rx m buf len =>
    simp only [TableOp.step, ip_rx]
    split
    · exact ⟨_, rfl, h⟩
    · split
      · rename_i i _
        split
        · exact ⟨_, rfl, h⟩
        · rw [toIdx_eq (h.1 i).2.2.1 (h.1 i).2.2.2]
          refine ⟨_, rfl, ?_⟩
          apply SockInv_update h
          · exact Sock.inRange_enqueue _ (h.1 i) _
          · intro hv
            exact ⟨hv, rfl⟩
      · exact ⟨_, rfl, h⟩
  | recv d a1 a2 a3 maxlen =>
    simp only [TableOp.step]
    cases hf : find_sock s.sockets d
    · refine ⟨s, ?_, h⟩
      simp [sys_recv, hf]
    · rename_i i
      by_cases he : (s.sockets i).r = (s.sockets i).w
      · refine ⟨s, ?_, h⟩
        rw [sys_recv_empty_eq a1 a2 a3 maxlen hf he]
        rfl
      · obtain ⟨v, um, hres⟩ := sys_recv_dequeue_eq a1 a2 a3 maxlen hf (h.1 i) he
        rw [hres]
        refine ⟨_, rfl, ?_⟩
        apply SockInv_update h
        · exact Sock.inRange_dequeue _ (h.1 i)
        · intro hv
          exact ⟨hv, rfl⟩

theorem runTable_inv : ∀ (ops : List TableOp) (s : Kernel), SockInv s.sockets →
    ∃ s', runTable ops s = some s' ∧ SockInv s'.sockets := by
  intro ops
  induction ops with
  | nil => exact fun s h => ⟨s, rfl, h⟩
  | cons op ops ih =>
    intro s h
    obtain ⟨s1, hs1, h1⟩ := op.step_inv s h
    obtain ⟨s2, hs2, h2⟩ := ih s1 h1
    exact ⟨s2, by rw [runTable, hs1]; exact hs2, h2⟩

/-- C19: the invariant of the socket table.  From a table in which every slot
is free with `r = w = 0`, every sequence of `bind`, `unbind`, `ip_rx` and
`recv` runs to its end (no index of a queue is out of range on the way), and
in the state it reaches no two valid slots hold the same port and the read and
write index of every slot are in 0..15; hence the lookup of a port, which takes
the first matching slot, finds slot `i` iff `i` is valid and holds the port,
and the indices `r` and `w` used for `rxq` are indices of the array. -/
theorem socket_table_invariant (ops : List TableOp) (s0 : Kernel)
    (h0 : ∀ i : Fin RING,
      (s0.sockets i).valid = 0 ∧ (s0.sockets i).r = 0 ∧ (s0.sockets i).w = 0) :
    ∃ s, runTable ops s0 = some s ∧
      (∀ i j : Fin RING, (s.sockets i).valid ≠ 0 → (s.sockets j).valid ≠ 0 →
        (s.sockets i).port = (s.sockets j).port → i = j) ∧
      (∀ i : Fin RING, 0 ≤ (s.sockets i).r ∧ (s.sockets i).r < 16 ∧
        0 ≤ (s.sockets i).w ∧ (s.sockets i).w < 16) ∧
      (∀ (p : Int) (i : Fin RING),
        find_sock s.sockets p = some i ↔ (s.sockets i).valid ≠ 0 ∧ (s.sockets i).port = p) ∧
      (∀ i : Fin RING, ∃ ri wi : Fin RING,
        toIdx (s.sockets i).r = some ri ∧ toIdx (s.sockets i).w = some wi) := by
  have hinit : SockInv s0.sockets := by
    refine ⟨fun i => ?_, fun i j hi _ _ => absurd (h0 i).1 hi⟩
    obtain ⟨_, hr, hw⟩ := h0 i
    unfold Sock.inRange
    omega
  obtain ⟨s, hs, hinv⟩ := runTable_inv ops s0 hinit
  refine ⟨s, hs, hinv.2, hinv.1, fun p i => ⟨fun hf => ?_, fun h => SockInv_find hinv p i h.1 h.2⟩,
    fun i => ⟨_, _, toIdx_eq (hinv.1 i).1 (hinv.1 i).2.1,
      toIdx_eq (hinv.1 i).2.2.1 (hinv.1 i).2.2.2⟩⟩
  exact ((s.sockets i).bound_iff p).1 (find_first hf).1

/-- Witness of C19: a run of eight operations from `zeroKernel`, with two
ports bound, a second `bind` of a bound port, two frames for port 2000, one
`recv`, `unbind(2000)` and a `bind` that takes the slot again. -/
theorem socket_table_invariant_witness :
    (∃ s, runTable [TableOp.bind 2000, TableOp.bind 3000, TableOp.bind 2000,
          TableOp.rx (frameMem 2000) (page 0) 60, TableOp.rx (frameMem 2000) (page 1) 60,
          TableOp.recv 2000 0 8 16 100, TableOp.unbind 2000, TableOp.bind 4000]
        zeroKernel = some s ∧
      (∀ i j : Fin RING, (s.sockets i).valid ≠ 0 → (s.sockets j).valid ≠ 0 →
        (s.sockets i).port = (s.sockets j).port → i = j) ∧
      (∀ i : Fin RING, 0 ≤ (s.sockets i).r ∧ (s.sockets i).r < 16 ∧
        0 ≤ (s.sockets i).w ∧ (s.sockets i).w < 16) ∧
      (∀ (p : Int) (i : Fin RING),
        find_sock s.sockets p = some i ↔ (s.sockets i).valid ≠ 0 ∧ (s.sockets i).port = p) ∧
      (∀ i : Fin RING, ∃ ri wi : Fin RING,
        toIdx (s.sockets i).r = some ri ∧ toIdx (s.sockets i).w = some wi)) ∧
    (runTable [TableOp.bind 2000, TableOp.bind 3000, TableOp.bind 2000,
          TableOp.rx (frameMem 2000) (page 0) 60, TableOp.rx (frameMem 2000) (page 1) 60,
          TableOp.recv 2000 0 8 16 100, TableOp.unbind 2000, TableOp.bind 4000]
        zeroKernel).map
        (fun s => ([(s.sockets 0).valid, (s.sockets 0).port, (s.sockets 1).valid,
          (s.sockets 1).port, (s.sockets 2).valid], s.freed)) =
      some ([1, 4000, 1, 3000, 0], [page 0, page 1]) :=
  ⟨socket_table_invariant _ zeroKernel (by decide), by decide⟩

/-! ### The transmit ring after `e1000_init` -/

theorem init_tx_set (c : Consts) : ∀ (is : List (Fin RING)) (s : Kernel) (j : Fin RING),
    (j ∈ is ∨ ((s.tx_ring j).status = c.TXD_STAT_DD % 256 ∧ s.tx_bufs j = 0)) →
    ((init_tx c is s).tx_ring j).status = c.TXD_STAT_DD % 256 ∧
      (init_tx c is s).tx_bufs j = 0 := by
  intro is
  induction is with
  | nil =>
    intro s j h
    rcases h with h | h
    · exact absurd h (List.not_mem_nil _)
    · exact h
  | cons i is ih =>
    intro s j h
    rw [init_tx]
    apply ih
    by_cases hj : j = i
    · subst hj
      right
      simp only [Function.update_same, and_self]
    · rcases h with h | h
      · rcases List.mem_cons.1 h with h | h
        · exact absurd h hj
        · exact Or.inl h
      · right
        simp only [Function.update_noteq hj]
        exact h

theorem init_rx_tx : ∀ (is : List (Fin RING)) (s s' : Kernel), init_rx is s = some s' →
    s'.tx_ring = s.tx_ring ∧ s'.tx_bufs = s.tx_bufs ∧ s'.tdt = s.tdt := by
  intro is
  induction is with
  | nil =>
    intro s s' h
    simp only [init_rx, Option.some.injEq] at h
    subst h
    exact ⟨rfl, rfl, rfl⟩
  | cons i is ih =>
    intro s s' h
    rw [init_rx] at h
    simp only [kalloc] at h
    split at h
    · exact absurd h (by simp)
    · have h2 := ih _ s' h
      exact h2

theorem e1000_init_tx (c : Consts) (s sI : Kernel) (h : e1000_init c s = some sI) :
    sI.tdt = 0 ∧ ∀ j : Fin RING,
      (sI.tx_ring j).status = c.TXD_STAT_DD % 256 ∧ sI.tx_bufs j = 0 := by
  unfold e1000_init at h
  simp only at h
  split at h
  · exact absurd h (by simp)
  · rename_i s5 h5
    simp only [Option.some.injEq] at h
    subst h
    obtain ⟨h1, h2, h3⟩ := init_rx_tx _ _ _ h5
    refine ⟨h3, fun j => ?_⟩
    show (s5.tx_ring j).status = _ ∧ s5.tx_bufs j = 0
    rw [h1, h2]
    exact init_tx_set c _ _ j (Or.inl (List.mem_finRange j))

theorem e1000_transmit_status (c : Consts) (buf : Nat) (len : Int) (t : Kernel)
    (res : Int × Kernel) (h : e1000_transmit c buf len t = some res) (j : Fin RING) :
    (res.2.tx_ring j).status = (t.tx_ring j).status := by
  unfold e1000_transmit at h
  split at h
  · rename_i ht
    simp only at h
    split at h
    · simp only [Option.some.injEq] at h
      subst h
      rfl
    · simp only [Option.some.injEq] at h
      subst h
      simp only
      by_cases hj : j = ⟨t.tdt, ht⟩
      · subst hj
        rw [Function.update_same]
        split <;> rfl
      · rw [Function.update_noteq hj]
        split <;> rfl
  · exact absurd h (by simp)

theorem e1000_transmit_step (c : Consts) (buf : Nat) (len : Int) (s : Kernel)
    (h : s.tdt < RING) (hdd : (s.tx_ring ⟨s.tdt, h⟩).dd c = true) :
    ∃ s', e1000_transmit c buf len s = some (0, s') ∧ s'.tdt = (s.tdt + 1) % 16 ∧
      s'.tx_bufs = Function.update s.tx_bufs ⟨s.tdt, h⟩ buf ∧
      s'.freed = (if s.tx_bufs ⟨s.tdt, h⟩ ≠ 0 then s.freed ++ [s.tx_bufs ⟨s.tdt, h⟩]
        else s.freed) := by
  unfold e1000_transmit
  rw [dif_pos h]
  simp only
  rw [if_neg (by rw [hdd]; simp)]
  refine ⟨_, rfl, rfl, ?_, ?_⟩
  · simp only
    split
    · simp only [kfree, Function.update_idem]
    · rfl
  · simp only
    split
    · rfl
    · rfl

theorem transmit_next (c : Consts) (frames : Nat → Nat × Int) (sI : Kernel)
    (hst : ∀ j : Fin RING, (sI.tx_ring j).dd c = true) (hbuf : ∀ k, (frames k).1 ≠ 0)
    (n : Nat) (s : Kernel) (buf : Nat) (len : Int) (hbn : buf = (frames n).1)
    (h : TxInv frames sI n s) :
    ∃ s', e1000_transmit c buf len s = some (0, s') ∧ TxInv frames sI (n + 1) s' ∧
      s'.freed = s.freed ++ (if 16 ≤ n then [(frames (n - 16)).1] else []) := by
  obtain ⟨ht, hs, hb⟩ := h
  have hlt : s.tdt < RING := by rw [ht]; exact Nat.mod_lt _ (by decide)
  have hidx : (⟨s.tdt, hlt⟩ : Fin RING) = ringSlot n := by
    apply Fin.ext
    simp only [ringSlot, ht]
  have hdd : (s.tx_ring ⟨s.tdt, hlt⟩).dd c = true := by
    have := hst ⟨s.tdt, hlt⟩
    unfold TxDesc.dd at this ⊢
    rw [hs]
    exact this
  obtain ⟨s', hs', htdt, hbufs, hfreed⟩ := e1000_transmit_step c buf len s hlt hdd
  refine ⟨s', hs', ⟨?_, ?_, ?_⟩, ?_⟩
  · rw [htdt, ht]
    omega
  · intro j
    rw [e1000_transmit_status c buf len s (0, s') hs' j]
    exact hs j
  · intro m hm1 hm2
    rw [hbufs, hidx]
    by_cases hm : m = n + 16
    · have e : ringSlot m = ringSlot n := by
        apply Fin.ext
        simp only [ringSlot, RING, hm]
        omega
      rw [e, Function.update_same, if_neg (by omega), hbn, hm]
      rfl
    · have e : ringSlot m ≠ ringSlot n := by
        intro he
        have := congrArg Fin.val he
        simp only [ringSlot, RING] at this
        omega
      rw [Function.update_noteq e]
      exact hb m (by omega) (by omega)
  · rw [hfreed, hidx, hb n (le_refl _) (by omega)]
    by_cases hn : n < 16
    · have h16 : ¬ 16 ≤ n := by omega
      simp only [if_pos hn, if_neg h16, ne_eq, not_true_eq_false, if_false, List.append_nil]
    · have h16 : 16 ≤ n := by omega
      simp only [if_neg hn, if_pos h16, if_pos (hbuf (n - 16))]

theorem transmit_seq_inv (c : Consts) (frames : Nat → Nat × Int) (sI : Kernel)
    (ht : sI.tdt = 0) (hst : ∀ j : Fin RING, (sI.tx_ring j).dd c = true)
    (hb : ∀ j : Fin RING, sI.tx_bufs j = 0) (hbuf : ∀ k, (frames k).1 ≠ 0) :
    ∀ n, ∃ sn, transmit_seq c frames n sI = some (List.replicate n 0, sn) ∧
      TxInv frames sI n sn ∧
      sn.freed = sI.freed ++ (List.range (n - 16)).map (fun k => (frames k).1) := by
  intro n
  induction n with
  | zero =>
    refine ⟨sI, rfl, ⟨ht, fun _ => rfl, fun m _ hm => ?_⟩, by simp⟩
    rw [if_pos (by omega)]
    exact hb _
  | succ n ih =>
    obtain ⟨sn, hsn, hinv, hfr⟩ := ih
    obtain ⟨s', hs', hinv', hfr'⟩ :=
      transmit_next c frames sI hst hbuf n sn (frames n).1 (frames n).2 rfl hinv
    refine ⟨s', ?_, hinv', ?_⟩
    · rw [transmit_seq, hsn]
      simp only
      rw [hs']
      simp only [List.replicate_succ']
    · rw [hfr', hfr]
      by_cases hn : 16 ≤ n
      · rw [if_pos hn]
        have e : n + 1 - 16 = (n - 16) + 1 := by omega
        rw [e, List.range_succ, List.map_append, List.append_assoc]
        rfl
      · rw [if_neg hn]
        have e : n + 1 - 16 = n - 16 := by omega
        rw [e, List.append_nil]

/-- C20: `e1000_transmit` never modifies the status field of a transmit
descriptor.  Hence, from the state `e1000_init` establishes, with the DD bit a
bit of the 8-bit status field and buffers that are not null, every call of a
sequence of calls of `e1000_transmit` returns 0: the first `n` calls return 0,
and so does the call number `n`; the buffers freed by the first `n` calls are
those of the calls number 0 to `n - 17`, and the call number `n` frees the
buffer of the call number `n - 16` when `16 ≤ n`, and nothing before. -/
theorem e1000_transmit_keeps_status (c : Consts) (s sI : Kernel)
    (frames : Nat → Nat × Int) (n : Nat)
    (hdd : 0 < c.TXD_STAT_DD ∧ c.TXD_STAT_DD < 256)
    (hinit : e1000_init c s = some sI) (hbuf : ∀ k, (frames k).1 ≠ 0) :
    (∀ (buf : Nat) (len : Int) (t : Kernel) (res : Int × Kernel),
      e1000_transmit c buf len t = some res →
      ∀ j : Fin RING, (res.2.tx_ring j).status = (t.tx_ring j).status) ∧
    ∃ sn, transmit_seq c frames n sI = some (List.replicate n 0, sn) ∧
      (∀ j : Fin RING, (sn.tx_ring j).status = (sI.tx_ring j).status) ∧
      sn.freed = sI.freed ++ (List.range (n - 16)).map (fun k => (frames k).1) ∧
      ∃ sn', e1000_transmit c (frames n).1 (frames n).2 sn = some (0, sn') ∧
        sn'.freed = sn.freed ++ (if 16 ≤ n then [(frames (n - 16)).1] else []) := by
  obtain ⟨ht, hj⟩ := e1000_init_tx c s sI hinit
  have hst : ∀ j : Fin RING, (sI.tx_ring j).dd c = true := by
    intro j
    unfold TxDesc.dd
    rw [(hj j).1, Nat.mod_eq_of_lt hdd.2, Nat.and_self]
    simp only [bne_iff_ne, ne_eq]
    omega
  obtain ⟨sn, hsn, hinv, hfr⟩ :=
    transmit_seq_inv c frames sI ht hst (fun j => (hj j).2) hbuf n
  obtain ⟨s', hs', _, hfr'⟩ :=
    transmit_next c frames sI hst hbuf n sn (frames n).1 (frames n).2 rfl hinv
  exact ⟨fun buf len t res h j => e1000_transmit_status c buf len t res h j,
    sn, hsn, hinv.2.1, hfr, s', hs', hfr'⟩

/-- Witness of C20: eighteen calls of `e1000_transmit` after `e1000_init`, the
call number `k` with the buffer `page k`: all return 0, and the calls number
16 and 17 have freed `page 0` and `page 1`. -/
theorem e1000_transmit_keeps_status_witness :
    ((∀ (buf : Nat) (len : Int) (t : Kernel) (res : Int × Kernel),
      e1000_transmit xv6Consts buf len t = some res →
      ∀ j : Fin RING, (res.2.tx_ring j).status = (t.tx_ring j).status) ∧
    ∃ sn, transmit_seq xv6Consts (fun k => (page k, 60 + (k : Int))) 18 initKernel =
        some (List.replicate 18 0, sn) ∧
      (∀ j : Fin RING, (sn.tx_ring j).status = (initKernel.tx_ring j).status) ∧
      sn.freed = initKernel.freed ++
        (List.range (18 - 16)).map (fun k => ((fun k => (page k, 60 + (k : Int))) k).1) ∧
      ∃ sn', e1000_transmit xv6Consts ((fun k => (page k, 60 + (k : Int))) 18).1
          ((fun k => (page k, 60 + (k : Int))) 18).2 sn = some (0, sn') ∧
        sn'.freed = sn.freed ++
          (if 16 ≤ 18 then [((fun k => (page k, 60 + (k : Int))) (18 - 16)).1] else [])) ∧
    (transmit_seq xv6Consts (fun k => (page k, 60 + (k : Int))) 18 initKernel).map
        (fun p => (p.1, p.2.freed, p.2.tdt)) =
      some (List.replicate 18 0, [page 0, page 1], 2) :=
  ⟨e1000_transmit_keeps_status xv6Consts zeroKernel initKernel
      (fun k => (page k, 60 + (k : Int))) 18 (by decide) rfl
      (fun k => by show page k ≠ 0; unfold page; omega),
   by decide⟩

end Labnet
